import Mathlib

/-!
# NyayaSetu front end: quota, analysis session, translation, sign-in and upload

A shallow embedding of

* `src/frontend/src/services/freeTrialService.js`
  (`uploadFreeTrialDocument`, `getRemainingTrials`, `incrementTrialUsage`),
* `src/frontend/src/components/FreeTrialUpload.jsx` (`handleSubmit` and its error handler,
  `handleReset`, `toggleLanguage`),
* `src/frontend/src/services/translationService.js` (`translateToHindi` and its
  `basicDictionary` loop),
* `src/frontend/src/pages/DocumentDetails.jsx` (`fetchDocumentDetails`,
  `handleGenerateSummary`, `toggleLanguage`, `toggleTranslationMode`),
* `src/frontend/src/context/AuthContext.jsx` (`initAuth`, `setAuthHeader`, `login`,
  `logout`), and
* `src/frontend/src/pages/UploadDocument.jsx` (`onDrop`).

Conventions of the embedding.

* A JavaScript string is a `List Char`.
* A JavaScript number is `JSNumber`: either `NaN` or an exact integer.  The source works on
  IEEE doubles; the two agree on every integer of magnitude up to `2 ^ 53`, which covers every
  value the quota code compares against (`0` and `15`).  Beyond that magnitude `parseInt`
  rounds and `toString` changes to exponent notation at `10 ^ 21`, which the embedding does
  not follow: a statement about an arbitrary stored count carries the bound as a hypothesis.
* `localStorage` is reduced to the one key the code touches, `'freeTrialsUsed'`: `none` is an
  absent key (`getItem` returns `null`), `some s` a stored string.
* A run of an event handler is a trace of the effects it performs, in program order
  (`Action`), together with the storage it leaves behind.  React state setters are effects;
  the state the next render sees is obtained by replaying the trace (`applyTrace`).  The
  handler reads the state captured by the render it was created in, never its own writes.
* The one `axios.post` of a run is an input of the run (`AxiosOutcome`): it resolves with a
  body or rejects with an error.  A resolved body is well typed: `summary` is an object whose
  `keyPoints`, when present, is an array of strings.  `localStorage` and `toast` calls do not
  throw; the display options of a toast are left out.
* Functions the source calls but that are not part of it are arguments of the definitions
  that use them: `JSON.parse`, `jwtDecode`, and `isSupportedFileType` of `utils/helpers`.
* A regular expression `\bpat\b` with the flags `gi` is run by `replaceWord`; its word class
  is the ASCII one (letters, digits, underscore), as in the source, which sets no `u` flag.
-/

namespace NyayaSetu

/-! ## JavaScript primitives used by the source -/

/-- A JavaScript number restricted to what the quota code produces: `NaN` or an integer. -/
inductive JSNumber where
  | nan
  | int (z : Int)
  deriving DecidableEq, Repr

namespace JSNumber

/-- Binary `+` on numbers. -/
def add : JSNumber → JSNumber → JSNumber
  | int a, int b => int (a + b)
  | _, _ => nan

/-- Binary `-` on numbers. -/
def sub : JSNumber → JSNumber → JSNumber
  | int a, int b => int (a - b)
  | _, _ => nan

/-- The comparison `x <= y`; any comparison with `NaN` is false. -/
def le : JSNumber → JSNumber → Bool
  | int a, int b => decide (a ≤ b)
  | _, _ => false

end JSNumber

/-- The function `Math.max` on two arguments: `NaN` if either argument is `NaN`. -/
def Math.max : JSNumber → JSNumber → JSNumber
  | .int a, .int b => .int (Max.max a b)
  | _, _ => .nan

/-- The function `Math.min` on two arguments: `NaN` if either argument is `NaN`. -/
def Math.min : JSNumber → JSNumber → JSNumber
  | .int a, .int b => .int (Min.min a b)
  | _, _ => .nan

/-- ECMAScript `StrWhiteSpaceChar`: the white space and line terminator code points that
`parseInt` skips at the start of its input. -/
def isStrWhiteSpaceChar (c : Char) : Bool :=
  let n := c.toNat
  n == 0x09 || n == 0x0A || n == 0x0B || n == 0x0C || n == 0x0D || n == 0x20 || n == 0xA0
    || n == 0x1680 || (0x2000 ≤ n && n ≤ 0x200A) || n == 0x2028 || n == 0x2029
    || n == 0x202F || n == 0x205F || n == 0x3000 || n == 0xFEFF

/-- The value of a character read as a digit (`0-9`, then `a-z` or `A-Z` for `10..35`). -/
def digitValue (c : Char) : Option Nat :=
  let n := c.toNat
  if 48 ≤ n ∧ n ≤ 57 then some (n - 48)
  else if 97 ≤ n ∧ n ≤ 122 then some (n - 87)
  else if 65 ≤ n ∧ n ≤ 90 then some (n - 55)
  else none

/-- The longest prefix of the input made of radix-`R` digits, as digit values. -/
def radixDigits (R : Nat) : List Char → List Nat
  | [] => []
  | c :: cs =>
    match digitValue c with
    | some d => if d < R then d :: radixDigits R cs else []
    | none => []

/-- The integer denoted by a list of radix-`R` digits, most significant first. -/
def radixValue (R : Nat) (ds : List Nat) : Nat :=
  ds.foldl (fun acc d => acc * R + d) 0

/-- The digits step of `parseInt`, after white space and sign have been removed: radix 16 and
two characters dropped on a `0x`/`0X` prefix, radix 10 otherwise, then the value of the longest
digit prefix; `none` when that prefix is empty. -/
def parseMagnitude (S : List Char) : Option Nat :=
  let hex : Bool := S.take 2 = ['0', 'x'] ∨ S.take 2 = ['0', 'X']
  let R := if hex then 16 else 10
  let S := if hex then S.drop 2 else S
  let Z := radixDigits R S
  if Z.isEmpty then none else some (radixValue R Z)

/-- The global `parseInt(string)` called without a radix: skip leading white space, read an
optional sign, then the digits; `NaN` when there are no digits.  The result is the exact
integer the digits denote, which is the double of the source up to the magnitude `2 ^ 53`. -/
def parseInt (inputString : List Char) : JSNumber :=
  let S := inputString.dropWhile isStrWhiteSpaceChar
  let sign : Int := if S.head? = some '-' then -1 else 1
  let S := if S.head? = some '+' ∨ S.head? = some '-' then S.tail else S
  match parseMagnitude S with
  | none => .nan
  | some mathInt => .int (sign * mathInt)

/-- The character of a decimal digit. -/
def digitChar (d : Nat) : Char := Char.ofNat (48 + d)

/-- Decimal digits of `n`, most significant first, pushed in front of `acc`; `fuel` bounds the
number of digits. -/
def decimalDigits : Nat → Nat → List Nat → List Nat
  | 0, _, acc => acc
  | fuel + 1, n, acc =>
    if n / 10 = 0 then n % 10 :: acc else decimalDigits fuel (n / 10) (n % 10 :: acc)

/-- Decimal rendering of a natural number. -/
def natToString (n : Nat) : List Char :=
  (decimalDigits (n + 1) n []).map digitChar

/-- The method `Number.prototype.toString()` on `NaN` and on integers: plain decimal notation,
which is what the source produces for every magnitude below `10 ^ 21` and not beyond. -/
def JSNumber.toString : JSNumber → List Char
  | .nan => "NaN".toList
  | .int z => if z < 0 then '-' :: natToString z.natAbs else natToString z.natAbs

/-- The expression `a || b` on an optional string and a string: `null`, `undefined` and the
empty string are falsy. -/
def orElse (a : Option (List Char)) (b : List Char) : List Char :=
  match a with
  | some (c :: cs) => c :: cs
  | _ => b

/-- The expression `a || b` on two optional strings. -/
def orMaybe (a b : Option (List Char)) : Option (List Char) :=
  match a with
  | some (c :: cs) => some (c :: cs)
  | _ => b

/-- The method `String.prototype.includes(searchString)`: does `pat` occur in `s` as a
contiguous substring. -/
def includes : List Char → List Char → Bool
  | [], pat => pat.isEmpty
  | c :: cs, pat => pat.isPrefixOf (c :: cs) || includes cs pat

/-! ## `freeTrialService.js`: the quota tracker -/

/-- The part of `localStorage` the source uses: the value stored under `'freeTrialsUsed'`. -/
structure Storage where
  freeTrialsUsed : Option (List Char)
  deriving DecidableEq, Repr

/-- The expression `localStorage.getItem('freeTrialsUsed')`. -/
def Storage.getItem (ls : Storage) : Option (List Char) := ls.freeTrialsUsed

/-- The statement `localStorage.setItem('freeTrialsUsed', v)`. -/
def Storage.setItem (_ls : Storage) (v : List Char) : Storage := ⟨some v⟩

/-- The local `usedTrials` of both quota functions:
`parseInt(localStorage.getItem('freeTrialsUsed') || '0')`. -/
def usedTrials (ls : Storage) : JSNumber :=
  parseInt (orElse ls.getItem "0".toList)

/-- Source `getRemainingTrials`: `Math.max(0, 15 - usedTrials)`. -/
def getRemainingTrials (ls : Storage) : JSNumber :=
  Math.max (.int 0) (JSNumber.sub (.int 15) (usedTrials ls))

/-- Source `incrementTrialUsage`: store `Math.min(15, usedTrials + 1).toString()`. -/
def incrementTrialUsage (ls : Storage) : Storage :=
  ls.setItem (Math.min (.int 15) (JSNumber.add (usedTrials ls) (.int 1))).toString

/-! ## `freeTrialService.js`: the remote analyze call -/

/-- A selected document (a browser `File`), identified by its name. -/
structure File where
  name : List Char
  deriving DecidableEq, Repr

/-- The summary object of the anonymous flow: `keyPoints` (an array of strings), `summary`
(a string) and an optional `language` tag; each field may be absent. -/
structure SummaryRecord where
  keyPoints : Option (List (List Char))
  summary : Option (List Char)
  language : Option (List Char)
  deriving DecidableEq, Repr

/-- The body of a resolved analyze response (`response.data` seen from `handleSubmit`). -/
structure ResponseData where
  summary : Option SummaryRecord
  language : Option (List Char)
  deriving DecidableEq, Repr

/-- A thrown value as the handlers read it: `err.response?.data?.message` and `err.message`. -/
structure JSError where
  responseMessage : Option (List Char)
  message : Option (List Char)
  deriving DecidableEq, Repr

/-- What the one `axios.post` of a run does: resolve with a body, or reject with an error. -/
inductive AxiosOutcome where
  | resolved (data : Option ResponseData)
  | rejected (error : JSError)
  deriving DecidableEq, Repr

/-- The multipart form built by `handleSubmit`: the document, and a `language` field that is
appended only when Hindi is requested. -/
structure FormData where
  document : File
  language : Option (List Char)
  deriving DecidableEq, Repr

/-- The object returned by `uploadFreeTrialDocument`. -/
structure UploadResult where
  success : Bool
  data : Option ResponseData
  error : Option (List Char)
  deriving DecidableEq, Repr

/-- The four `react-toastify` channels the component uses. -/
inductive ToastKind where
  | success
  | warning
  | error
  | info
  deriving DecidableEq, Repr

/-- Callbacks handed to `setTimeout`: the fallback closure of `handleSubmit` and the two
closures of `handleReset` (the outer one, delay 50, and the inner one, delay 100). -/
inductive Callback where
  | provideFallbackExperience
  | resetAfterConfirm
  | openFileDialog
  deriving DecidableEq, Repr

/-- The body of a `POST /api/translate/term` issued by the anonymous view: the batch request
carries the serialised `keyPoints` and `summary` of the retained original, a per-field
request carries one text. -/
inductive TermPayload where
  | batch (keyPoints : Option (List (List Char))) (summary : Option (List Char))
  | single (text : List Char)
  deriving DecidableEq, Repr

/-- One observable effect of a handler run. -/
inductive Action where
  | preventDefault
  | setLoading (b : Bool)
  | setError (e : Option (List Char))
  | setRemainingTrials (n : JSNumber)
  | setIsHindi (b : Bool)
  | setSummary (s : Option SummaryRecord)
  | setOriginalSummary (s : Option SummaryRecord)
  | axiosPost (language : List Char) (formData : FormData)
  | consoleError
  | incrementTrialUsage
  | toast (kind : ToastKind) (message : List Char)
  | setTimeout (callback : Callback) (delay : Nat)
  | setFile (f : Option File)
  | setTranslationLoading (b : Bool)
  | windowConfirm
  | dropzoneOpen
  | axiosPostTerm (term : TermPayload)
  | consoleWarn
  deriving DecidableEq, Repr

/-- Source `uploadFreeTrialDocument`: one `axios.post`; a resolved call gives
`{ success: true, data }`, a rejected one is logged and gives
`{ success: false, error: error.response?.data?.message || '...' }`.  Nothing is rethrown. -/
def uploadFreeTrialDocument (formData : FormData) (language : List Char)
    (net : AxiosOutcome) : List Action × UploadResult :=
  match net with
  | .resolved data =>
    ([.axiosPost language formData], { success := true, data := data, error := none })
  | .rejected error =>
    ([.axiosPost language formData, .consoleError],
      { success := false, data := none,
        error := some (orElse error.responseMessage
          "Failed to upload document. Please try again.".toList) })

/-! ## `FreeTrialUpload.jsx`: component state and `handleSubmit` -/

/-- The `useState` cells of `FreeTrialUpload`. -/
structure Component where
  file : Option File
  loading : Bool
  summary : Option SummaryRecord
  error : Option (List Char)
  remainingTrials : JSNumber
  isHindi : Bool
  originalSummary : Option SummaryRecord
  translationLoading : Bool
  deriving DecidableEq, Repr

/-- The state right after mount, before the mount effect has read the quota. -/
def Component.initial : Component :=
  { file := none, loading := false, summary := none, error := none,
    remainingTrials := .int 15, isHindi := false, originalSummary := none,
    translationLoading := false }

/-- The effect of one action on the component state: a state setter overwrites its cell,
every other action leaves the state alone. -/
def applyAction (c : Component) : Action → Component
  | .setLoading b => { c with loading := b }
  | .setError e => { c with error := e }
  | .setRemainingTrials n => { c with remainingTrials := n }
  | .setIsHindi b => { c with isHindi := b }
  | .setSummary s => { c with summary := s }
  | .setOriginalSummary s => { c with originalSummary := s }
  | .setFile f => { c with file := f }
  | .setTranslationLoading b => { c with translationLoading := b }
  | _ => c

/-- The component state after a trace of actions. -/
def applyTrace (c : Component) (trace : List Action) : Component :=
  trace.foldl applyAction c

/-- What a handler run leaves behind: its effects in program order and the storage. -/
structure Run where
  trace : List Action
  storage : Storage
  deriving DecidableEq, Repr

/-- The test `point.includes('sample key point') || point.includes('This is a sample')`. -/
def isSamplePoint (point : List Char) : Bool :=
  includes point "sample key point".toList || includes point "This is a sample".toList

/-- The local `isPlaceholder` of the success branch. -/
def isPlaceholder (summaryData : SummaryRecord) : Bool :=
  (match summaryData.keyPoints with
    | some points => points.any isSamplePoint
    | none => false)
  || (match summaryData.summary with
    | some text => includes text "This is a sample summary".toList
    | none => false)

/-- The local `isReturnedHindi` of the success branch:
`response.data.language === 'hindi' || summaryData.language === 'hindi'`. -/
def isReturnedHindi (data : ResponseData) (summaryData : SummaryRecord) : Bool :=
  decide (data.language = some "hindi".toList)
    || decide (summaryData.language = some "hindi".toList)

/-- The `FormData` the `try` block builds: the document, plus `language: 'hindi'` when
`useHindi` (the captured `isHindi`) holds. -/
def submitForm (c : Component) (file : File) : FormData :=
  { document := file, language := if c.isHindi then some "hindi".toList else none }

/-- The language argument of the call: `useHindi ? 'hindi' : 'english'`. -/
def submitLanguage (c : Component) : List Char :=
  if c.isHindi then "hindi".toList else "english".toList

/-- The toast of the success branch: a warning on placeholder data, a success otherwise. -/
def successNotice (summaryData : SummaryRecord) : Action :=
  if isPlaceholder summaryData then
    Action.toast .warning ("Our AI is still learning about this type of document. " ++
      "The summary may be generic. For better results, please register.").toList
  else Action.toast .success "Document successfully analyzed!".toList

/-- The error raised by `throw new Error('Invalid summary format received from the server')`. -/
def invalidSummaryError : JSError :=
  { responseMessage := none,
    message := some "Invalid summary format received from the server".toList }

/-- The `try` block of `handleSubmit` (source lines 52-102), entered with the selected file:
the trace, the storage, and the error thrown out of the block if any. -/
def submitTry (c : Component) (file : File) (ls : Storage) (net : AxiosOutcome) :
    List Action × Storage × Option JSError :=
  let call := uploadFreeTrialDocument (submitForm c file) (submitLanguage c) net
  let response := call.2
  let begun := [Action.setLoading true, Action.setError none] ++ call.1
  if response.success then
    let ls1 := incrementTrialUsage ls
    let counted := begun ++
      [Action.incrementTrialUsage, Action.setRemainingTrials (getRemainingTrials ls1)]
    match response.data with
    | some data =>
      match data.summary with
      | some summaryData =>
        (counted ++ [successNotice summaryData,
            Action.setIsHindi (isReturnedHindi data summaryData),
            Action.setSummary (some summaryData), Action.setOriginalSummary (some summaryData)],
          ls1, none)
      | none => (counted, ls1, some invalidSummaryError)
    | none => (counted, ls1, some invalidSummaryError)
  else
    let shown := orElse response.error "Failed to analyze document".toList
    (begun ++ [Action.setError (some shown), Action.toast .error shown], ls, none)

/-- The local `errorMsg` of the `catch` block:
`err.response?.data?.message || err.message || 'Failed to process document'`. -/
def resolveErrorMsg (err : JSError) : List Char :=
  orElse (orMaybe err.responseMessage err.message) "Failed to process document".toList

/-- The local `isQuotaError` of the `catch` block. -/
def isQuotaError (errorMsg : List Char) : Bool :=
  includes errorMsg "quota".toList
    || includes errorMsg "Too Many Requests".toList
    || includes errorMsg "rate limit".toList
    || includes errorMsg "Failed to generate summary".toList

/-- The record `fallbackSummary` built inside `provideFallbackExperience`. -/
def fallbackSummary : SummaryRecord :=
  { keyPoints := some
      [ "This is a sample key point (AI service limit reached)".toList,
        "Free tier usage is currently at capacity".toList,
        "For full functionality, please register for full access".toList,
        "Registration provides higher usage limits and priority processing".toList ],
    summary := some ("We're currently experiencing high demand on our AI service. " ++
      "This is a sample summary to demonstrate how the results would appear. " ++
      "To get actual summaries of your documents and avoid usage limits, please register " ++
      "for full access with higher processing limits and priority service.").toList,
    language := none }

/-- The closure `provideFallbackExperience`: what it does when the timer fires. -/
def provideFallbackExperience : List Action :=
  [ .setSummary (some fallbackSummary),
    .setOriginalSummary (some fallbackSummary),
    .toast .info
      "Showing sample summary data due to high demand. Register for full access.".toList ]

/-- The actions a scheduled callback performs when it runs. -/
def Callback.run : Callback → List Action
  | .provideFallbackExperience => NyayaSetu.provideFallbackExperience
  | .resetAfterConfirm =>
    [ .setFile none, .setOriginalSummary none, .setError none, .setIsHindi false,
      .toast .info "Ready for a new document!".toList,
      .setTimeout .openFileDialog 100 ]
  | .openFileDialog => [ .dropzoneOpen ]

/-- The message that replaces `errorMsg` on the capacity path. -/
def highDemandMsg : List Char :=
  ("Our AI service is currently experiencing high demand. Please try again later or " ++
    "register for full access with higher limits.").toList

/-- The `catch` block of `handleSubmit` (source lines 103-150). -/
def submitCatch (err : JSError) : List Action :=
  let errorMsg := resolveErrorMsg err
  if isQuotaError errorMsg then
    [ .toast .error highDemandMsg,
      .setTimeout .provideFallbackExperience 1500,
      .setError (some highDemandMsg) ]
  else
    [ .toast .error errorMsg, .setError (some errorMsg) ]

/-- Source `handleSubmit`, run on the state `c` captured by the render, the storage `ls` and
the outcome `net` of the remote call should one be issued: the two guards, then
`try`/`catch`/`finally`. -/
def handleSubmit (c : Component) (ls : Storage) (net : AxiosOutcome) : Run :=
  match c.file with
  | none =>
    { trace := [.preventDefault, .setError (some "Please select a document to upload.".toList)],
      storage := ls }
  | some file =>
    if c.remainingTrials.le (.int 0) then
      { trace := [.preventDefault, .setError (some
          "You have used all your free trials. Please register for full access.".toList)],
        storage := ls }
    else
      let attempt := submitTry c file ls net
      let handled :=
        match attempt.2.2 with
        | some err => attempt.1 ++ submitCatch err
        | none => attempt.1
      { trace := Action.preventDefault :: (handled ++ [Action.setLoading false]),
        storage := attempt.2.1 }

/-- The component state the next render sees after a `handleSubmit` run. -/
def afterSubmit (c : Component) (ls : Storage) (net : AxiosOutcome) : Component :=
  applyTrace c (handleSubmit c ls net).trace

/-! ## `FreeTrialUpload.jsx`: `handleReset` -/

/-- Source `handleReset`, with the answer of `window.confirm` as input: on confirmation the
summary is cleared at once and the rest is left to a timer of 50 ms. -/
def handleReset (confirmed : Bool) (ls : Storage) : Run :=
  if confirmed then
    { trace := [.windowConfirm, .setSummary none, .setTimeout .resetAfterConfirm 50],
      storage := ls }
  else
    { trace := [.windowConfirm], storage := ls }

/-- The state once a confirmed `handleReset` has run and its 50 ms timer has fired. -/
def afterReset (c : Component) (ls : Storage) : Component :=
  applyTrace (applyTrace c (handleReset true ls).trace) (Callback.run .resetAfterConfirm)

/-! ## `translationService.js`: `translateToHindi` -/

/-- The class `\w` of a regular expression: ASCII letters, digits and the underscore. -/
def isWordChar (c : Char) : Bool :=
  let n := c.toNat
  (48 ≤ n && n ≤ 57) || (65 ≤ n && n ≤ 90) || n == 95 || (97 ≤ n && n ≤ 122)

/-- Case folding of the `i` flag, as far as it can matter against an ASCII pattern: an ASCII
lower-case letter is compared as its upper-case letter, every other character as itself. -/
def canonicalize (c : Char) : Char :=
  if 97 ≤ c.toNat ∧ c.toNat ≤ 122 then Char.ofNat (c.toNat - 32) else c

/-- Match the literal `pat` at the head of `s`, ignoring case; the text left after it. -/
def matchPrefixCI : List Char → List Char → Option (List Char)
  | [], s => some s
  | _ :: _, [] => none
  | p :: ps, c :: cs => if canonicalize p = canonicalize c then matchPrefixCI ps cs else none

/-- The assertion `\b` between two neighbouring positions (`none` is an end of the text):
exactly one side is a word character. -/
def isWordBoundary (prev next : Option Char) : Bool :=
  let w : Option Char → Bool := fun o =>
    match o with
    | some c => isWordChar c
    | none => false
  w prev != w next

/-- Does the expression `\bpat\b` (flag `i`) match at the head of `s`, `prev` being the
character before it. -/
def wordMatchAt (pat : List Char) (prev : Option Char) (s : List Char) : Bool :=
  match matchPrefixCI pat s with
  | some rest =>
    isWordBoundary prev s.head?
      && isWordBoundary (((s.take pat.length).getLast?).orElse (fun _ => prev)) rest.head?
  | none => false

/-- The call `text.replace(new RegExp('\\b' + pat + '\\b', 'gi'), rep)`, scanning left to right:
`skip` counts the characters of a match still to be passed over, `prev` is the character
before the head. -/
def replaceWord (pat rep : List Char) : Nat → Option Char → List Char → List Char
  | _, _, [] => []
  | skip + 1, _, c :: cs => replaceWord pat rep skip (some c) cs
  | 0, prev, c :: cs =>
    if wordMatchAt pat prev (c :: cs) then
      rep ++ replaceWord pat rep (pat.length - 1) (some c) cs
    else c :: replaceWord pat rep 0 (some c) cs

/-- The table `basicDictionary`, in insertion order. -/
def basicDictionary : List (String × String) :=
  [ ("document", "दस्तावेज़"), ("summary", "सारांश"), ("key points", "मुख्य बिंदु"),
    ("agreement", "समझौता"), ("contract", "अनुबंध"), ("legal", "कानूनी"),
    ("important", "महत्वपूर्ण"), ("date", "तारीख"), ("party", "पक्ष"), ("parties", "पक्षों"),
    ("clause", "खंड"), ("section", "धारा"), ("article", "अनुच्छेद"), ("rights", "अधिकार"),
    ("obligations", "दायित्व"), ("is", "है"), ("are", "हैं"), ("for", "के लिए"),
    ("with", "के साथ"), ("and", "और"), ("or", "या"), ("the", "यह") ]

/-- The dictionary pass of `translateToHindi`: one `replace` per entry, in table order. -/
def dictionaryPass (text : List Char) : List Char :=
  basicDictionary.foldl
    (fun translatedText entry =>
      replaceWord entry.1.toList entry.2.toList 0 none translatedText)
    text

/-- The body `response.data` of a resolved `POST /api/translate/term`. -/
structure TermData where
  success : Bool
  translatedTerm : List Char
  deriving DecidableEq, Repr

/-- What one `POST /api/translate/term` does: resolve (with a body or without) or reject. -/
inductive TermOutcome where
  | resolved (data : Option TermData)
  | rejected
  deriving DecidableEq, Repr

/-- Source `translateToHindi`, with the outcome of its one request as input: the empty string
for a falsy text without any request; the remote `translatedTerm` when the request reports
success; the dictionary pass otherwise (a rejection is logged first).  The 300 ms wait before
the dictionary result is handed back is left out. -/
def translateToHindi (text : Option (List Char)) (out : TermOutcome) :
    List Action × List Char :=
  match text with
  | none => ([], [])
  | some [] => ([], [])
  | some (ch :: rest) =>
    match out with
    | .resolved (some data) =>
      if data.success then ([.axiosPostTerm (.single (ch :: rest))], data.translatedTerm)
      else ([.axiosPostTerm (.single (ch :: rest))], dictionaryPass (ch :: rest))
    | .resolved none => ([.axiosPostTerm (.single (ch :: rest))], dictionaryPass (ch :: rest))
    | .rejected =>
      ([.axiosPostTerm (.single (ch :: rest)), .consoleWarn], dictionaryPass (ch :: rest))

/-! ## `FreeTrialUpload.jsx`: `toggleLanguage` -/

/-- What `JSON.parse(response.data.translatedTerm)` gives as far as `toggleLanguage` reads it:
a `SyntaxError`, the value `null` (reading a property of it throws), or a value whose
`keyPoints` and `summary` properties are read (each may be absent). -/
inductive ParsedTerm where
  | syntaxError
  | null
  | value (keyPoints : Option (List (List Char))) (summary : Option (List Char))
  deriving DecidableEq, Repr

/-- Everything outside the component that one run of `toggleLanguage` may consult: the
outcome of the batch request, of the per-field request for the key point at each position and
for the summary text, the function `JSON.parse`, and the outcome of the analyze call should
the run go through `handleSubmit`. -/
structure TranslateNet where
  batch : TermOutcome
  point : Nat → TermOutcome
  summary : TermOutcome
  parse : List Char → ParsedTerm
  submit : AxiosOutcome

/-- Strict equality `===` between a boolean and a string: operands of different types are
never strictly equal. -/
def strictEqBoolString (_b : Bool) (_s : List Char) : Bool := false

/-- Truthiness of an optional string: absent and empty are falsy. -/
def truthyString : Option (List Char) → Bool
  | some (_ :: _) => true
  | _ => false

/-- The test `originalSummary && !originalSummary.language === 'hindi'` of the branch that
restores the original: `!` applies to `originalSummary.language` first, and the boolean it
gives is then compared with the string `'hindi'`. -/
def originalIsEnglish (c : Component) : Bool :=
  match c.originalSummary with
  | some original => strictEqBoolString (!(truthyString original.language)) "hindi".toList
  | none => false

/-- The test `file && !summary` that routes a toggle through `handleSubmit`. -/
def nothingDisplayedYet (c : Component) : Bool :=
  c.file.isSome && c.summary.isNone

/-- The per-field tier: `Promise.all(originalSummary.keyPoints.map(translateToHindi))`, then
`translateToHindi(originalSummary.summary)`.  The effects are listed call by call, in the
order of the key points; the results keep that order. -/
def perFieldTranslation (points : List (List Char)) (summary : Option (List Char))
    (net : TranslateNet) : List Action × List (List Char) × List Char :=
  let calls := points.enum.map (fun ip => translateToHindi (some ip.2) (net.point ip.1))
  let last := translateToHindi summary net.summary
  ((calls.map Prod.fst).flatten ++ last.1, calls.map Prod.snd, last.2)

/-- The fallback statements shared by the `else` branch and the inner `catch`: with a
`keyPoints` array the per-field tier fills the copy, which is then displayed; without one
`originalSummary.keyPoints.map` throws and nothing is displayed (`none`). -/
def fallbackTranslation (original : SummaryRecord) (net : TranslateNet) :
    Option (List Action) :=
  match original.keyPoints with
  | some points =>
    let r := perFieldTranslation points original.summary net
    some (r.1 ++
      [ .setSummary (some { original with keyPoints := some r.2.1, summary := some r.2.2 }),
        .setIsHindi true ])
  | none => none

/-- The translate branch of `toggleLanguage` with something displayed (source lines 210-246):
the trace, and whether an error escaped to the outer `catch`. -/
def translateDisplayed (c : Component) (net : TranslateNet) : List Action × Bool :=
  match c.originalSummary with
  | none => ([.consoleError], true)
  | some original =>
    let request := Action.axiosPostTerm (.batch original.keyPoints original.summary)
    let viaCatch : List Action × Bool :=
      match fallbackTranslation original net with
      | some done => (request :: .consoleError :: done, false)
      | none => ([request, .consoleError], true)
    match net.batch with
    | .rejected => viaCatch
    | .resolved none =>
      match fallbackTranslation original net with
      | some done => (request :: done, false)
      | none => ([request, .consoleError], true)
    | .resolved (some data) =>
      if data.success then
        match net.parse data.translatedTerm with
        | .syntaxError => viaCatch
        | .null => viaCatch
        | .value keyPoints summary =>
          ([ request,
             .setSummary (some { original with keyPoints := keyPoints, summary := summary }),
             .setIsHindi true ], false)
      else
        match fallbackTranslation original net with
        | some done => (request :: done, false)
        | none => ([request, .consoleError], true)

/-- Source `toggleLanguage` of the anonymous view, run on the captured state `c`. -/
def toggleLanguage (c : Component) (ls : Storage) (net : TranslateNet) : Run :=
  if c.isHindi then
    if nothingDisplayedYet c then
      let r := handleSubmit c ls net.submit
      { trace := Action.setTranslationLoading true ::
          (r.trace ++ [Action.setIsHindi false, Action.setTranslationLoading false]),
        storage := r.storage }
    else if originalIsEnglish c then
      { trace := [.setTranslationLoading true, .setSummary c.originalSummary,
          .setIsHindi false, .setTranslationLoading false],
        storage := ls }
    else
      { trace := [.setTranslationLoading true,
          .toast .info "We need to reprocess your document in English. Please wait...".toList,
          .setIsHindi false, .setTranslationLoading false],
        storage := ls }
  else
    if nothingDisplayedYet c then
      let r := handleSubmit c ls net.submit
      { trace := Action.setTranslationLoading true :: Action.setIsHindi true ::
          (r.trace ++ [Action.setTranslationLoading false]),
        storage := r.storage }
    else
      let r := translateDisplayed c net
      let failed : List Action :=
        if r.2 then
          [.consoleError, .toast .error "Translation failed. Please try again.".toList]
        else []
      { trace := Action.setTranslationLoading true ::
          (r.1 ++ failed ++ [Action.setTranslationLoading false]),
        storage := ls }

/-- The component state the next render sees after a `toggleLanguage` run. -/
def afterToggle (c : Component) (ls : Storage) (net : TranslateNet) : Component :=
  applyTrace c (toggleLanguage c ls net).trace

/-! ## `DocumentDetails.jsx`: the authenticated document view -/

/-- The structured summary of a stored document. -/
structure DocSummary where
  documentOverview : Option (List Char)
  keyParties : Option (List (List Char))
  importantClauses : Option (List (List Char))
  criticalDates : Option (List (List Char))
  potentialConcerns : Option (List (List Char))
  plainLanguageSummary : Option (List Char)
  deriving DecidableEq, Repr

/-- A document record as the view reads it. -/
structure Document where
  fileName : List Char
  createdAt : List Char
  summary : Option DocSummary
  deriving DecidableEq, Repr

/-- The `useState` cells of `DocumentDetails`. -/
structure DocumentView where
  document : Option Document
  originalDocument : Option Document
  loading : Bool
  summarizing : Bool
  isDeleteModalOpen : Bool
  showHindi : Bool
  translationLoading : Bool
  translatedDocument : Option DocSummary
  useAI : Bool
  deriving DecidableEq, Repr

/-- One observable effect of a handler of the document view. -/
inductive DocAction where
  | setDocument (d : Option Document)
  | setOriginalDocument (d : Option Document)
  | setLoading (b : Bool)
  | setSummarizing (b : Bool)
  | setShowHindi (b : Bool)
  | setTranslationLoading (b : Bool)
  | setTranslatedDocument (t : Option DocSummary)
  | setUseAI (b : Bool)
  | translateDocumentSummary (useAI : Bool) (completeTranslation : Bool)
  | toast (kind : ToastKind) (message : List Char)
  | consoleError
  | consoleWarn
  | generateSummary
  | getDocumentDetails
  | navigate (path : List Char)
  deriving DecidableEq, Repr

/-- The effect of one action on the cells of the document view. -/
def applyDocAction (v : DocumentView) : DocAction → DocumentView
  | .setDocument d => { v with document := d }
  | .setOriginalDocument d => { v with originalDocument := d }
  | .setLoading b => { v with loading := b }
  | .setSummarizing b => { v with summarizing := b }
  | .setShowHindi b => { v with showHindi := b }
  | .setTranslationLoading b => { v with translationLoading := b }
  | .setTranslatedDocument t => { v with translatedDocument := t }
  | .setUseAI b => { v with useAI := b }
  | _ => v

/-- The state of the document view after a trace of actions. -/
def applyDocTrace (v : DocumentView) (trace : List DocAction) : DocumentView :=
  trace.foldl applyDocAction v

/-- The object `translateDocumentSummary` returns (`response.data` of the translate request). -/
structure TranslateData where
  success : Bool
  translatedSummary : Option DocSummary
  message : Option (List Char)
  deriving DecidableEq, Repr

/-- What one call of `translateDocumentSummary` does: return the body of the response, or
throw an `Error` with a message (the service rethrows every failure of the request). -/
inductive TranslateOutcome where
  | returned (data : TranslateData)
  | thrown (message : List Char)
  deriving DecidableEq, Repr

/-- The local `containsEnglish` of `toggleLanguage`: the test for a run of three
or more consecutive ASCII letters; `run` counts the letters just before the head. -/
def hasLatinRun : Nat → List Char → Bool
  | _, [] => false
  | run, c :: cs =>
    let n := c.toNat
    if (65 ≤ n && n ≤ 90) || (97 ≤ n && n ≤ 122) then
      if run + 1 ≥ 3 then true else hasLatinRun (run + 1) cs
    else hasLatinRun 0 cs

/-- The filter predicate `field.content && containsEnglish(field.content)`. -/
def containsEnglish (content : Option (List Char)) : Bool :=
  match content with
  | some (c :: cs) => hasLatinRun 0 (c :: cs)
  | _ => false

/-- The entries a list field contributes to `fieldsToCheck`: `label` followed by the position
counted from one. -/
def numberedFields (label : List Char) (items : Option (List (List Char))) :
    List (List Char × Option (List Char)) :=
  ((items.getD []).enum).map
    (fun ip => (label ++ natToString (ip.1 + 1), some ip.2))

/-- The local `fieldsToCheck` of `toggleLanguage`: name and content of every field of the
translated summary, in display order. -/
def fieldsToCheck (t : DocSummary) : List (List Char × Option (List Char)) :=
  [("Document Overview".toList, t.documentOverview)]
    ++ numberedFields "Key Party ".toList t.keyParties
    ++ numberedFields "Important Clause ".toList t.importantClauses
    ++ numberedFields "Critical Date ".toList t.criticalDates
    ++ numberedFields "Potential Concern ".toList t.potentialConcerns
    ++ [("Plain Language Summary".toList, t.plainLanguageSummary)]

/-- The local `englishFields` of `toggleLanguage`: the names of the fields whose content is
non-empty and holds a Latin run. -/
def englishFields (t : DocSummary) : List (List Char) :=
  ((fieldsToCheck t).filter (fun field => containsEnglish field.2)).map Prod.fst

/-- The closing notice of a translation: a warning when some field still holds English, a
success otherwise. -/
def translationNotice (t : DocSummary) : DocAction :=
  if (englishFields t).length > 0 then
    DocAction.toast .warning
      ("हिंदी अनुवाद पूरा हुआ, लेकिन कुछ अंग्रेजी शब्द अभी भी बाकी हैं। " ++
        "हम अपनी प्रणाली को निरंतर सुधार रहे हैं।").toList
  else
    DocAction.toast .success
      "सारांश का 100% हिंदी शब्दों में सफलतापूर्वक अनुवाद किया गया!".toList

/-- The statements of the outer `catch` of `toggleLanguage`, given `error.message`. -/
def translationFailed (message : List Char) : List DocAction :=
  [.consoleError, .toast .error ("Failed to translate summary: ".toList ++ message)]

/-- The message of the `TypeError` raised by reading a property of `undefined` (the text is
the engine's own). -/
def undefinedReadMessage : List Char :=
  "Cannot read properties of undefined (reading 'documentOverview')".toList

/-- Source `toggleLanguage` of the document view, run on the captured state `v`, with the
outcome of the translate call as input should one be made.  The deep clone
`JSON.parse(JSON.stringify(originalDocument))` is the identity on a record of plain data. -/
def docToggleLanguage (v : DocumentView) (net : TranslateOutcome) : List DocAction :=
  if v.showHindi then
    [.setTranslationLoading true, .setDocument v.originalDocument, .setShowHindi false,
      .toast .info "Showing summary in English".toList, .setTranslationLoading false]
  else
    match v.originalDocument with
    | none =>
      [.setTranslationLoading true, .toast .error "No summary available to translate".toList,
        .setTranslationLoading false]
    | some original =>
      match original.summary with
      | none =>
        [.setTranslationLoading true,
          .toast .error "No summary available to translate".toList,
          .setTranslationLoading false]
      | some _ =>
        match v.translatedDocument with
        | some cached =>
          [.setTranslationLoading true,
            .setDocument (some { original with summary := some cached }),
            .setShowHindi true, .toast .success "Summary displayed in Hindi".toList,
            .setTranslationLoading false]
        | none =>
          let begun : List DocAction :=
            [.setTranslationLoading true,
              .toast .info "Translating every word to Hindi, please wait...".toList,
              .translateDocumentSummary true true]
          match net with
          | .thrown message =>
            begun ++ translationFailed message ++ [.setTranslationLoading false]
          | .returned response =>
            if response.success then
              let stored : List DocAction :=
                [.setTranslatedDocument response.translatedSummary,
                  .setDocument (some { original with summary := response.translatedSummary }),
                  .setShowHindi true]
              match response.translatedSummary with
              | some t =>
                let warn : List DocAction :=
                  if (englishFields t).length > 0 then [.consoleWarn] else []
                begun ++ stored ++ warn ++ [translationNotice t, .setTranslationLoading false]
              | none =>
                begun ++ stored ++ translationFailed undefinedReadMessage
                  ++ [.setTranslationLoading false]
            else
              begun ++ translationFailed (orElse response.message "Translation failed".toList)
                ++ [.setTranslationLoading false]

/-- Source `toggleTranslationMode`. -/
def toggleTranslationMode (v : DocumentView) : List DocAction :=
  DocAction.setUseAI (!v.useAI) ::
    (match v.translatedDocument with
      | some _ =>
        DocAction.setTranslatedDocument none ::
          ((if v.showHindi then
              [DocAction.setDocument v.originalDocument, DocAction.setShowHindi false]
            else []) ++
          [DocAction.toast .info
            ("Translation mode set to ".toList ++
              (if !v.useAI then "AI".toList else "Dictionary".toList))])
      | none => [])

/-- The state of the document view after a `toggleLanguage` run. -/
def afterDocToggle (v : DocumentView) (net : TranslateOutcome) : DocumentView :=
  applyDocTrace v (docToggleLanguage v net)

/-- The state of the document view after `toggleTranslationMode`. -/
def afterModeToggle (v : DocumentView) : DocumentView :=
  applyDocTrace v (toggleTranslationMode v)

/-- Is the action a call of the translation service. -/
def DocAction.isTranslationCall : DocAction → Bool
  | .translateDocumentSummary _ _ => true
  | _ => false

/-! ## `DocumentDetails.jsx`: `fetchDocumentDetails` and `handleGenerateSummary` -/

/-- The body of a resolved `GET /api/documents/:id`, as `fetchDocumentDetails` reads it. -/
structure FetchData where
  document : Option Document
  deriving DecidableEq, Repr

/-- What `getDocumentDetails` returns: `success` true with the body of the response (which
may be missing), or `success` false.  The service catches every failure of the request. -/
inductive FetchOutcome where
  | succeeded (data : Option FetchData)
  | failed
  deriving DecidableEq, Repr

/-- What `generateSummary` returns: `success` true, or `success` false with an error text. -/
inductive GenerateOutcome where
  | succeeded
  | failed (error : Option (List Char))
  deriving DecidableEq, Repr

/-- Source `fetchDocumentDetails`, up to its `await`: the spinner is switched on and the
request is issued. -/
def fetchDocumentDetailsStart : List DocAction :=
  [.setLoading true, .getDocumentDetails]

/-- Source `fetchDocumentDetails`, from the answer of the request on: a successful answer
with a body stores its `document` in both cells; a successful answer without a body throws
on `response.data.document`; every failure shows a notice and leaves for the dashboard. -/
def fetchDocumentDetailsFinish (out : FetchOutcome) : List DocAction :=
  match out with
  | .succeeded (some data) =>
    [.setDocument data.document, .setOriginalDocument data.document, .setLoading false]
  | .succeeded none =>
    [.consoleError, .toast .error "An error occurred while loading document".toList,
      .navigate "/dashboard".toList, .setLoading false]
  | .failed =>
    [.toast .error "Failed to load document details".toList, .navigate "/dashboard".toList,
      .setLoading false]

/-- Source `fetchDocumentDetails`, start to end. -/
def fetchDocumentDetails (out : FetchOutcome) : List DocAction :=
  fetchDocumentDetailsStart ++ fetchDocumentDetailsFinish out

/-- Source `handleGenerateSummary`, up to its `await`. -/
def handleGenerateSummaryStart : List DocAction :=
  [.setSummarizing true, .generateSummary]

/-- Source `handleGenerateSummary`, from the answer of `generateSummary` on.  On success the
re-fetch is started but not awaited, so `setSummarizing(false)` runs before the fetched
document arrives. -/
def handleGenerateSummaryFinish (gen : GenerateOutcome) (fetched : FetchOutcome) :
    List DocAction :=
  match gen with
  | .succeeded =>
    [.toast .success "Summary generated successfully!".toList]
      ++ fetchDocumentDetailsStart ++ [.setSummarizing false]
      ++ fetchDocumentDetailsFinish fetched
  | .failed error =>
    [.toast .error (orElse error "Failed to generate summary".toList), .setSummarizing false]

/-- Source `handleGenerateSummary`, start to end. -/
def handleGenerateSummary (gen : GenerateOutcome) (fetched : FetchOutcome) : List DocAction :=
  handleGenerateSummaryStart ++ handleGenerateSummaryFinish gen fetched

/-! ## `UploadDocument.jsx`: `onDrop` -/

/-- A dropped file as `onDrop` reads it: its MIME type and its size in bytes. -/
structure DroppedFile where
  name : List Char
  type : List Char
  size : Nat
  deriving DecidableEq, Repr

/-- One observable effect of a handler of the upload page. -/
inductive UploadAction where
  | setSelectedFile (f : Option DroppedFile)
  | setUploading (b : Bool)
  | setSummarizing (b : Bool)
  | toast (kind : ToastKind) (message : List Char)
  | uploadDocument
  | generateSummary
  | navigate (path : List Char)
  deriving DecidableEq, Repr

/-- Is the action a call of a remote service. -/
def UploadAction.isRemoteCall : UploadAction → Bool
  | .uploadDocument => true
  | .generateSummary => true
  | _ => false

/-- The cell `selectedFile` after a trace, starting from `selected`. -/
def selectedAfter (selected : Option DroppedFile) (trace : List UploadAction) :
    Option DroppedFile :=
  trace.foldl
    (fun current action =>
      match action with
      | .setSelectedFile f => f
      | _ => current)
    selected

/-- Source `onDrop`.  The helper `isSupportedFileType` of `utils/helpers` is not among the
sources and is taken as a parameter. -/
def onDrop (isSupportedFileType : List Char → Bool) (acceptedFiles : List DroppedFile) :
    List UploadAction :=
  match acceptedFiles.head? with
  | none => []
  | some file =>
    if !isSupportedFileType file.type then
      [.toast .error
        "Unsupported file type. Please upload a PDF, DOCX, RTF, or TXT file.".toList]
    else if file.size > 10 * 1024 * 1024 then
      [.toast .error "File is too large. Maximum file size is 10MB.".toList]
    else [.setSelectedFile (some file)]

/-! ## `AuthContext.jsx`: the credential store -/

/-- The user record the server returns. -/
structure User where
  email : List Char
  deriving DecidableEq, Repr

/-- The credential store and the cells of `AuthProvider`: the value under `'token'` in
`localStorage`, the default `Authorization` header of `axios`, and the three state cells. -/
structure AuthSession where
  storedToken : Option (List Char)
  authHeader : Option (List Char)
  isAuthenticated : Bool
  user : Option User
  loading : Bool
  deriving DecidableEq, Repr

/-- Source `setAuthHeader`: a truthy token sets the header to `Bearer ` followed by the
token, anything else deletes the header. -/
def setAuthHeader (token : Option (List Char)) (s : AuthSession) : AuthSession :=
  match token with
  | some (ch :: rest) => { s with authHeader := some ("Bearer ".toList ++ ch :: rest) }
  | _ => { s with authHeader := none }

/-- Source `logout`. -/
def logout (s : AuthSession) : AuthSession :=
  { setAuthHeader none { s with storedToken := none } with
    user := none, isAuthenticated := false }

/-- The claims of a decoded token that `initAuth` reads: `exp`, in seconds, if present. -/
structure DecodedToken where
  exp : Option Int
  deriving DecidableEq, Repr

/-- What `axios.get('/api/auth/user')` does. -/
inductive UserOutcome where
  | resolved (data : Option User)
  | rejected
  deriving DecidableEq, Repr

/-- The test `decodedToken.exp < currentTime` with `currentTime = Date.now() / 1000`, `now`
being `Date.now()` in milliseconds: an absent `exp` compares false. -/
def isExpired (decoded : DecodedToken) (now : Nat) : Bool :=
  match decoded.exp with
  | some exp => decide (exp * 1000 < (now : Int))
  | none => false

/-- Source `initAuth`.  The library function `jwtDecode` is a parameter (`none` when it
throws), `now` is `Date.now()`, `fetched` the outcome of the user request. -/
def initAuth (jwtDecode : List Char → Option DecodedToken) (now : Nat) (fetched : UserOutcome)
    (s : AuthSession) : AuthSession :=
  match s.storedToken with
  | some (ch :: rest) =>
    let token := ch :: rest
    let s1 := setAuthHeader (some token) s
    let s2 :=
      match jwtDecode token with
      | none => logout s1
      | some decoded =>
        if isExpired decoded now then logout s1
        else
          match fetched with
          | .resolved data => { s1 with user := data, isAuthenticated := true }
          | .rejected => logout s1
    { s2 with loading := false }
  | _ => { s with loading := false }

/-- The body of a resolved `POST /api/auth/login`, as `login` destructures it: the
properties `token` and `user`, each of which may be absent (`undefined`); a token that is
present is a string. -/
structure LoginData where
  token : Option (List Char)
  user : Option User
  deriving DecidableEq, Repr

/-- What `axios.post('/api/auth/login', ...)` does. -/
inductive LoginOutcome where
  | resolved (data : Option LoginData)
  | rejected
  deriving DecidableEq, Repr

/-- The string `localStorage.setItem` stores for a value: a string as it is, `undefined` as
the text `undefined`. -/
def storedText (value : Option (List Char)) : List Char :=
  match value with
  | some text => text
  | none => "undefined".toList

/-- Source `login`, as it acts on the session: a resolved request with a body stores the
token (whatever it is), sets or deletes the header by `setAuthHeader`, and sets the user;
a rejected one, or one without a body (destructuring throws), is caught and changes
nothing. -/
def login (out : LoginOutcome) (s : AuthSession) : AuthSession :=
  match out with
  | .resolved (some data) =>
    { setAuthHeader data.token { s with storedToken := some (storedText data.token) } with
      user := data.user, isAuthenticated := true }
  | _ => s

/-- The result object of `login`: its `success` field. -/
def loginSucceeds (out : LoginOutcome) : Bool :=
  match out with
  | .resolved (some _) => true
  | _ => false

/-- The calls a page can make on the credential store once `initAuth` has completed. -/
inductive AuthEvent where
  | login (out : LoginOutcome)
  | logout
  deriving DecidableEq, Repr

/-- The session after one event. -/
def AuthEvent.apply (s : AuthSession) : AuthEvent → AuthSession
  | .login out => NyayaSetu.login out s
  | .logout => NyayaSetu.logout s

/-- The event is not a login whose response body lacks the property `token`. -/
def AuthEvent.carriesToken : AuthEvent → Bool
  | .login (.resolved (some data)) => data.token.isSome
  | _ => true

/-- The store and the header are in step: the header is present exactly when a truthy token
is stored, and is then `Bearer ` followed by that token. -/
def headerInStep (s : AuthSession) : Prop :=
  s.authHeader =
    match s.storedToken with
    | some (ch :: rest) => some ("Bearer ".toList ++ ch :: rest)
    | _ => none

/-- The session of a freshly loaded page: whatever is stored, no header, not authenticated,
loading. -/
def freshSession (stored : Option (List Char)) : AuthSession :=
  { storedToken := stored, authHeader := none, isAuthenticated := false, user := none,
    loading := true }

/-- The logged-out session. -/
def loggedOut : AuthSession :=
  { storedToken := none, authHeader := none, isAuthenticated := false, user := none,
    loading := false }

/-! ## The dictionary pass as one scan -/

/-- The table `basicDictionary` as character lists. -/
def dictionaryEntries : List (List Char × List Char) :=
  basicDictionary.map (fun entry => (entry.1.toList, entry.2.toList))

/-- One left-to-right scan over the text with a whole table: where an entry of the table
matches as a whole word (the first such entry in table order), its value is written and the
matched characters are passed over; every other character is copied. -/
def scanEntries (table : List (List Char × List Char)) :
    Nat → Option Char → List Char → List Char
  | _, _, [] => []
  | skip + 1, _, c :: cs => scanEntries table skip (some c) cs
  | 0, prev, c :: cs =>
    match table.find? (fun entry => wordMatchAt entry.1 prev (c :: cs)) with
    | some entry => entry.2 ++ scanEntries table (entry.1.length - 1) (some c) cs
    | none => c :: scanEntries table 0 (some c) cs

/-- The rest of a whole-word match once its start is settled: the pattern is read off the
text, ignoring case, and a word boundary must follow its last character. -/
def matchTail : List Char → Option Char → List Char → Bool
  | [], prev, s => isWordBoundary prev s.head?
  | _ :: _, _, [] => false
  | q :: qs, _, c :: cs => decide (canonicalize q = canonicalize c) && matchTail qs (some c) cs

/-- Two patterns agree, ignoring case, as far as the shorter one reaches. -/
def compatible : List Char → List Char → Bool
  | p :: ps, q :: qs => decide (canonicalize p = canonicalize q) && compatible ps qs
  | _, _ => true

/-- The text is empty or starts with a character outside `\w`. -/
def headNonWord (s : List Char) : Bool :=
  match s with
  | [] => true
  | c :: _ => !isWordChar c

/-- The pattern starts and ends with a word character. -/
def wordDelimited (pat : List Char) : Bool :=
  match pat.head?, pat.getLast? with
  | some first, some last => isWordChar first && isWordChar last
  | _, _ => false

/-- No entry of the table can match at a place inside `pat` that follows a character outside
`\w`: the rest of `pat` from there on disagrees with every entry. -/
def interiorFree (table : List (List Char × List Char)) : List Char → Bool
  | [] => true
  | x :: rest =>
    (isWordChar x || rest.isEmpty || table.all (fun entry => !compatible entry.1 rest))
      && interiorFree table rest

/-- The last character of `r`, or `prev` when `r` is empty: the character that precedes
what follows `r`. -/
def lastOr : List Char → Option Char → Option Char
  | [], prev => prev
  | c :: cs, _ => lastOr cs (some c)

/-- The state of a pass over the output of a scan is in line with the state of the scan:
either both stand at the same place with the same character before it, or the scan is
passing over a match after which the text ends or goes on with a character outside `\w`. -/
def inLine (skip : Nat) (prevText prevOut : Option Char) (s : List Char) : Prop :=
  (skip = 0 ∧ prevText = prevOut) ∨ headNonWord (s.drop skip) = true

/-- The conditions under which the passes of a table do not disturb one another: every
pattern starts and ends with a word character, no value holds a character that could start
a pattern, no value starts with a character that occurs in a pattern, values are not empty,
and no pattern can match inside another one. -/
def tableIndependent (table : List (List Char × List Char)) : Bool :=
  table.all (fun entry =>
    wordDelimited entry.1
      && interiorFree table entry.1
      && table.all (fun other =>
        other.2.all (fun ch => decide (canonicalize ch ≠ canonicalize (entry.1.headD ' ')))
          && (match other.2 with
              | [] => false
              | r :: _ => entry.1.all (fun ch => decide (canonicalize ch ≠ canonicalize r)))))

/-! ## Observations on a run -/

/-- A truthy `error` cell: a non-empty message is shown. -/
def errorIsSet (c : Component) : Bool :=
  match c.error with
  | some (_ :: _) => true
  | _ => false

/-- Outcome `Result`: a summary is displayed and `error` is `null`. -/
def Component.isResult (c : Component) : Bool :=
  c.summary.isSome && c.error.isNone

/-- Outcome `Failed`: an error is set and no summary is displayed. -/
def Component.isFailed (c : Component) : Bool :=
  errorIsSet c && c.summary.isNone

/-- Is the action a remote analyze call. -/
def Action.isRemoteCall : Action → Bool
  | .axiosPost _ _ => true
  | _ => false

/-- Does the action display a summary. -/
def Action.displaysSummary : Action → Bool
  | .setSummary (some _) => true
  | _ => false

/-- Does the action schedule a timer. -/
def Action.isTimer : Action → Bool
  | .setTimeout _ _ => true
  | _ => false

/-- The failed outcome of one run from state `c`: an error is set when the run completes and
the run itself displayed no summary. -/
def Run.endsFailed (c : Component) (r : Run) : Bool :=
  errorIsSet (applyTrace c r.trace) && !(r.trace.any Action.displaysSummary)

/-- The four substrings the error handler looks for. -/
def capacityPatterns : List (List Char) :=
  ["quota".toList, "Too Many Requests".toList, "rate limit".toList,
    "Failed to generate summary".toList]

/-- ASCII lower-casing of a character. -/
def asciiLower (c : Char) : Char :=
  if 65 ≤ c.toNat ∧ c.toNat ≤ 90 then Char.ofNat (c.toNat + 32) else c

/-- Does a text carry a sample marker: `sample` or `limit reached`, in any letter case. -/
def hasSampleMarker (text : List Char) : Bool :=
  includes (text.map asciiLower) "sample".toList
    || includes (text.map asciiLower) "limit reached".toList

/-- Following the spec's words, a whole-word occurrence of an entry at the head of `s`: the
text starts with the entry, its letters in any case, the character before it (`prev`) is not
a word character and neither is the character after it.  A word character is an ASCII
letter, a digit or the underscore. -/
def isWholeWordAt (entry : List Char) (prev : Option Char) (s : List Char) : Bool :=
  decide (entry.length ≤ s.length)
    && decide ((s.take entry.length).map asciiLower = entry)
    && headNonWord prev.toList
    && headNonWord (s.drop entry.length)

/-- Following the spec's words, the local-dictionary tier as one reading of the text: every
whole-word occurrence of a dictionary entry is replaced by the entry's value, all other text
is copied.  `skip` counts the characters of an occurrence still to be passed over. -/
def replaceWholeWords (table : List (List Char × List Char)) :
    Nat → Option Char → List Char → List Char
  | _, _, [] => []
  | skip + 1, _, c :: cs => replaceWholeWords table skip (some c) cs
  | 0, prev, c :: cs =>
    match table.find? (fun entry => isWholeWordAt entry.1 prev (c :: cs)) with
    | some entry => entry.2 ++ replaceWholeWords table (entry.1.length - 1) (some c) cs
    | none => c :: replaceWholeWords table 0 (some c) cs

/-- No entry of the table occurs as a whole word at any place of the text. -/
def noWholeWord (table : List (List Char × List Char)) (text : List Char) : Bool :=
  (List.range (text.length + 1)).all (fun i =>
    table.all (fun entry =>
      !isWholeWordAt entry.1 (text.take i).getLast? (text.drop i)))

/-- The condition under which the summary view shows its `Sample Data - API Limit Reached`
badge: `summary && summary.keyPoints && summary.keyPoints[0] &&
summary.keyPoints[0].includes('AI service limit reached')`. -/
def sampleBadgeShown (summary : Option SummaryRecord) : Bool :=
  match summary with
  | some record =>
    match record.keyPoints with
    | some (first :: _) =>
      truthyString (some first) && includes first "AI service limit reached".toList
    | _ => false
  | none => false

/-- Is the action a request to the translation endpoint. -/
def Action.isTranslationCall : Action → Bool
  | .axiosPostTerm _ => true
  | _ => false

/-- Did the batch tier fail to deliver a record: the request was rejected, came back without
a body or with `success` false, or its `translatedTerm` did not parse to an object. -/
def batchFailed (net : TranslateNet) : Bool :=
  match net.batch with
  | .rejected => true
  | .resolved none => true
  | .resolved (some data) =>
    if data.success then
      match net.parse data.translatedTerm with
      | .value _ _ => false
      | _ => true
    else true

/-- The per-field results for a list of key points, each at its own position. -/
def perFieldKeyPoints (points : List (List Char)) (net : TranslateNet) : List (List Char) :=
  points.enum.map (fun ip => (translateToHindi (some ip.2) (net.point ip.1)).2)

/-- An ASCII letter, the class `[a-zA-Z]`. -/
def isLatinLetter (c : Char) : Bool :=
  (65 ≤ c.toNat && c.toNat ≤ 90) || (97 ≤ c.toNat && c.toNat ≤ 122)

/-- No value of the table holds a Latin letter. -/
def valuesWithoutLatin (table : List (List Char × List Char)) : Bool :=
  table.all (fun entry => entry.2.all (fun ch => !isLatinLetter ch))

/-- A text holds a run of three or more consecutive Latin letters. -/
def HasLatinRun (text : List Char) : Prop :=
  ∃ (pre : List Char) (x y z : Char) (post : List Char),
    text = pre ++ x :: y :: z :: post
      ∧ isLatinLetter x = true ∧ isLatinLetter y = true ∧ isLatinLetter z = true

/-- In the words of the claim, the fields of a translated summary by identifier: the overview
is `Document Overview`, the entries of the four lists are `Key Party`, `Important Clause`,
`Critical Date` and `Potential Concern` followed by their position counted from one, and the
closing text is `Plain Language Summary`.  An absent list has no entries. -/
def translatedField (t : DocSummary) (name content : List Char) : Prop :=
  (name = "Document Overview".toList ∧ t.documentOverview = some content)
    ∨ (∃ i : Nat, name = "Key Party ".toList ++ natToString (i + 1)
        ∧ (t.keyParties.getD [])[i]? = some content)
    ∨ (∃ i : Nat, name = "Important Clause ".toList ++ natToString (i + 1)
        ∧ (t.importantClauses.getD [])[i]? = some content)
    ∨ (∃ i : Nat, name = "Critical Date ".toList ++ natToString (i + 1)
        ∧ (t.criticalDates.getD [])[i]? = some content)
    ∨ (∃ i : Nat, name = "Potential Concern ".toList ++ natToString (i + 1)
        ∧ (t.potentialConcerns.getD [])[i]? = some content)
    ∨ (name = "Plain Language Summary".toList ∧ t.plainLanguageSummary = some content)

/-- The state of the document view after a whole `fetchDocumentDetails`. -/
def afterFetch (v : DocumentView) (out : FetchOutcome) : DocumentView :=
  applyDocTrace v (fetchDocumentDetails out)

/-- The state of the document view after a whole `handleGenerateSummary`. -/
def afterGenerate (v : DocumentView) (gen : GenerateOutcome) (fetched : FetchOutcome) :
    DocumentView :=
  applyDocTrace v (handleGenerateSummary gen fetched)

/-- A supported-type test for the examples: PDF and plain text. -/
def sampleSupported (type : List Char) : Bool :=
  type == "application/pdf".toList || type == "text/plain".toList

/-- A PDF of exactly ten megabytes. -/
def tenMegabyteFile : DroppedFile :=
  { name := "lease.pdf".toList, type := "application/pdf".toList, size := 10 * 1024 * 1024 }

/-- A small PDF. -/
def smallFile : DroppedFile :=
  { name := "lease.pdf".toList, type := "application/pdf".toList, size := 2048 }

/-! ## Concrete inputs -/

/-- A state with a document selected and the full quota shown. -/
def sampleComponent : Component :=
  { Component.initial with file := some ⟨"lease.pdf".toList⟩ }

/-- A state with a document selected and the quota shown as used up. -/
def exhaustedComponent : Component :=
  { sampleComponent with remainingTrials := .int 0 }

/-- A summary as the analyze service returns it. -/
def sampleSummary : SummaryRecord :=
  { keyPoints := some ["The lease runs for eleven months".toList],
    summary := some "A residential lease between two parties.".toList,
    language := some "english".toList }

/-- A resolved response that carries `sampleSummary`. -/
def sampleResponse : ResponseData :=
  { summary := some sampleSummary, language := some "english".toList }

/-- A resolved response whose body has no `summary`. -/
def emptyResponse : ResponseData :=
  { summary := none, language := none }

/-- A rejected call whose error envelope says the upstream rate limit was hit. -/
def rateLimitError : JSError :=
  { responseMessage := some "API rate limit exceeded".toList,
    message := some "Request failed with status code 429".toList }

/-- A Hindi rendering of `sampleSummary`. -/
def hindiSummary : SummaryRecord :=
  { keyPoints := some ["पट्टा ग्यारह महीने चलता है".toList],
    summary := some "दो पक्षों के बीच एक आवासीय पट्टा।".toList,
    language := some "english".toList }

/-- A state that displays `hindiSummary` and retains `sampleSummary` as the original. -/
def hindiShownComponent : Component :=
  { sampleComponent with
    summary := some hindiSummary, originalSummary := some sampleSummary, isHindi := true }

/-- A state that displays `sampleSummary` in English. -/
def englishShownComponent : Component :=
  { sampleComponent with
    summary := some sampleSummary, originalSummary := some sampleSummary }

/-- A network on which every request is rejected and nothing parses. -/
def offlineNet : TranslateNet :=
  { batch := .rejected, point := fun _ => .rejected, summary := .rejected,
    parse := fun _ => .syntaxError, submit := .rejected rateLimitError }

/-- A network whose batch request succeeds with a payload that parses to an empty object. -/
def emptyPayloadNet : TranslateNet :=
  { offlineNet with
    batch := .resolved (some { success := true, translatedTerm := "\x7b\x7d".toList }),
    parse := fun _ => .value none none }

/-- A network whose batch request succeeds with a payload that parses to `null`. -/
def nullPayloadNet : TranslateNet :=
  { offlineNet with
    batch := .resolved (some { success := true, translatedTerm := "null".toList }),
    parse := fun _ => .null }

/-- A network whose batch request succeeds with a payload that is not JSON. -/
def brokenPayloadNet : TranslateNet :=
  { offlineNet with
    batch := .resolved (some { success := true, translatedTerm := "not json".toList }),
    parse := fun _ => .syntaxError }

/-- Three key points of a lease. -/
def leasePoints : List (List Char) :=
  ["The lease runs for eleven months".toList, "Rent is due on the first day".toList,
    "Either party may end the agreement".toList]

/-- A summary with three key points. -/
def leaseSummary : SummaryRecord :=
  { keyPoints := some leasePoints,
    summary := some "A residential lease between two parties.".toList,
    language := some "english".toList }

/-- A state that displays `leaseSummary` in English. -/
def leaseShownComponent : Component :=
  { sampleComponent with
    summary := some leaseSummary, originalSummary := some leaseSummary }

/-- A network whose batch request reports success with a text that is not JSON, and whose
per-field requests differ by position: the first key point is translated remotely, the
request for the second is rejected, the one for the third reports failure. -/
def mixedNet : TranslateNet :=
  { batch := .resolved (some { success := true, translatedTerm := "not json".toList }),
    point := fun i =>
      if i = 0 then .resolved (some { success := true, translatedTerm := "पहला बिंदु".toList })
      else if i = 1 then .rejected
      else .resolved (some { success := false, translatedTerm := [] }),
    summary := .resolved (some { success := true, translatedTerm := "आवासीय पट्टा".toList }),
    parse := fun _ => .syntaxError,
    submit := .rejected rateLimitError }

/-- A stored summary. -/
def sampleDocSummary : DocSummary :=
  { documentOverview := some "A residential lease.".toList,
    keyParties := some ["Landlord".toList, "Tenant".toList],
    importantClauses := none, criticalDates := none, potentialConcerns := none,
    plainLanguageSummary := some "Two parties rent a flat.".toList }

/-- A Hindi rendering of `sampleDocSummary`. -/
def hindiDocSummary : DocSummary :=
  { documentOverview := some "एक आवासीय पट्टा।".toList,
    keyParties := some ["मकान मालिक".toList, "किरायेदार".toList],
    importantClauses := none, criticalDates := none, potentialConcerns := none,
    plainLanguageSummary := some "दो पक्ष एक फ्लैट किराए पर लेते हैं।".toList }

/-- A Hindi rendering of `sampleDocSummary` whose second key party still holds the word
`Tenant`. -/
def residueDocSummary : DocSummary :=
  { hindiDocSummary with
    keyParties := some ["मकान मालिक".toList, "Tenant किरायेदार".toList] }

/-- The session of a page loaded without a stored token, once `initAuth` has completed. -/
def signedOutPage : AuthSession :=
  initAuth (fun _ => none) 1700000000000 .rejected (freshSession none)

/-- A resolved login whose body carries a user and no token. -/
def tokenlessLogin : LoginOutcome :=
  .resolved (some { token := none, user := some ⟨"a@b.c".toList⟩ })

/-- A stored document with its summary. -/
def sampleDocument : Document :=
  { fileName := "lease.pdf".toList, createdAt := "2025-01-01".toList,
    summary := some sampleDocSummary }

/-- The document view once `sampleDocument` has been fetched. -/
def sampleView : DocumentView :=
  { document := some sampleDocument, originalDocument := some sampleDocument,
    loading := false, summarizing := false, isDeleteModalOpen := false, showHindi := false,
    translationLoading := false, translatedDocument := none, useAI := true }

/-- A successful answer of the translation service that carries `hindiDocSummary`. -/
def hindiAnswer : TranslateOutcome :=
  .returned { success := true, translatedSummary := some hindiDocSummary, message := none }

/-! ## Printing and parsing integers -/

theorem digitChar_toNat {d : Nat} (h : d < 10) : (digitChar d).toNat = 48 + d := by
  interval_cases d <;> rfl

theorem digitValue_digitChar {d : Nat} (h : d < 10) : digitValue (digitChar d) = some d := by
  interval_cases d <;> rfl

theorem isStrWhiteSpaceChar_digitChar {d : Nat} (h : d < 10) :
    isStrWhiteSpaceChar (digitChar d) = false := by
  interval_cases d <;> rfl

theorem decimalDigits_lt (fuel : Nat) : ∀ (n : Nat) (acc : List Nat),
    (∀ d ∈ acc, d < 10) → ∀ d ∈ decimalDigits fuel n acc, d < 10 := by
  induction fuel with
  | zero => intro n acc h d hd; exact h d (by simpa [decimalDigits] using hd)
  | succ fuel ih =>
    intro n acc h d hd
    have hcons : ∀ e ∈ n % 10 :: acc, e < 10 := by
      intro e he
      rcases List.mem_cons.mp he with rfl | he
      · exact Nat.mod_lt _ (by decide)
      · exact h e he
    unfold decimalDigits at hd
    split at hd
    · exact hcons d hd
    · exact ih _ _ hcons d hd

theorem decimalDigits_ne_nil (fuel n : Nat) (acc : List Nat) :
    decimalDigits (fuel + 1) n acc ≠ [] := by
  induction fuel generalizing n acc with
  | zero => unfold decimalDigits; split <;> simp [decimalDigits]
  | succ fuel ih =>
    unfold decimalDigits
    split
    · simp
    · exact ih _ _

theorem radixDigits_map_digitChar (ds : List Nat) (h : ∀ d ∈ ds, d < 10) :
    radixDigits 10 (ds.map digitChar) = ds := by
  induction ds with
  | nil => rfl
  | cons d ds ih =>
    have hd : d < 10 := h d (List.mem_cons_self _ _)
    simp only [List.map_cons, radixDigits, digitValue_digitChar hd, hd, if_true]
    rw [ih (fun e he => h e (List.mem_cons_of_mem _ he))]

theorem foldl_decimalDigits (fuel : Nat) : ∀ (n : Nat) (acc : List Nat), n < fuel →
    (decimalDigits fuel n acc).foldl (fun a d => a * 10 + d) 0
      = acc.foldl (fun a d => a * 10 + d) n := by
  induction fuel with
  | zero => intro n acc h; omega
  | succ fuel ih =>
    intro n acc h
    unfold decimalDigits
    split
    · rename_i h0
      have : n % 10 = n := by omega
      simp [List.foldl_cons, this]
    · rename_i h0
      rw [ih (n / 10) _ (by omega)]
      have : n / 10 * 10 + n % 10 = n := by omega
      simp [List.foldl_cons, this]

theorem parseMagnitude_natToString (n : Nat) : parseMagnitude (natToString n) = some n := by
  have hlt : ∀ d ∈ decimalDigits (n + 1) n [], d < 10 :=
    decimalDigits_lt _ _ _ (by simp)
  have hne : decimalDigits (n + 1) n [] ≠ [] := decimalDigits_ne_nil _ _ _
  have hchar : ∀ c ∈ natToString n, 48 ≤ c.toNat ∧ c.toNat ≤ 57 := by
    intro c hc
    obtain ⟨d, hd, rfl⟩ := List.mem_map.mp hc
    rw [digitChar_toNat (hlt d hd)]
    have := hlt d hd
    omega
  have hx : ¬ (natToString n).take 2 = ['0', 'x'] := by
    intro h
    have hm : 'x' ∈ (natToString n).take 2 := by rw [h]; simp
    have := hchar _ (List.mem_of_mem_take hm)
    revert this; decide
  have hX : ¬ (natToString n).take 2 = ['0', 'X'] := by
    intro h
    have hm : 'X' ∈ (natToString n).take 2 := by rw [h]; simp
    have := hchar _ (List.mem_of_mem_take hm)
    revert this; decide
  unfold parseMagnitude
  simp only [hx, hX, or_self, decide_False, Bool.false_eq_true, if_false]
  unfold natToString
  rw [radixDigits_map_digitChar _ hlt]
  have hval : radixValue 10 (decimalDigits (n + 1) n []) = n := by
    unfold radixValue
    rw [foldl_decimalDigits (n + 1) n [] (by omega)]
    rfl
  cases hds : decimalDigits (n + 1) n [] with
  | nil => exact absurd hds hne
  | cons d ds => rw [← hds, hval]; simp [hds]

theorem natToString_head (n : Nat) :
    ∃ d rest, d < 10 ∧ natToString n = digitChar d :: rest := by
  have hlt : ∀ d ∈ decimalDigits (n + 1) n [], d < 10 :=
    decimalDigits_lt _ _ _ (by simp)
  have hne : decimalDigits (n + 1) n [] ≠ [] := decimalDigits_ne_nil _ _ _
  unfold natToString
  cases hds : decimalDigits (n + 1) n [] with
  | nil => exact absurd hds hne
  | cons d ds =>
    exact ⟨d, ds.map digitChar, hlt d (by simp [hds]), by simp⟩

theorem parseInt_natToString (n : Nat) : parseInt (natToString n) = .int n := by
  obtain ⟨d, rest, hd, hs⟩ := natToString_head n
  have hmag := parseMagnitude_natToString n
  have hplus : digitChar d ≠ '+' := by interval_cases d <;> decide
  have hminus : digitChar d ≠ '-' := by interval_cases d <;> decide
  unfold parseInt
  rw [hs] at hmag ⊢
  simp only [List.dropWhile_cons, isStrWhiteSpaceChar_digitChar hd, Bool.false_eq_true,
    if_false, List.head?_cons, Option.some.injEq, hplus, hminus, or_self, hmag]
  simp

theorem parseInt_neg_natToString (n : Nat) :
    parseInt ('-' :: natToString n) = .int (-(n : Int)) := by
  have hmag := parseMagnitude_natToString n
  unfold parseInt
  have hws : isStrWhiteSpaceChar '-' = false := by decide
  simp only [List.dropWhile_cons, hws, Bool.false_eq_true, if_false, List.head?_cons,
    or_true, if_true, List.tail_cons, hmag]
  simp

/-- Parsing what `toString` printed gives the integer back. -/
theorem parseInt_toString (z : Int) : parseInt (JSNumber.toString (.int z)) = .int z := by
  show parseInt (if z < 0 then '-' :: natToString z.natAbs else natToString z.natAbs) = .int z
  split
  · rw [parseInt_neg_natToString]
    congr 1
    omega
  · rw [parseInt_natToString]
    congr 1
    omega

/-! ## The quota tracker -/

theorem toString_int_ne_nil (z : Int) : JSNumber.toString (.int z) ≠ [] := by
  show (if z < 0 then '-' :: natToString z.natAbs else natToString z.natAbs) ≠ []
  split
  · simp
  · obtain ⟨d, rest, _, hs⟩ := natToString_head z.natAbs
    simp [hs]

theorem orElse_some_of_ne_nil {s : List Char} (h : s ≠ []) (b : List Char) :
    orElse (some s) b = s := by
  cases s with
  | nil => exact absurd rfl h
  | cons c cs => rfl

/-- One `incrementTrialUsage` on a stored integer count `u` leaves `min 15 (u + 1)` stored, in
the exact integers of the embedding. -/
theorem usedTrials_incrementTrialUsage (ls : Storage) (u : Int) (h : usedTrials ls = .int u) :
    usedTrials (incrementTrialUsage ls) = .int (min 15 (u + 1)) := by
  have hs : incrementTrialUsage ls
      = ⟨some (JSNumber.toString (.int (min 15 (u + 1))))⟩ := by
    simp [incrementTrialUsage, h, JSNumber.add, Math.min, Storage.setItem]
  rw [hs]
  show parseInt (orElse (some (JSNumber.toString (.int (min 15 (u + 1))))) "0".toList) = _
  rw [orElse_some_of_ne_nil (toString_int_ne_nil _), parseInt_toString]

theorem usedTrials_iterate (ls : Storage) (h : usedTrials ls = .int 0) (n : Nat) :
    usedTrials (incrementTrialUsage^[n] ls) = .int (min 15 (n : Int)) := by
  induction n with
  | zero => simpa using h
  | succ n ih =>
    rw [Function.iterate_succ_apply', usedTrials_incrementTrialUsage _ _ ih]
    congr 1
    push_cast
    omega

/-- C1: starting from a store with no recorded usage (key absent, or the string `0`), after
`n` calls of `incrementTrialUsage` the value of `getRemainingTrials` is `max(0, 15 - n)`. -/
theorem getRemainingTrials_after_n_increments (n : Nat) (ls : Storage)
    (h : ls.freeTrialsUsed = none ∨ ls.freeTrialsUsed = some "0".toList) :
    getRemainingTrials (incrementTrialUsage^[n] ls) = .int (max 0 (15 - (n : Int))) := by
  have h0 : usedTrials ls = .int 0 := by
    obtain ⟨v⟩ := ls
    rcases h with h | h <;> simp only at h <;> subst h <;> decide
  unfold getRemainingTrials
  rw [usedTrials_iterate ls h0 n]
  show JSNumber.int (max 0 (15 - min 15 (n : Int))) = _
  congr 1
  omega

/-- C1 at `n = 3` on an empty store: twelve trials remain. -/
theorem getRemainingTrials_after_n_increments_witness :
    (Storage.mk none).freeTrialsUsed = none
      ∧ getRemainingTrials (incrementTrialUsage^[3] (Storage.mk none))
          = .int (max 0 (15 - ((3 : Nat) : Int))) :=
  ⟨rfl, getRemainingTrials_after_n_increments 3 (Storage.mk none) (Or.inl rfl)⟩

/-- C5: with the string `-5` stored under `freeTrialsUsed`, `getRemainingTrials` returns 20,
above the documented range `0-15`; with a non-numeric string stored it returns `NaN`. -/
theorem getRemainingTrials_out_of_range :
    getRemainingTrials ⟨some "-5".toList⟩ = .int 20
      ∧ JSNumber.le (getRemainingTrials ⟨some "-5".toList⟩) (.int 15) = false
      ∧ getRemainingTrials ⟨some "abc".toList⟩ = .nan := by
  decide

/-- C6 as stated fails: with the count 20 stored, `incrementTrialUsage` leaves 15 stored. -/
theorem incrementTrialUsage_decrements_above_cap :
    usedTrials ⟨some "20".toList⟩ = .int 20
      ∧ usedTrials (incrementTrialUsage ⟨some "20".toList⟩) = .int 15
      ∧ ¬ ((20 : Int) ≤ 15) := by
  decide

/-- C6, amended: for every stored integer count `u` from `-(2 ^ 53)` up to the cap 15 (the
range in which the doubles of the source are these exact integers and print in plain decimal
notation), the count stored after `incrementTrialUsage` is `min 15 (u + 1)`, which is at
least `u`. -/
theorem incrementTrialUsage_nondecreasing (ls : Storage) (u : Int)
    (h : usedTrials ls = .int u) (hexact : -(2 ^ 53 : Int) ≤ u) (hcap : u ≤ 15) :
    ∃ v : Int, usedTrials (incrementTrialUsage ls) = .int v ∧ v = min 15 (u + 1) ∧ u ≤ v := by
  refine ⟨min 15 (u + 1), usedTrials_incrementTrialUsage ls u h, rfl, ?_⟩
  omega

/-- C6 amended, at the stored count `7`. -/
theorem incrementTrialUsage_nondecreasing_witness :
    usedTrials ⟨some "7".toList⟩ = .int 7 ∧ -(2 ^ 53 : Int) ≤ 7 ∧ (7 : Int) ≤ 15
      ∧ ∃ v : Int, usedTrials (incrementTrialUsage ⟨some "7".toList⟩) = .int v
          ∧ v = min 15 (7 + 1) ∧ 7 ≤ v :=
  ⟨by decide, by decide, by decide,
    incrementTrialUsage_nondecreasing ⟨some "7".toList⟩ 7 (by decide) (by decide) (by decide)⟩

/-! ## The runs of `handleSubmit`, case by case -/

theorem handleSubmit_no_file (c : Component) (ls : Storage) (net : AxiosOutcome)
    (hfile : c.file = none) :
    handleSubmit c ls net =
      { trace := [.preventDefault,
          .setError (some "Please select a document to upload.".toList)],
        storage := ls } := by
  simp [handleSubmit, hfile]

theorem handleSubmit_exhausted (c : Component) (ls : Storage) (net : AxiosOutcome)
    (file : File) (hfile : c.file = some file) (hrem : c.remainingTrials.le (.int 0) = true) :
    handleSubmit c ls net =
      { trace := [.preventDefault, .setError (some
          "You have used all your free trials. Please register for full access.".toList)],
        storage := ls } := by
  simp [handleSubmit, hfile, hrem]

theorem handleSubmit_rejected (c : Component) (ls : Storage) (error : JSError)
    (file : File) (hfile : c.file = some file) (hrem : c.remainingTrials.le (.int 0) = false) :
    handleSubmit c ls (.rejected error) =
      { trace := [.preventDefault, .setLoading true, .setError none,
          .axiosPost (submitLanguage c) (submitForm c file), .consoleError,
          .setError (some (orElse (some (orElse error.responseMessage
            "Failed to upload document. Please try again.".toList))
            "Failed to analyze document".toList)),
          .toast .error (orElse (some (orElse error.responseMessage
            "Failed to upload document. Please try again.".toList))
            "Failed to analyze document".toList),
          .setLoading false],
        storage := ls } := by
  simp [handleSubmit, hfile, hrem, submitTry, uploadFreeTrialDocument, submitLanguage,
    submitForm]

theorem isQuotaError_invalid_summary :
    isQuotaError (resolveErrorMsg invalidSummaryError) = false := by
  decide

theorem submitCatch_invalid_summary :
    submitCatch invalidSummaryError =
      [.toast .error "Invalid summary format received from the server".toList,
        .setError (some "Invalid summary format received from the server".toList)] := by
  decide

theorem handleSubmit_no_summary (c : Component) (ls : Storage) (data : Option ResponseData)
    (file : File) (hfile : c.file = some file) (hrem : c.remainingTrials.le (.int 0) = false)
    (hdata : data.bind ResponseData.summary = none) :
    handleSubmit c ls (.resolved data) =
      { trace := [.preventDefault, .setLoading true, .setError none,
          .axiosPost (submitLanguage c) (submitForm c file),
          .incrementTrialUsage,
          .setRemainingTrials (getRemainingTrials (incrementTrialUsage ls)),
          .toast .error "Invalid summary format received from the server".toList,
          .setError (some "Invalid summary format received from the server".toList),
          .setLoading false],
        storage := incrementTrialUsage ls } := by
  cases data with
  | none =>
    simp [handleSubmit, hfile, hrem, submitTry, uploadFreeTrialDocument, submitLanguage,
      submitForm]
    decide
  | some d =>
    have hd : d.summary = none := by simpa using hdata
    simp [handleSubmit, hfile, hrem, submitTry, uploadFreeTrialDocument, submitLanguage,
      submitForm, hd]
    decide

theorem handleSubmit_summary (c : Component) (ls : Storage) (data : ResponseData)
    (summaryData : SummaryRecord)
    (file : File) (hfile : c.file = some file) (hrem : c.remainingTrials.le (.int 0) = false)
    (hdata : data.summary = some summaryData) :
    handleSubmit c ls (.resolved (some data)) =
      { trace := [.preventDefault, .setLoading true, .setError none,
          .axiosPost (submitLanguage c) (submitForm c file),
          .incrementTrialUsage,
          .setRemainingTrials (getRemainingTrials (incrementTrialUsage ls)),
          successNotice summaryData,
          .setIsHindi (isReturnedHindi data summaryData),
          .setSummary (some summaryData),
          .setOriginalSummary (some summaryData),
          .setLoading false],
        storage := incrementTrialUsage ls } := by
  simp [handleSubmit, hfile, hrem, submitTry, uploadFreeTrialDocument, submitLanguage,
    submitForm, hdata, successNotice]

/-! ## Quota consumption by `handleSubmit` -/

theorem uploadFreeTrialDocument_success (formData : FormData) (language : List Char)
    (net : AxiosOutcome) :
    (uploadFreeTrialDocument formData language net).2.success = true
      ↔ ∃ data, net = .resolved data := by
  cases net <;> simp [uploadFreeTrialDocument]

theorem orElse_ne_nil (a : Option (List Char)) {b : List Char} (hb : b ≠ []) :
    orElse a b ≠ [] := by
  unfold orElse
  split
  · simp
  · exact hb

theorem errorIsSet_setError {c : Component} (msg : List Char) (h : c.error = some msg)
    (hmsg : msg ≠ []) : errorIsSet c = true := by
  cases msg with
  | nil => exact absurd rfl hmsg
  | cons ch cs => simp [errorIsSet, h]

/-- C2: a run of `handleSubmit` calls `incrementTrialUsage` exactly once (and the storage it
leaves is the incremented one) when `uploadFreeTrialDocument` reported success, and not at
all (storage untouched) when no file is selected, when no trials remain, or when the call
reported failure. -/
theorem handleSubmit_consumes_iff_success (c : Component) (ls : Storage) (net : AxiosOutcome) :
    (c.file = none →
      (handleSubmit c ls net).trace.count .incrementTrialUsage = 0
        ∧ (handleSubmit c ls net).storage = ls)
    ∧ (c.remainingTrials.le (.int 0) = true →
      (handleSubmit c ls net).trace.count .incrementTrialUsage = 0
        ∧ (handleSubmit c ls net).storage = ls)
    ∧ (∀ file, c.file = some file → c.remainingTrials.le (.int 0) = false →
      ((uploadFreeTrialDocument (submitForm c file) (submitLanguage c) net).2.success = false →
        (handleSubmit c ls net).trace.count .incrementTrialUsage = 0
          ∧ (handleSubmit c ls net).storage = ls)
      ∧ ((uploadFreeTrialDocument (submitForm c file) (submitLanguage c) net).2.success = true →
        (handleSubmit c ls net).trace.count .incrementTrialUsage = 1
          ∧ (handleSubmit c ls net).storage = incrementTrialUsage ls)) := by
  refine ⟨?_, ?_, ?_⟩
  · intro hfile
    rw [handleSubmit_no_file c ls net hfile]
    exact ⟨by simp [List.count_cons], rfl⟩
  · intro hrem
    cases hfile : c.file with
    | none => rw [handleSubmit_no_file c ls net hfile]; exact ⟨by simp [List.count_cons], rfl⟩
    | some file => rw [handleSubmit_exhausted c ls net file hfile hrem]; exact ⟨by simp [List.count_cons], rfl⟩
  · intro file hfile hrem
    cases net with
    | rejected error =>
      refine ⟨fun _ => ?_, fun h => ?_⟩
      · rw [handleSubmit_rejected c ls error file hfile hrem]
        exact ⟨by simp [List.count_cons], rfl⟩
      · simp [uploadFreeTrialDocument] at h
    | resolved data =>
      refine ⟨fun h => ?_, fun _ => ?_⟩
      · simp [uploadFreeTrialDocument] at h
      · cases hs : data.bind ResponseData.summary with
        | none =>
          rw [handleSubmit_no_summary c ls data file hfile hrem hs]
          exact ⟨by simp [List.count_cons], rfl⟩
        | some summaryData =>
          cases data with
          | none => simp at hs
          | some d =>
            have hd : d.summary = some summaryData := by simpa using hs
            rw [handleSubmit_summary c ls d summaryData file hfile hrem hd]
            refine ⟨?_, rfl⟩
            have hn : (successNotice summaryData == Action.incrementTrialUsage) = false := by
              unfold successNotice; split <;> rfl
            simp [List.count_cons, hn]

/-- C2 on a run whose call reports success: one consumption, the stored count goes up. -/
theorem handleSubmit_consumes_iff_success_witness :
    sampleComponent.file = some ⟨"lease.pdf".toList⟩
      ∧ sampleComponent.remainingTrials.le (.int 0) = false
      ∧ (uploadFreeTrialDocument (submitForm sampleComponent ⟨"lease.pdf".toList⟩)
          (submitLanguage sampleComponent) (.resolved (some sampleResponse))).2.success = true
      ∧ (handleSubmit sampleComponent ⟨none⟩ (.resolved (some sampleResponse))).trace.count
          .incrementTrialUsage = 1
      ∧ (handleSubmit sampleComponent ⟨none⟩ (.resolved (some sampleResponse))).storage
          = incrementTrialUsage ⟨none⟩ :=
  ⟨rfl, by decide, rfl,
    ((handleSubmit_consumes_iff_success sampleComponent ⟨none⟩
      (.resolved (some sampleResponse))).2.2 ⟨"lease.pdf".toList⟩ rfl (by decide)).2 rfl⟩

/-- C3 as stated fails: a response that reports success but carries no summary makes the run
end in the failed outcome (error set, no summary displayed by the run) after the trial has
been consumed; the remaining quota goes from 15 to 14. -/
theorem failed_submit_changes_quota :
    (handleSubmit sampleComponent ⟨none⟩ (.resolved (some emptyResponse))).endsFailed
        sampleComponent = true
      ∧ getRemainingTrials ⟨none⟩ = .int 15
      ∧ getRemainingTrials
          (handleSubmit sampleComponent ⟨none⟩ (.resolved (some emptyResponse))).storage
          = .int 14 := by
  decide

/-- C3, amended: a run of `handleSubmit` that is refused by a guard (no file, no trials
remaining) or whose remote call is answered with a failure ends in the failed outcome and
leaves the storage, hence the value of `getRemainingTrials`, as it was. -/
theorem failed_submit_without_success_keeps_quota (c : Component) (ls : Storage)
    (net : AxiosOutcome)
    (h : c.file = none ∨ c.remainingTrials.le (.int 0) = true ∨ ∃ error, net = .rejected error) :
    (handleSubmit c ls net).endsFailed c = true
      ∧ (handleSubmit c ls net).storage = ls
      ∧ getRemainingTrials (handleSubmit c ls net).storage = getRemainingTrials ls := by
  have key : (handleSubmit c ls net).endsFailed c = true
      ∧ (handleSubmit c ls net).storage = ls := by
    cases hfile : c.file with
    | none =>
      rw [handleSubmit_no_file c ls net hfile]
      exact ⟨by simp [Run.endsFailed, applyTrace, applyAction, errorIsSet,
        Action.displaysSummary], rfl⟩
    | some file =>
      cases hrem : c.remainingTrials.le (.int 0) with
      | true =>
        rw [handleSubmit_exhausted c ls net file hfile hrem]
        exact ⟨by simp [Run.endsFailed, applyTrace, applyAction, errorIsSet,
          Action.displaysSummary], rfl⟩
      | false =>
        rcases h with h | h | ⟨error, rfl⟩
        · simp [hfile] at h
        · simp [hrem] at h
        · rw [handleSubmit_rejected c ls error file hfile hrem]
          refine ⟨?_, rfl⟩
          have hne : orElse (some (orElse error.responseMessage
              "Failed to upload document. Please try again.".toList))
              "Failed to analyze document".toList ≠ [] :=
            orElse_ne_nil _ (by decide)
          have hset : errorIsSet (applyTrace c [.preventDefault, .setLoading true,
              .setError none, .axiosPost (submitLanguage c) (submitForm c file), .consoleError,
              .setError (some (orElse (some (orElse error.responseMessage
                "Failed to upload document. Please try again.".toList))
                "Failed to analyze document".toList)),
              .toast .error (orElse (some (orElse error.responseMessage
                "Failed to upload document. Please try again.".toList))
                "Failed to analyze document".toList),
              .setLoading false]) = true :=
            errorIsSet_setError (orElse (some (orElse error.responseMessage
                "Failed to upload document. Please try again.".toList))
                "Failed to analyze document".toList) rfl hne
          simp only [Run.endsFailed, hset, Bool.true_and]
          simp [Action.displaysSummary]
  exact ⟨key.1, key.2, by rw [key.2]⟩

/-- C3 amended, on a run whose remote call is rejected. -/
theorem failed_submit_without_success_keeps_quota_witness :
    (∃ error, AxiosOutcome.rejected rateLimitError = .rejected error)
      ∧ (handleSubmit sampleComponent ⟨some "4".toList⟩ (.rejected rateLimitError)).endsFailed
          sampleComponent = true
      ∧ (handleSubmit sampleComponent ⟨some "4".toList⟩ (.rejected rateLimitError)).storage
          = ⟨some "4".toList⟩
      ∧ getRemainingTrials
          (handleSubmit sampleComponent ⟨some "4".toList⟩ (.rejected rateLimitError)).storage
          = getRemainingTrials ⟨some "4".toList⟩ :=
  ⟨⟨rateLimitError, rfl⟩,
    failed_submit_without_success_keeps_quota sampleComponent ⟨some "4".toList⟩
      (.rejected rateLimitError) (Or.inr (Or.inr ⟨rateLimitError, rfl⟩))⟩

/-! ## Guards, outcomes and the error handler -/

/-- C4: a refused submit (no file selected, or `remainingTrials <= 0`) issues no remote
analyze call, does not consume quota, leaves the displayed summary as it was and sets an
error message; when a file is selected and the quota is exhausted the message is the one
that tells the user to register for full access. -/
theorem refused_submit_contacts_nothing (c : Component) (ls : Storage) (net : AxiosOutcome)
    (h : c.file = none ∨ c.remainingTrials.le (.int 0) = true) :
    (handleSubmit c ls net).trace.any Action.isRemoteCall = false
      ∧ (handleSubmit c ls net).trace.count .incrementTrialUsage = 0
      ∧ (handleSubmit c ls net).storage = ls
      ∧ (afterSubmit c ls net).summary = c.summary
      ∧ errorIsSet (afterSubmit c ls net) = true
      ∧ (c.file = none → (afterSubmit c ls net).error
          = some "Please select a document to upload.".toList)
      ∧ (c.file ≠ none → (afterSubmit c ls net).error
            = some "You have used all your free trials. Please register for full access.".toList
          ∧ includes "You have used all your free trials. Please register for full access.".toList
              "register for full access".toList = true) := by
  cases hfile : c.file with
  | none =>
    unfold afterSubmit
    rw [handleSubmit_no_file c ls net hfile]
    simp [applyTrace, applyAction, errorIsSet, Action.isRemoteCall, List.count_cons]
  | some file =>
    have hrem : c.remainingTrials.le (.int 0) = true := by
      rcases h with h | h
      · simp [hfile] at h
      · exact h
    unfold afterSubmit
    rw [handleSubmit_exhausted c ls net file hfile hrem]
    refine ⟨?_, ?_, rfl, rfl, ?_, ?_, ?_⟩
    · simp [Action.isRemoteCall]
    · simp [List.count_cons]
    · simp [applyTrace, applyAction, errorIsSet]
    · intro hn; cases hn
    · intro _
      exact ⟨rfl, by decide⟩

/-- C4 on a state with a file selected and the quota used up. -/
theorem refused_submit_contacts_nothing_witness :
    exhaustedComponent.remainingTrials.le (.int 0) = true
      ∧ (handleSubmit exhaustedComponent ⟨some "15".toList⟩
          (.resolved (some sampleResponse))).trace.any Action.isRemoteCall = false
      ∧ (afterSubmit exhaustedComponent ⟨some "15".toList⟩
          (.resolved (some sampleResponse))).error
          = some "You have used all your free trials. Please register for full access.".toList :=
  ⟨by decide,
    (refused_submit_contacts_nothing exhaustedComponent ⟨some "15".toList⟩
      (.resolved (some sampleResponse)) (Or.inr (by decide))).1,
    ((refused_submit_contacts_nothing exhaustedComponent ⟨some "15".toList⟩
      (.resolved (some sampleResponse)) (Or.inr (by decide))).2.2.2.2.2.2 (by decide)).1⟩

/-- C7: when the call reports success and the response carries a summary, the run is the
call, then `incrementTrialUsage` and the refreshed counter, then the notice and the stores
of that same summary as displayed and as original; afterwards `error` is `null`, `loading`
is false and `isHindi` holds exactly when the response or the summary is tagged `hindi`. -/
theorem handleSubmit_success_stores_summary (c : Component) (ls : Storage)
    (data : ResponseData) (summaryData : SummaryRecord) (file : File)
    (hfile : c.file = some file) (hrem : c.remainingTrials.le (.int 0) = false)
    (hdata : data.summary = some summaryData) :
    (handleSubmit c ls (.resolved (some data))).trace =
        [.preventDefault, .setLoading true, .setError none,
          .axiosPost (submitLanguage c) (submitForm c file),
          .incrementTrialUsage,
          .setRemainingTrials (getRemainingTrials (incrementTrialUsage ls)),
          successNotice summaryData,
          .setIsHindi (isReturnedHindi data summaryData),
          .setSummary (some summaryData),
          .setOriginalSummary (some summaryData),
          .setLoading false]
      ∧ (handleSubmit c ls (.resolved (some data))).storage = incrementTrialUsage ls
      ∧ (afterSubmit c ls (.resolved (some data))).summary = some summaryData
      ∧ (afterSubmit c ls (.resolved (some data))).originalSummary = some summaryData
      ∧ (afterSubmit c ls (.resolved (some data))).error = none
      ∧ (afterSubmit c ls (.resolved (some data))).loading = false
      ∧ ((afterSubmit c ls (.resolved (some data))).isHindi = true
          ↔ data.language = some "hindi".toList ∨ summaryData.language = some "hindi".toList) := by
  have hn : ∀ c0 : Component, applyAction c0 (successNotice summaryData) = c0 := by
    intro c0; unfold successNotice; split <;> rfl
  unfold afterSubmit
  rw [handleSubmit_summary c ls data summaryData file hfile hrem hdata]
  refine ⟨rfl, rfl, ?_, ?_, ?_, ?_, ?_⟩ <;>
    simp only [applyTrace, List.foldl_cons, List.foldl_nil, hn] <;>
    simp [applyAction, isReturnedHindi]

/-- C7 on a response that carries `sampleSummary`. -/
theorem handleSubmit_success_stores_summary_witness :
    (afterSubmit sampleComponent ⟨none⟩ (.resolved (some sampleResponse))).summary
        = some sampleSummary
      ∧ (afterSubmit sampleComponent ⟨none⟩ (.resolved (some sampleResponse))).originalSummary
        = some sampleSummary
      ∧ (handleSubmit sampleComponent ⟨none⟩ (.resolved (some sampleResponse))).storage
        = incrementTrialUsage ⟨none⟩ :=
  ⟨(handleSubmit_success_stores_summary sampleComponent ⟨none⟩ sampleResponse sampleSummary
      ⟨"lease.pdf".toList⟩ rfl (by decide) rfl).2.2.1,
    (handleSubmit_success_stores_summary sampleComponent ⟨none⟩ sampleResponse sampleSummary
      ⟨"lease.pdf".toList⟩ rfl (by decide) rfl).2.2.2.1,
    (handleSubmit_success_stores_summary sampleComponent ⟨none⟩ sampleResponse sampleSummary
      ⟨"lease.pdf".toList⟩ rfl (by decide) rfl).2.1⟩

theorem le_zero_of_pos {n : JSNumber} {k : Int} (hk : n = .int k) (hpos : 0 < k) :
    n.le (.int 0) = false := by
  subst hk
  simp [JSNumber.le, hpos]

/-- C8: a run of `handleSubmit` that starts with a file selected, `remainingTrials > 0` and no
summary displayed completes with `loading` false and in exactly one of the two outcomes:
`Result` (summary displayed, `error` null) or `Failed` (error set, no summary displayed). -/
theorem handleSubmit_lands_in_one_outcome (c : Component) (ls : Storage) (net : AxiosOutcome)
    (file : File) (hfile : c.file = some file)
    (k : Int) (hk : c.remainingTrials = .int k) (hpos : 0 < k) (hsum : c.summary = none) :
    (afterSubmit c ls net).loading = false
      ∧ (((afterSubmit c ls net).isResult = true ∧ (afterSubmit c ls net).isFailed = false)
        ∨ ((afterSubmit c ls net).isResult = false ∧ (afterSubmit c ls net).isFailed = true)) := by
  have hrem := le_zero_of_pos hk hpos
  unfold afterSubmit
  cases net with
  | rejected error =>
    rw [handleSubmit_rejected c ls error file hfile hrem]
    obtain ⟨ch, cs, heq⟩ := List.exists_cons_of_ne_nil
      (orElse_ne_nil (some (orElse error.responseMessage
        "Failed to upload document. Please try again.".toList))
        (b := "Failed to analyze document".toList) (by decide))
    rw [heq]
    simp [applyTrace, applyAction, Component.isResult, Component.isFailed, errorIsSet, hsum]
  | resolved data =>
    cases hs : data.bind ResponseData.summary with
    | none =>
      rw [handleSubmit_no_summary c ls data file hfile hrem hs]
      simp [applyTrace, applyAction, Component.isResult, Component.isFailed, errorIsSet, hsum]
    | some summaryData =>
      cases data with
      | none => simp at hs
      | some d =>
        have hd : d.summary = some summaryData := by simpa using hs
        have hn : ∀ c0 : Component, applyAction c0 (successNotice summaryData) = c0 := by
          intro c0; unfold successNotice; split <;> rfl
        rw [handleSubmit_summary c ls d summaryData file hfile hrem hd]
        simp only [applyTrace, List.foldl_cons, List.foldl_nil, hn]
        simp [applyAction, Component.isResult, Component.isFailed, errorIsSet]

/-- C8 on a run whose remote call is rejected: the run lands in `Failed` only. -/
theorem handleSubmit_lands_in_one_outcome_witness :
    sampleComponent.file = some ⟨"lease.pdf".toList⟩
      ∧ sampleComponent.remainingTrials = .int 15 ∧ (0 : Int) < 15
      ∧ sampleComponent.summary = none
      ∧ (afterSubmit sampleComponent ⟨none⟩ (.rejected rateLimitError)).loading = false
      ∧ (((afterSubmit sampleComponent ⟨none⟩ (.rejected rateLimitError)).isResult = true
          ∧ (afterSubmit sampleComponent ⟨none⟩ (.rejected rateLimitError)).isFailed = false)
        ∨ ((afterSubmit sampleComponent ⟨none⟩ (.rejected rateLimitError)).isResult = false
          ∧ (afterSubmit sampleComponent ⟨none⟩ (.rejected rateLimitError)).isFailed = true)) :=
  ⟨rfl, rfl, by decide, rfl,
    handleSubmit_lands_in_one_outcome sampleComponent ⟨none⟩ (.rejected rateLimitError)
      ⟨"lease.pdf".toList⟩ rfl 15 rfl (by decide) rfl⟩

/-- A rejected remote call never reaches the `catch` block: no timer is scheduled and the run
displays no summary, whatever the error says. -/
theorem handleSubmit_rejected_no_fallback (c : Component) (ls : Storage) (error : JSError) :
    (handleSubmit c ls (.rejected error)).trace.any Action.isTimer = false
      ∧ (handleSubmit c ls (.rejected error)).trace.any Action.displaysSummary = false := by
  cases hfile : c.file with
  | none =>
    rw [handleSubmit_no_file c ls _ hfile]
    simp [Action.isTimer, Action.displaysSummary]
  | some file =>
    cases hrem : c.remainingTrials.le (.int 0) with
    | true =>
      rw [handleSubmit_exhausted c ls _ file hfile hrem]
      simp [Action.isTimer, Action.displaysSummary]
    | false =>
      rw [handleSubmit_rejected c ls error file hfile hrem]
      simp [Action.isTimer, Action.displaysSummary]

/-- C9: the code at a remote failure whose message is `API rate limit exceeded`.  The message
contains `rate limit`, the run shows it as a plain error, schedules no timer and displays no
summary; the storage is untouched.  The sample record is never displayed. -/
theorem rate_limit_failure_schedules_no_fallback :
    includes "API rate limit exceeded".toList "rate limit".toList = true
      ∧ (handleSubmit sampleComponent ⟨some "4".toList⟩ (.rejected rateLimitError)).trace =
        [.preventDefault, .setLoading true, .setError none,
          .axiosPost "english".toList ⟨⟨"lease.pdf".toList⟩, none⟩, .consoleError,
          .setError (some "API rate limit exceeded".toList),
          .toast .error "API rate limit exceeded".toList,
          .setLoading false]
      ∧ (handleSubmit sampleComponent ⟨some "4".toList⟩
          (.rejected rateLimitError)).trace.any Action.isTimer = false
      ∧ (afterSubmit sampleComponent ⟨some "4".toList⟩ (.rejected rateLimitError)).summary = none
      ∧ (handleSubmit sampleComponent ⟨some "4".toList⟩ (.rejected rateLimitError)).storage
          = ⟨some "4".toList⟩ := by
  decide

theorem includes_iff_isInfix (s pat : List Char) : includes s pat = true ↔ pat <:+: s := by
  induction s with
  | nil => simp [includes, List.isEmpty_iff]
  | cons c cs ih =>
    rw [includes, Bool.or_eq_true, ih, List.infix_cons_iff, List.isPrefixOf_iff_prefix]

/-- C10: the error handler takes the capacity path (high-demand notice, sample record
scheduled after 1500 ms) exactly when the message text it resolved contains `quota`,
`Too Many Requests`, `rate limit` or `Failed to generate summary`; for every other message it
shows that message as a plain error and schedules nothing. -/
theorem submitCatch_classification (err : JSError) :
    (isQuotaError (resolveErrorMsg err) = true
        ↔ ∃ pat ∈ capacityPatterns, pat <:+: resolveErrorMsg err)
      ∧ ((∃ pat ∈ capacityPatterns, pat <:+: resolveErrorMsg err) →
          submitCatch err = [.toast .error highDemandMsg,
            .setTimeout .provideFallbackExperience 1500, .setError (some highDemandMsg)])
      ∧ ((∀ pat ∈ capacityPatterns, ¬ pat <:+: resolveErrorMsg err) →
          submitCatch err = [.toast .error (resolveErrorMsg err),
              .setError (some (resolveErrorMsg err))]
            ∧ (submitCatch err).any Action.isTimer = false) := by
  have hiff : isQuotaError (resolveErrorMsg err) = true
      ↔ ∃ pat ∈ capacityPatterns, pat <:+: resolveErrorMsg err := by
    simp only [isQuotaError, Bool.or_eq_true, includes_iff_isInfix, capacityPatterns,
      List.mem_cons, List.mem_singleton, exists_eq_or_imp, exists_eq_left, or_assoc,
      List.not_mem_nil, false_and, exists_false, or_false]
  refine ⟨hiff, ?_, ?_⟩
  · intro h
    have hq := hiff.mpr h
    simp [submitCatch, hq]
  · intro h
    have hq : isQuotaError (resolveErrorMsg err) = false := by
      cases hb : isQuotaError (resolveErrorMsg err) with
      | false => rfl
      | true =>
        obtain ⟨pat, hp, hin⟩ := hiff.mp hb
        exact absurd hin (h pat hp)
    simp [submitCatch, hq, Action.isTimer]

/-- C10 on an error whose message mentions the rate limit. -/
theorem submitCatch_classification_witness :
    (∃ pat ∈ capacityPatterns, pat <:+: resolveErrorMsg rateLimitError)
      ∧ submitCatch rateLimitError = [.toast .error highDemandMsg,
          .setTimeout .provideFallbackExperience 1500, .setError (some highDemandMsg)] :=
  ⟨(submitCatch_classification rateLimitError).1.mp (by decide),
    (submitCatch_classification rateLimitError).2.1
      ((submitCatch_classification rateLimitError).1.mp (by decide))⟩

/-! ## The fallback record, analyze calls and `handleReset` -/

/-- C11 as stated fails: three of the four key points of the fallback record carry neither
`sample` nor `limit reached`, in any letter case. -/
theorem fallbackSummary_has_unmarked_key_points :
    fallbackSummary.keyPoints = some
        [ "This is a sample key point (AI service limit reached)".toList,
          "Free tier usage is currently at capacity".toList,
          "For full functionality, please register for full access".toList,
          "Registration provides higher usage limits and priority processing".toList ]
      ∧ hasSampleMarker "Free tier usage is currently at capacity".toList = false
      ∧ hasSampleMarker "For full functionality, please register for full access".toList = false
      ∧ hasSampleMarker
          "Registration provides higher usage limits and priority processing".toList = false := by
  decide

/-- C11, amended: the first key point of the fallback record contains both `sample` and
`limit reached`, its summary text contains `sample`, and the record makes the view show its
sample-data badge, which reads the first key point only. -/
theorem fallbackSummary_marked_in_first_key_point_and_summary :
    (fallbackSummary.keyPoints.map (fun points => points.head?.map (fun first =>
        (includes first "sample".toList, includes first "limit reached".toList))))
        = some (some (true, true))
      ∧ fallbackSummary.summary.map (fun text => includes text "sample".toList) = some true
      ∧ sampleBadgeShown (some fallbackSummary) = true := by
  decide

theorem applyTrace_append (c : Component) (t u : List Action) :
    applyTrace c (t ++ u) = applyTrace (applyTrace c t) u := by
  simp [applyTrace, List.foldl_append]

/-- A trace made of requests and log lines leaves the state alone. -/
theorem applyTrace_of_inert (t : List Action)
    (h : ∀ a ∈ t, ∀ c : Component, applyAction c a = c) (c : Component) :
    applyTrace c t = c := by
  induction t generalizing c with
  | nil => rfl
  | cons a t ih =>
    show applyTrace (applyAction c a) t = c
    rw [h a (List.mem_cons_self _ _) c]
    exact ih (fun b hb => h b (List.mem_cons_of_mem _ hb)) c

theorem translateToHindi_trace (text : Option (List Char)) (out : TermOutcome) :
    ∀ a ∈ (translateToHindi text out).1,
      (∀ c : Component, applyAction c a = c) ∧ a.isRemoteCall = false := by
  intro a ha
  unfold translateToHindi at ha
  split at ha
  · simp at ha
  · simp at ha
  · split at ha
    · split at ha <;> simp at ha <;> subst ha <;> exact ⟨fun _ => rfl, rfl⟩
    · simp at ha; subst ha; exact ⟨fun _ => rfl, rfl⟩
    · simp at ha
      rcases ha with rfl | rfl <;> exact ⟨fun _ => rfl, rfl⟩

theorem perFieldTranslation_trace (points : List (List Char)) (summary : Option (List Char))
    (net : TranslateNet) :
    ∀ a ∈ (perFieldTranslation points summary net).1,
      (∀ c : Component, applyAction c a = c) ∧ a.isRemoteCall = false := by
  intro a ha
  simp only [perFieldTranslation, List.mem_append, List.mem_flatten, List.mem_map] at ha
  rcases ha with ⟨l, ⟨r, ⟨ip, _, rfl⟩, rfl⟩, hal⟩ | ha
  · exact translateToHindi_trace _ _ a hal
  · exact translateToHindi_trace _ _ a ha

theorem any_isRemoteCall_eq_false (t : List Action) (h : ∀ a ∈ t, a.isRemoteCall = false) :
    t.any Action.isRemoteCall = false := by
  simpa [List.any_eq_false] using h

theorem fallbackTranslation_no_remote_call (original : SummaryRecord) (net : TranslateNet)
    (done : List Action) (h : fallbackTranslation original net = some done) :
    ∀ a ∈ done, a.isRemoteCall = false := by
  unfold fallbackTranslation at h
  split at h
  · simp only [Option.some.injEq] at h
    subst h
    intro a ha
    rcases List.mem_append.mp ha with ha | ha
    · exact (perFieldTranslation_trace _ _ _ a ha).2
    · simp at ha
      rcases ha with rfl | rfl <;> rfl
  · simp at h

theorem translateDisplayed_no_remote_call (c : Component) (net : TranslateNet) :
    ∀ a ∈ (translateDisplayed c net).1, a.isRemoteCall = false := by
  intro a ha
  unfold translateDisplayed at ha
  have hcons : ∀ (pre done : List Action) (original : SummaryRecord),
      fallbackTranslation original net = some done → (∀ b ∈ pre, b.isRemoteCall = false) →
      a ∈ pre ++ done → a.isRemoteCall = false := by
    intro pre done original hdone hpre hmem
    rcases List.mem_append.mp hmem with hm | hm
    · exact hpre a hm
    · exact fallbackTranslation_no_remote_call original net done hdone a hm
  cases horig : c.originalSummary with
  | none =>
    simp [horig] at ha
    subst ha; rfl
  | some original =>
    simp only [horig] at ha
    cases hfb : fallbackTranslation original net with
    | none =>
      simp only [hfb] at ha
      split at ha
      · simp at ha; rcases ha with rfl | rfl <;> rfl
      · simp at ha; rcases ha with rfl | rfl <;> rfl
      · split at ha
        · split at ha
          · simp at ha; rcases ha with rfl | rfl <;> rfl
          · simp at ha; rcases ha with rfl | rfl <;> rfl
          · simp at ha; rcases ha with rfl | rfl | rfl <;> rfl
        · simp at ha; rcases ha with rfl | rfl <;> rfl
    | some done =>
      simp only [hfb] at ha
      have h2 : a ∈ [Action.axiosPostTerm (.batch original.keyPoints original.summary),
          Action.consoleError] ++ done → a.isRemoteCall = false :=
        hcons _ done original hfb (by intro b hb; simp at hb; rcases hb with rfl | rfl <;> rfl)
      have h1 : a ∈ [Action.axiosPostTerm (.batch original.keyPoints original.summary)]
          ++ done → a.isRemoteCall = false :=
        hcons _ done original hfb (by intro b hb; simp at hb; subst hb; rfl)
      split at ha
      · exact h2 (by simpa using ha)
      · exact h1 (by simpa using ha)
      · split at ha
        · split at ha
          · exact h2 (by simpa using ha)
          · exact h2 (by simpa using ha)
          · simp at ha; rcases ha with rfl | rfl | rfl <;> rfl
        · exact h1 (by simpa using ha)

/-- The handler `handleSubmit` has no guard of its own against a submission in flight: it
never reads the cell `loading`, so its run is the same whatever the cell holds. -/
theorem handleSubmit_ignores_loading (c : Component) (loading : Bool) (ls : Storage)
    (net : AxiosOutcome) :
    handleSubmit { c with loading := loading } ls net = handleSubmit c ls net := by
  rfl

/-- With a summary displayed, which is when the language button is rendered, a run of
`toggleLanguage` issues no remote analyze call. -/
theorem toggleLanguage_no_analyze_call (c : Component) (ls : Storage) (net : TranslateNet)
    (hs : c.summary ≠ none) :
    (toggleLanguage c ls net).trace.any Action.isRemoteCall = false := by
  have hnd : nothingDisplayedYet c = false := by
    cases hsum : c.summary with
    | none => exact absurd hsum hs
    | some x => simp [nothingDisplayedYet, hsum]
  apply any_isRemoteCall_eq_false
  intro a ha
  unfold toggleLanguage at ha
  simp only [hnd, Bool.false_eq_true, if_false] at ha
  split at ha
  · split at ha
    · simp at ha; rcases ha with rfl | rfl | rfl | rfl <;> rfl
    · simp at ha; rcases ha with rfl | rfl | rfl | rfl <;> rfl
  · simp only [List.mem_cons, List.mem_append] at ha
    rcases ha with rfl | (ha | ha) | ha
    · rfl
    · exact translateDisplayed_no_remote_call c net a ha
    · split at ha
      · simp at ha; rcases ha with rfl | rfl <;> rfl
      · simp at ha
    · simp at ha; subst ha; rfl

/-- C13: a confirmed `handleReset` clears the summary at once and schedules the rest; once
its timer has fired, file, summary, original summary and error are `null` and `isHindi` is
false, while the storage and the shown counter are as before; a declined one does nothing
beyond asking. -/
theorem handleReset_clears_attempt (c : Component) (ls : Storage) :
    (handleReset true ls).trace
        = [.windowConfirm, .setSummary none, .setTimeout .resetAfterConfirm 50]
      ∧ (applyTrace c (handleReset true ls).trace).summary = none
      ∧ (afterReset c ls).file = none
      ∧ (afterReset c ls).summary = none
      ∧ (afterReset c ls).originalSummary = none
      ∧ (afterReset c ls).error = none
      ∧ (afterReset c ls).isHindi = false
      ∧ (afterReset c ls).remainingTrials = c.remainingTrials
      ∧ (handleReset true ls).storage = ls
      ∧ getRemainingTrials (handleReset true ls).storage = getRemainingTrials ls
      ∧ (handleReset false ls).trace = [.windowConfirm]
      ∧ applyTrace c (handleReset false ls).trace = c
      ∧ (handleReset false ls).storage = ls := by
  simp [handleReset, afterReset, applyTrace, applyAction, Callback.run]

/-- C14: the code on a state that displays a Hindi summary and retains an English original.
The branch that would restore the original is never taken (its test compares a boolean with
a string), so the run only shows a notice and clears `isHindi`; the Hindi summary stays on
display. No request is made. -/
theorem toggle_back_keeps_translated_summary :
    hindiShownComponent.isHindi = true
      ∧ hindiShownComponent.originalSummary = some sampleSummary
      ∧ sampleSummary.language = some "english".toList
      ∧ (toggleLanguage hindiShownComponent ⟨none⟩ offlineNet).trace =
        [.setTranslationLoading true,
          .toast .info "We need to reprocess your document in English. Please wait...".toList,
          .setIsHindi false, .setTranslationLoading false]
      ∧ (afterToggle hindiShownComponent ⟨none⟩ offlineNet).summary = some hindiSummary
      ∧ (afterToggle hindiShownComponent ⟨none⟩ offlineNet).summary
          ≠ hindiShownComponent.originalSummary
      ∧ (afterToggle hindiShownComponent ⟨none⟩ offlineNet).isHindi = false := by
  decide

/-- The test that guards the restoring branch of `toggleLanguage` is false in every state. -/
theorem originalIsEnglish_false (c : Component) : originalIsEnglish c = false := by
  unfold originalIsEnglish
  split <;> rfl

/-! ## The document view: toggling, the cache and the translation mode -/

/-- C15: with `showHindi` true, `toggleLanguage` of the document view displays the retained
`originalDocument`, clears `showHindi`, leaves the cached translation (and the mode) as they
were and calls no translation service. -/
theorem docToggle_back_is_lookup (v : DocumentView) (net : TranslateOutcome)
    (h : v.showHindi = true) :
    docToggleLanguage v net =
        [.setTranslationLoading true, .setDocument v.originalDocument, .setShowHindi false,
          .toast .info "Showing summary in English".toList, .setTranslationLoading false]
      ∧ (afterDocToggle v net).document = v.originalDocument
      ∧ (afterDocToggle v net).showHindi = false
      ∧ (afterDocToggle v net).translatedDocument = v.translatedDocument
      ∧ (afterDocToggle v net).originalDocument = v.originalDocument
      ∧ (afterDocToggle v net).useAI = v.useAI
      ∧ (docToggleLanguage v net).any DocAction.isTranslationCall = false := by
  have ht : docToggleLanguage v net =
      [.setTranslationLoading true, .setDocument v.originalDocument, .setShowHindi false,
        .toast .info "Showing summary in English".toList, .setTranslationLoading false] := by
    simp [docToggleLanguage, h]
  unfold afterDocToggle
  rw [ht]
  simp [applyDocTrace, applyDocAction, DocAction.isTranslationCall]

/-- C15 on the view that shows the Hindi rendering of `sampleDocument`. -/
theorem docToggle_back_is_lookup_witness :
    (afterDocToggle sampleView hindiAnswer).showHindi = true
      ∧ (afterDocToggle (afterDocToggle sampleView hindiAnswer) hindiAnswer).document
          = (afterDocToggle sampleView hindiAnswer).originalDocument
      ∧ (docToggleLanguage (afterDocToggle sampleView hindiAnswer) hindiAnswer).any
          DocAction.isTranslationCall = false :=
  ⟨by decide,
    (docToggle_back_is_lookup (afterDocToggle sampleView hindiAnswer) hindiAnswer
      (by decide)).2.1,
    (docToggle_back_is_lookup (afterDocToggle sampleView hindiAnswer) hindiAnswer
      (by decide)).2.2.2.2.2.2⟩

theorem applyDocAction_translationNotice (v : DocumentView) (t : DocSummary) :
    applyDocAction v (translationNotice t) = v := by
  unfold translationNotice
  split <;> rfl

/-- The state a first, successful translation leaves behind. -/
theorem afterDocToggle_translated (v : DocumentView) (original : Document) (s t : DocSummary)
    (message : Option (List Char))
    (hshow : v.showHindi = false) (horig : v.originalDocument = some original)
    (hsum : original.summary = some s) (hcache : v.translatedDocument = none) :
    afterDocToggle v
        (.returned { success := true, translatedSummary := some t, message := message })
      = { v with
          document := some { original with summary := some t },
          showHindi := true, translatedDocument := some t, translationLoading := false } := by
  unfold afterDocToggle docToggleLanguage
  simp only [hshow, horig, hsum, hcache, Bool.false_eq_true, if_false, if_true]
  by_cases he : (englishFields t).length > 0 <;>
    simp only [he, if_true, if_false, List.append_assoc, List.cons_append, List.nil_append,
      applyDocTrace, List.foldl_cons, List.foldl_nil, applyDocAction_translationNotice] <;>
    simp [applyDocAction, horig]

/-- C16: after a successful translation to Hindi, toggling back and toggling to Hindi again
(no mode switch in between) displays the same document as the first translation did, and
that last toggle calls no translation service. -/
theorem docToggle_reuses_cache (v : DocumentView) (original : Document) (s t : DocSummary)
    (message : Option (List Char)) (net2 net3 : TranslateOutcome)
    (hshow : v.showHindi = false) (horig : v.originalDocument = some original)
    (hsum : original.summary = some s) (hcache : v.translatedDocument = none) :
    (afterDocToggle (afterDocToggle (afterDocToggle v
          (.returned { success := true, translatedSummary := some t, message := message }))
          net2) net3).document
        = (afterDocToggle v
          (.returned { success := true, translatedSummary := some t, message := message })).document
      ∧ (docToggleLanguage (afterDocToggle (afterDocToggle v
          (.returned { success := true, translatedSummary := some t, message := message }))
          net2) net3).any DocAction.isTranslationCall = false
      ∧ (afterDocToggle (afterDocToggle (afterDocToggle v
          (.returned { success := true, translatedSummary := some t, message := message }))
          net2) net3).showHindi = true := by
  rw [afterDocToggle_translated v original s t message hshow horig hsum hcache]
  simp [afterDocToggle, docToggleLanguage, applyDocTrace, applyDocAction, horig, hsum,
    DocAction.isTranslationCall]

/-- C16 on `sampleView`: translate, toggle back, toggle again. -/
theorem docToggle_reuses_cache_witness :
    (afterDocToggle (afterDocToggle (afterDocToggle sampleView hindiAnswer)
        (.thrown "offline".toList)) (.thrown "offline".toList)).document
      = (afterDocToggle sampleView hindiAnswer).document
    ∧ (docToggleLanguage (afterDocToggle (afterDocToggle sampleView hindiAnswer)
        (.thrown "offline".toList)) (.thrown "offline".toList)).any
        DocAction.isTranslationCall = false :=
  ⟨(docToggle_reuses_cache sampleView sampleDocument sampleDocSummary hindiDocSummary none
      (.thrown "offline".toList) (.thrown "offline".toList) rfl rfl rfl rfl).1,
    (docToggle_reuses_cache sampleView sampleDocument sampleDocSummary hindiDocSummary none
      (.thrown "offline".toList) (.thrown "offline".toList) rfl rfl rfl rfl).2.1⟩

theorem isTranslationCall_translationNotice (t : DocSummary) :
    (translationNotice t).isTranslationCall = false := by
  unfold translationNotice
  split <;> rfl

/-- The translation calls of a `toggleLanguage` run when the run has to translate: exactly
one, made with `useAI` and `completeTranslation` both true. -/
theorem docToggle_translates_once (v : DocumentView) (original : Document) (s : DocSummary)
    (net : TranslateOutcome)
    (hshow : v.showHindi = false) (horig : v.originalDocument = some original)
    (hsum : original.summary = some s) (hcache : v.translatedDocument = none) :
    (docToggleLanguage v net).filter DocAction.isTranslationCall
      = [.translateDocumentSummary true true] := by
  unfold docToggleLanguage
  simp only [hshow, horig, hsum, hcache, Bool.false_eq_true, if_false]
  cases net with
  | thrown message =>
    simp [List.filter_cons, DocAction.isTranslationCall, translationFailed]
  | returned response =>
    by_cases hs : response.success = true
    · cases ht : response.translatedSummary with
      | none =>
        simp [hs, ht, List.filter_cons, DocAction.isTranslationCall, translationFailed]
      | some t =>
        have hn := isTranslationCall_translationNotice t
        by_cases he : (englishFields t).length > 0 <;>
          simp [hs, ht, he, List.filter_cons, hn] <;>
          simp [DocAction.isTranslationCall]
    · simp [hs, List.filter_cons, DocAction.isTranslationCall, translationFailed]

/-- C17: with a cached translation, `toggleTranslationMode` flips the mode, drops the cache
and clears `showHindi`, putting the original back on display if Hindi was shown; the next
`toggleLanguage` then makes a fresh call of the translation service. -/
theorem toggleTranslationMode_invalidates_cache (v : DocumentView) (cached : DocSummary)
    (hc : v.translatedDocument = some cached) :
    (afterModeToggle v).translatedDocument = none
      ∧ (afterModeToggle v).useAI = !v.useAI
      ∧ (afterModeToggle v).showHindi = false
      ∧ (v.showHindi = true → (afterModeToggle v).document = v.originalDocument)
      ∧ (v.showHindi = false → (afterModeToggle v).document = v.document)
      ∧ (afterModeToggle v).originalDocument = v.originalDocument
      ∧ (∀ (original : Document) (s : DocSummary) (net : TranslateOutcome),
          v.originalDocument = some original → original.summary = some s →
          (docToggleLanguage (afterModeToggle v) net).filter DocAction.isTranslationCall
            = [.translateDocumentSummary true true]) := by
  have hcache : (afterModeToggle v).translatedDocument = none := by
    cases hsh : v.showHindi <;>
      simp [afterModeToggle, toggleTranslationMode, hc, hsh, applyDocTrace, applyDocAction]
  have hshow : (afterModeToggle v).showHindi = false := by
    cases hsh : v.showHindi <;>
      simp [afterModeToggle, toggleTranslationMode, hc, hsh, applyDocTrace, applyDocAction]
  have horig : (afterModeToggle v).originalDocument = v.originalDocument := by
    cases hsh : v.showHindi <;>
      simp [afterModeToggle, toggleTranslationMode, hc, hsh, applyDocTrace, applyDocAction]
  refine ⟨hcache, ?_, hshow, ?_, ?_, horig, ?_⟩
  · cases hsh : v.showHindi <;>
      simp [afterModeToggle, toggleTranslationMode, hc, hsh, applyDocTrace, applyDocAction]
  · intro hsh
    simp [afterModeToggle, toggleTranslationMode, hc, hsh, applyDocTrace, applyDocAction]
  · intro hsh
    simp [afterModeToggle, toggleTranslationMode, hc, hsh, applyDocTrace, applyDocAction]
  · intro original s net ho hs
    exact docToggle_translates_once (afterModeToggle v) original s net hshow
      (horig.trans ho) hs hcache

/-- C17 on the view that shows a cached Hindi translation. -/
theorem toggleTranslationMode_invalidates_cache_witness :
    (afterDocToggle sampleView hindiAnswer).translatedDocument = some hindiDocSummary
      ∧ (afterModeToggle (afterDocToggle sampleView hindiAnswer)).translatedDocument = none
      ∧ (afterModeToggle (afterDocToggle sampleView hindiAnswer)).showHindi = false
      ∧ (docToggleLanguage (afterModeToggle (afterDocToggle sampleView hindiAnswer))
          hindiAnswer).filter DocAction.isTranslationCall
          = [.translateDocumentSummary true true] :=
  ⟨by decide,
    (toggleTranslationMode_invalidates_cache (afterDocToggle sampleView hindiAnswer)
      hindiDocSummary (by decide)).1,
    (toggleTranslationMode_invalidates_cache (afterDocToggle sampleView hindiAnswer)
      hindiDocSummary (by decide)).2.2.1,
    (toggleTranslationMode_invalidates_cache (afterDocToggle sampleView hindiAnswer)
      hindiDocSummary (by decide)).2.2.2.2.2.2 sampleDocument sampleDocSummary hindiAnswer
      (by decide) rfl⟩

/-- C18 as stated fails: after a switch to the dictionary mode (`useAI` false) the call made
by `toggleLanguage` still passes `useAI` true. -/
theorem docToggle_passes_ai_in_dictionary_mode :
    (afterModeToggle sampleView).useAI = false
      ∧ (docToggleLanguage (afterModeToggle sampleView) hindiAnswer).filter
          DocAction.isTranslationCall = [.translateDocumentSummary true true] := by
  decide

/-- C18, amended: a run of `toggleLanguage` makes at most one call of the translation
service, always with `useAI` true (and `completeTranslation` true), and the run does not
depend on the current translation mode at all. -/
theorem docToggle_always_requests_ai (v : DocumentView) (net : TranslateOutcome) :
    ((docToggleLanguage v net).filter DocAction.isTranslationCall = []
        ∨ (docToggleLanguage v net).filter DocAction.isTranslationCall
          = [.translateDocumentSummary true true])
      ∧ ∀ mode : Bool, docToggleLanguage { v with useAI := mode } net = docToggleLanguage v net := by
  refine ⟨?_, fun mode => rfl⟩
  cases hshow : v.showHindi with
  | true =>
    left
    simp [docToggleLanguage, hshow, List.filter_cons, DocAction.isTranslationCall]
  | false =>
    cases horig : v.originalDocument with
    | none =>
      left
      simp [docToggleLanguage, hshow, horig, List.filter_cons, DocAction.isTranslationCall]
    | some original =>
      cases hsum : original.summary with
      | none =>
        left
        simp [docToggleLanguage, hshow, horig, hsum, List.filter_cons,
          DocAction.isTranslationCall]
      | some s =>
        cases hcache : v.translatedDocument with
        | some cached =>
          left
          simp [docToggleLanguage, hshow, horig, hsum, hcache, List.filter_cons,
            DocAction.isTranslationCall]
        | none =>
          right
          exact docToggle_translates_once v original s net hshow horig hsum hcache

/-! ## The translate branch of the anonymous `toggleLanguage` -/

theorem perFieldTranslation_results (points : List (List Char)) (summary : Option (List Char))
    (net : TranslateNet) :
    (perFieldTranslation points summary net).2.1 = perFieldKeyPoints points net
      ∧ (perFieldTranslation points summary net).2.2 = (translateToHindi summary net.summary).2 := by
  simp [perFieldTranslation, perFieldKeyPoints]

theorem perFieldKeyPoints_length (points : List (List Char)) (net : TranslateNet) :
    (perFieldKeyPoints points net).length = points.length := by
  simp [perFieldKeyPoints]

theorem perFieldKeyPoints_getElem? (points : List (List Char)) (net : TranslateNet) (i : Nat) :
    (perFieldKeyPoints points net)[i]?
      = points[i]?.map (fun p => (translateToHindi (some p) (net.point i)).2) := by
  simp only [perFieldKeyPoints, List.getElem?_map, List.getElem?_enum]
  cases points[i]? <;> rfl

/-- The state after a toggle to Hindi on which the batch tier failed: the copy of the
original with the per-field results is displayed, the original is retained. -/
theorem afterToggle_per_field (c : Component) (ls : Storage) (net : TranslateNet)
    (original : SummaryRecord) (points : List (List Char))
    (hh : c.isHindi = false) (hd : nothingDisplayedYet c = false)
    (ho : c.originalSummary = some original) (hk : original.keyPoints = some points)
    (hf : batchFailed net = true) :
    (afterToggle c ls net).summary = some
        { original with
          keyPoints := some (perFieldKeyPoints points net),
          summary := some (translateToHindi original.summary net.summary).2 }
      ∧ (afterToggle c ls net).isHindi = true
      ∧ (afterToggle c ls net).originalSummary = some original := by
  obtain ⟨hr1, hr2⟩ := perFieldTranslation_results points original.summary net
  have hinert : ∀ a ∈ (perFieldTranslation points original.summary net).1,
      ∀ c : Component, applyAction c a = c :=
    fun a ha => (perFieldTranslation_trace points original.summary net a ha).1
  have hfb : fallbackTranslation original net = some
      ((perFieldTranslation points original.summary net).1 ++
        [ .setSummary (some { original with
            keyPoints := some (perFieldKeyPoints points net),
            summary := some (translateToHindi original.summary net.summary).2 }),
          .setIsHindi true ]) := by
    simp [fallbackTranslation, hk, hr1, hr2]
  have hdisp : ∃ pre : List Action, (∀ a ∈ pre, ∀ c : Component, applyAction c a = c)
      ∧ translateDisplayed c net = (pre ++
        ((perFieldTranslation points original.summary net).1 ++
          [ .setSummary (some { original with
              keyPoints := some (perFieldKeyPoints points net),
              summary := some (translateToHindi original.summary net.summary).2 }),
            .setIsHindi true ]), false) := by
    have h2 : ∀ a ∈ [Action.axiosPostTerm (.batch original.keyPoints original.summary),
        Action.consoleError], ∀ c : Component, applyAction c a = c := by
      intro a ha c0; simp at ha; rcases ha with rfl | rfl <;> rfl
    have h1 : ∀ a ∈ [Action.axiosPostTerm (.batch original.keyPoints original.summary)],
        ∀ c : Component, applyAction c a = c := by
      intro a ha c0; simp at ha; subst ha; rfl
    unfold batchFailed at hf
    unfold translateDisplayed
    simp only [ho, hfb]
    cases hb : net.batch with
    | rejected => exact ⟨_, h2, by simp⟩
    | resolved data =>
      cases data with
      | none => exact ⟨_, h1, by simp⟩
      | some d =>
        simp only [hb] at hf
        by_cases hs : d.success = true
        · simp only [hs, if_true] at hf ⊢
          cases hp : net.parse d.translatedTerm with
          | syntaxError => exact ⟨_, h2, by simp⟩
          | null => exact ⟨_, h2, by simp⟩
          | value kp s => simp [hp] at hf
        · simp only [hs, Bool.false_eq_true, if_false]
          exact ⟨_, h1, by simp⟩
  obtain ⟨pre, hpre, hdisp⟩ := hdisp
  have hstate : afterToggle c ls net =
      applyTrace c [ .setTranslationLoading true,
        .setSummary (some { original with
          keyPoints := some (perFieldKeyPoints points net),
          summary := some (translateToHindi original.summary net.summary).2 }),
        .setIsHindi true, .setTranslationLoading false ] := by
    unfold afterToggle toggleLanguage
    simp only [hh, hd, Bool.false_eq_true, if_false, hdisp, List.append_nil]
    rw [show (Action.setTranslationLoading true :: ((pre ++
        ((perFieldTranslation points original.summary net).1 ++
          [ Action.setSummary (some { original with
              keyPoints := some (perFieldKeyPoints points net),
              summary := some (translateToHindi original.summary net.summary).2 }),
            Action.setIsHindi true ])) ++ [Action.setTranslationLoading false]))
        = [Action.setTranslationLoading true] ++ (pre ++
          ((perFieldTranslation points original.summary net).1 ++
            [ Action.setSummary (some { original with
                keyPoints := some (perFieldKeyPoints points net),
                summary := some (translateToHindi original.summary net.summary).2 }),
              Action.setIsHindi true, Action.setTranslationLoading false ])) by simp]
    rw [applyTrace_append, applyTrace_append, applyTrace_append,
      applyTrace_of_inert pre hpre, applyTrace_of_inert _ hinert]
    rfl
  rw [hstate]
  simp [applyTrace, applyAction, ho]

/-- C19: in the anonymous view, with a summary displayed in English, when the batch request
throws, reports failure (no body, or `success` false) or returns a `translatedTerm` that
`JSON.parse` rejects, the record displayed after the toggle has as key points the
`translateToHindi` results of the original key points, position by position and in the same
number, and as summary the `translateToHindi` result of the original summary. -/
theorem toggle_fallback_preserves_order (c : Component) (ls : Storage) (net : TranslateNet)
    (original : SummaryRecord) (points : List (List Char))
    (hh : c.isHindi = false) (hd : nothingDisplayedYet c = false)
    (ho : c.originalSummary = some original) (hk : original.keyPoints = some points)
    (hfail : net.batch = .rejected
      ∨ net.batch = .resolved none
      ∨ (∃ data, net.batch = .resolved (some data) ∧ data.success = false)
      ∨ (∃ data, net.batch = .resolved (some data) ∧ data.success = true
          ∧ net.parse data.translatedTerm = .syntaxError)) :
    ∃ shown : SummaryRecord, (afterToggle c ls net).summary = some shown
      ∧ shown.keyPoints = some (perFieldKeyPoints points net)
      ∧ (perFieldKeyPoints points net).length = points.length
      ∧ (∀ i : Nat, (perFieldKeyPoints points net)[i]?
          = points[i]?.map (fun p => (translateToHindi (some p) (net.point i)).2))
      ∧ shown.summary = some (translateToHindi original.summary net.summary).2 := by
  have hf : batchFailed net = true := by
    unfold batchFailed
    rcases hfail with h | h | ⟨data, h, hs⟩ | ⟨data, h, hs, hp⟩
    · simp [h]
    · simp [h]
    · simp [h, hs]
    · simp [h, hs, hp]
  exact ⟨_, (afterToggle_per_field c ls net original points hh hd ho hk hf).1, rfl,
    perFieldKeyPoints_length points net, perFieldKeyPoints_getElem? points net, rfl⟩

/-- C19 on a state that displays three key points, with a batch answer that is not JSON and
per-field requests that end differently at each position: the three results are displayed in
the order of the original key points. -/
theorem toggle_fallback_preserves_order_witness :
    (∃ data, mixedNet.batch = .resolved (some data) ∧ data.success = true
        ∧ mixedNet.parse data.translatedTerm = .syntaxError)
      ∧ (∃ shown : SummaryRecord,
        (afterToggle leaseShownComponent ⟨none⟩ mixedNet).summary = some shown
        ∧ shown.keyPoints = some (perFieldKeyPoints leasePoints mixedNet)
        ∧ (perFieldKeyPoints leasePoints mixedNet).length = leasePoints.length
        ∧ (∀ i : Nat, (perFieldKeyPoints leasePoints mixedNet)[i]?
            = leasePoints[i]?.map (fun p => (translateToHindi (some p) (mixedNet.point i)).2))
        ∧ shown.summary
            = some (translateToHindi leaseSummary.summary mixedNet.summary).2)
      ∧ perFieldKeyPoints leasePoints mixedNet
          = ["पहला बिंदु".toList, "Rent है due on यह first day".toList,
              "Either पक्ष may end यह समझौता".toList]
      ∧ (afterToggle leaseShownComponent ⟨none⟩ mixedNet).summary
          = some { keyPoints := some ["पहला बिंदु".toList, "Rent है due on यह first day".toList,
                      "Either पक्ष may end यह समझौता".toList],
                   summary := some "आवासीय पट्टा".toList,
                   language := some "english".toList } :=
  ⟨⟨_, rfl, rfl, rfl⟩,
    toggle_fallback_preserves_order leaseShownComponent ⟨none⟩ mixedNet leaseSummary
      leasePoints rfl (by decide) rfl rfl (Or.inr (Or.inr (Or.inr ⟨_, rfl, rfl, rfl⟩))),
    by decide, by decide⟩

/-- C20: a batch answer that reports success and parses to an object without `keyPoints` and
`summary` is displayed unchecked: the record shown after the toggle has neither a key-point
list nor a summary text, where the original has one key point and a summary.  The sibling
answers that cannot be used either, a text that is not JSON and the value `null`, fall back
to the per-field tier and display one key point and a summary text. -/
theorem toggle_shows_payload_without_fields :
    englishShownComponent.originalSummary = some sampleSummary
      ∧ sampleSummary.keyPoints.map List.length = some 1
      ∧ (afterToggle englishShownComponent ⟨none⟩ emptyPayloadNet).summary
          = some { keyPoints := none, summary := none, language := some "english".toList }
      ∧ (afterToggle englishShownComponent ⟨none⟩ emptyPayloadNet).isHindi = true
      ∧ (afterToggle englishShownComponent ⟨none⟩ brokenPayloadNet).summary
          = some { keyPoints := some ["यह lease runs के लिए eleven months".toList],
                   summary := some "A residential lease between two पक्षों.".toList,
                   language := some "english".toList }
      ∧ (afterToggle englishShownComponent ⟨none⟩ nullPayloadNet).summary
          = (afterToggle englishShownComponent ⟨none⟩ brokenPayloadNet).summary := by
  decide

/-! ## Residual Latin text in the document view -/

/-- A run of three letters, read off the head of the text position by position. -/
theorem hasLatinRun_iff (s : List Char) :
    (hasLatinRun 0 s = true ↔ HasLatinRun s)
      ∧ (hasLatinRun 1 s = true ↔ HasLatinRun s ∨
          ∃ x y t, s = x :: y :: t ∧ isLatinLetter x = true ∧ isLatinLetter y = true)
      ∧ (hasLatinRun 2 s = true ↔ HasLatinRun s ∨
          ∃ x t, s = x :: t ∧ isLatinLetter x = true) := by
  induction s with
  | nil =>
    refine ⟨?_, ?_, ?_⟩ <;> simp [hasLatinRun, HasLatinRun]
  | cons c cs ih =>
    obtain ⟨ih0, ih1, ih2⟩ := ih
    have hcons : HasLatinRun (c :: cs) ↔ HasLatinRun cs ∨
        (isLatinLetter c = true ∧ ∃ y z t, cs = y :: z :: t
          ∧ isLatinLetter y = true ∧ isLatinLetter z = true) := by
      constructor
      · rintro ⟨pre, x, y, z, post, h, hx, hy, hz⟩
        cases pre with
        | nil =>
          simp only [List.nil_append, List.cons.injEq] at h
          obtain ⟨rfl, rfl⟩ := h
          exact Or.inr ⟨hx, y, z, post, rfl, hy, hz⟩
        | cons p pre =>
          simp only [List.cons_append, List.cons.injEq] at h
          obtain ⟨rfl, rfl⟩ := h
          exact Or.inl ⟨pre, x, y, z, post, rfl, hx, hy, hz⟩
      · rintro (⟨pre, x, y, z, post, rfl, hx, hy, hz⟩ | ⟨hc, y, z, t, rfl, hy, hz⟩)
        · exact ⟨c :: pre, x, y, z, post, rfl, hx, hy, hz⟩
        · exact ⟨[], c, y, z, t, rfl, hc, hy, hz⟩
    by_cases hc : isLatinLetter c = true
    · have hcond : ((65 ≤ c.toNat && c.toNat ≤ 90) || (97 ≤ c.toNat && c.toNat ≤ 122)) = true := hc
      refine ⟨?_, ?_, ?_⟩
      · rw [hasLatinRun]
        simp only [hcond, if_true, show ¬ (0 + 1 ≥ 3) by decide, if_false]
        rw [ih1, hcons]
        constructor
        · rintro (h | ⟨x, y, t, rfl, hx, hy⟩)
          · exact Or.inl h
          · exact Or.inr ⟨hc, x, y, t, rfl, hx, hy⟩
        · rintro (h | ⟨_, y, z, t, rfl, hy, hz⟩)
          · exact Or.inl h
          · exact Or.inr ⟨y, z, t, rfl, hy, hz⟩
      · rw [hasLatinRun]
        simp only [hcond, if_true, show ¬ (1 + 1 ≥ 3) by decide, if_false]
        rw [ih2, hcons]
        constructor
        · rintro (h | ⟨x, t, rfl, hx⟩)
          · exact Or.inl (Or.inl h)
          · exact Or.inr ⟨c, x, t, rfl, hc, hx⟩
        · rintro ((h | ⟨_, y, z, t, rfl, hy, _⟩) | ⟨x, y, t, h, _, hy⟩)
          · exact Or.inl h
          · exact Or.inr ⟨y, z :: t, rfl, hy⟩
          · simp only [List.cons.injEq] at h
            obtain ⟨rfl, rfl⟩ := h
            exact Or.inr ⟨y, t, rfl, hy⟩
      · rw [hasLatinRun]
        simp only [hcond, if_true, show (2 + 1 ≥ 3) by decide]
        simp only [true_iff]
        exact Or.inr ⟨c, cs, rfl, hc⟩
    · have hcond : ((65 ≤ c.toNat && c.toNat ≤ 90) || (97 ≤ c.toNat && c.toNat ≤ 122)) = false := by
        simpa [isLatinLetter] using hc
      have hno : ¬ (isLatinLetter c = true ∧ ∃ y z t, cs = y :: z :: t
          ∧ isLatinLetter y = true ∧ isLatinLetter z = true) := fun h => hc h.1
      refine ⟨?_, ?_, ?_⟩
      · rw [hasLatinRun]
        simp only [hcond, Bool.false_eq_true, if_false]
        rw [ih0, hcons]
        constructor
        · intro h; exact Or.inl h
        · rintro (h | h)
          · exact h
          · exact absurd h hno
      · rw [hasLatinRun]
        simp only [hcond, Bool.false_eq_true, if_false]
        rw [ih0, hcons]
        constructor
        · intro h; exact Or.inl (Or.inl h)
        · rintro ((h | h) | ⟨x, y, t, h, hx, _⟩)
          · exact h
          · exact absurd h hno
          · simp only [List.cons.injEq] at h
            obtain ⟨rfl, rfl⟩ := h
            exact absurd hx hc
      · rw [hasLatinRun]
        simp only [hcond, Bool.false_eq_true, if_false]
        rw [ih0, hcons]
        constructor
        · intro h; exact Or.inl (Or.inl h)
        · rintro ((h | h) | ⟨x, t, h, hx⟩)
          · exact h
          · exact absurd h hno
          · simp only [List.cons.injEq] at h
            obtain ⟨rfl, rfl⟩ := h
            exact absurd hx hc

theorem containsEnglish_iff (content : Option (List Char)) :
    containsEnglish content = true
      ↔ ∃ text, content = some text ∧ text ≠ [] ∧ HasLatinRun text := by
  cases content with
  | none => simp [containsEnglish]
  | some text =>
    cases text with
    | nil => simp [containsEnglish]
    | cons c cs =>
      simp only [containsEnglish, (hasLatinRun_iff (c :: cs)).1]
      simp

theorem hasLatinRun_of_no_letter (text : List Char)
    (h : ∀ c ∈ text, isLatinLetter c = false) : ¬ HasLatinRun text := by
  rintro ⟨pre, x, y, z, post, rfl, hx, _, _⟩
  have := h x (by simp)
  rw [hx] at this
  exact Bool.noConfusion this

theorem mem_numberedFields (label : List Char) (items : Option (List (List Char)))
    (name content : List Char) :
    (name, some content) ∈ numberedFields label items
      ↔ ∃ i : Nat, name = label ++ natToString (i + 1)
          ∧ (items.getD [])[i]? = some content := by
  unfold numberedFields
  simp only [List.mem_map, Prod.mk.injEq, Option.some.injEq]
  constructor
  · rintro ⟨⟨i, x⟩, hmem, hname, hx⟩
    simp only at hname hx
    subst hx
    exact ⟨i, hname.symm, List.mk_mem_enum_iff_getElem?.mp hmem⟩
  · rintro ⟨i, hname, hget⟩
    exact ⟨(i, content), List.mk_mem_enum_iff_getElem?.mpr hget, hname.symm, rfl⟩

/-- The entries of `fieldsToCheck` that have a content are the fields of the translated
summary, each under its identifier. -/
theorem mem_fieldsToCheck (t : DocSummary) (name content : List Char) :
    (name, some content) ∈ fieldsToCheck t ↔ translatedField t name content := by
  have hfirst : some content = t.documentOverview ↔ t.documentOverview = some content :=
    eq_comm
  have hlast : some content = t.plainLanguageSummary
      ↔ t.plainLanguageSummary = some content := eq_comm
  unfold fieldsToCheck translatedField
  simp only [List.mem_append, List.mem_singleton, Prod.mk.injEq, mem_numberedFields,
    or_assoc, hfirst, hlast]

/-- C22: an identifier is in `englishFields` exactly when the translated summary has a field
under that identifier (the overview, a key party, an important clause, a critical date, a
potential concern by position, or the plain-language summary) whose content is non-empty and
holds a run of three or more consecutive Latin letters; so the list is empty when no field
holds a Latin letter, and it holds the identifier of every field with an embedded run of
four Latin letters. -/
theorem englishFields_reports_latin_runs (t : DocSummary) :
    (∀ name : List Char, name ∈ englishFields t
        ↔ ∃ content, translatedField t name content
            ∧ content ≠ [] ∧ HasLatinRun content)
      ∧ ((∀ name content, translatedField t name content →
            ∀ c ∈ content, isLatinLetter c = false) → englishFields t = [])
      ∧ (∀ (name content pre : List Char) (a b c d : Char) (post : List Char),
          translatedField t name content → content = pre ++ a :: b :: c :: d :: post →
          isLatinLetter a = true → isLatinLetter b = true → isLatinLetter c = true →
          isLatinLetter d = true → name ∈ englishFields t) := by
  have hiff : ∀ name : List Char, name ∈ englishFields t
      ↔ ∃ content, translatedField t name content
          ∧ content ≠ [] ∧ HasLatinRun content := by
    intro name
    simp only [englishFields, List.mem_map, List.mem_filter, containsEnglish_iff,
      ← mem_fieldsToCheck]
    constructor
    · rintro ⟨⟨n, c⟩, ⟨hmem, text, hc, hne, hrun⟩, rfl⟩
      simp only at hc
      subst hc
      exact ⟨text, hmem, hne, hrun⟩
    · rintro ⟨content, hmem, hne, hrun⟩
      exact ⟨(name, some content), ⟨hmem, content, rfl, hne, hrun⟩, rfl⟩
  refine ⟨hiff, ?_, ?_⟩
  · intro hall
    apply List.eq_nil_iff_forall_not_mem.mpr
    intro name hname
    obtain ⟨content, hfield, _, hrun⟩ := (hiff name).mp hname
    exact hasLatinRun_of_no_letter content (hall name content hfield) hrun
  · intro name content pre a b c d post hfield hc ha hb hcc _
    refine (hiff name).mpr ⟨content, hfield, ?_, ⟨pre, a, b, c, d :: post, hc, ha, hb, hcc⟩⟩
    rw [hc]; simp

/-- C22 on a translated summary whose second key party still holds the word `Tenant`: the
identifier `Key Party 2` is reported, and nothing else. -/
theorem englishFields_reports_latin_runs_witness :
    translatedField residueDocSummary "Key Party 2".toList "Tenant किरायेदार".toList
      ∧ "Key Party 2".toList ∈ englishFields residueDocSummary
      ∧ englishFields residueDocSummary = ["Key Party 2".toList]
      ∧ englishFields hindiDocSummary = [] :=
  ⟨Or.inr (Or.inl ⟨1, by decide, by decide⟩),
    (englishFields_reports_latin_runs residueDocSummary).2.2
      "Key Party 2".toList "Tenant किरायेदार".toList [] 'T' 'e' 'n' 'a' "nt किरायेदार".toList
      (Or.inr (Or.inl ⟨1, by decide, by decide⟩)) (by decide) (by decide) (by decide)
      (by decide) (by decide),
    by decide, by decide⟩

/-- C23: for a successful response that carries a translated summary, the run of
`toggleLanguage` stores the same things and reaches the same state whether or not residual
Latin text is found: the translated summary is displayed inside the original document and
cached, `showHindi` is true, the spinner is off.  What residue changes is the notice, a
warning (with a log line) instead of a success. -/
theorem residue_only_changes_notice (v : DocumentView) (original : Document)
    (s t : DocSummary) (message : Option (List Char))
    (hshow : v.showHindi = false) (horig : v.originalDocument = some original)
    (hsum : original.summary = some s) (hcache : v.translatedDocument = none) :
    afterDocToggle v
        (.returned { success := true, translatedSummary := some t, message := message })
        = { v with
            document := some { original with summary := some t },
            showHindi := true, translatedDocument := some t, translationLoading := false }
      ∧ docToggleLanguage v
        (.returned { success := true, translatedSummary := some t, message := message })
        = [.setTranslationLoading true,
            .toast .info "Translating every word to Hindi, please wait...".toList,
            .translateDocumentSummary true true,
            .setTranslatedDocument (some t),
            .setDocument (some { original with summary := some t }),
            .setShowHindi true]
          ++ (if (englishFields t).length > 0 then [DocAction.consoleWarn] else [])
          ++ [translationNotice t, .setTranslationLoading false]
      ∧ (englishFields t = [] → ∃ text, translationNotice t = .toast .success text)
      ∧ (englishFields t ≠ [] → ∃ text, translationNotice t = .toast .warning text) := by
  refine ⟨afterDocToggle_translated v original s t message hshow horig hsum hcache, ?_, ?_, ?_⟩
  · simp [docToggleLanguage, hshow, horig, hsum, hcache]
  · intro h
    simp [translationNotice, h]
  · intro h
    have : (englishFields t).length > 0 := List.length_pos.mpr h
    simp [translationNotice, this]

/-- C23 on `sampleView`, once with a clean translation and once with residue. -/
theorem residue_only_changes_notice_witness :
    (afterDocToggle sampleView (.returned
        { success := true, translatedSummary := some hindiDocSummary, message := none })).showHindi
        = true
      ∧ (afterDocToggle sampleView (.returned
          { success := true,
            translatedSummary := some
              { hindiDocSummary with documentOverview := some "एक lease।".toList },
            message := none })).showHindi = true :=
  ⟨by rw [(residue_only_changes_notice sampleView sampleDocument sampleDocSummary
      hindiDocSummary none rfl rfl rfl rfl).1],
    by rw [(residue_only_changes_notice sampleView sampleDocument sampleDocSummary
      { hindiDocSummary with documentOverview := some "एक lease।".toList } none
      rfl rfl rfl rfl).1]⟩

/-! ## Re-fetching and regenerating in the document view -/

/-- C28: `handleGenerateSummary` leaves `document` and `originalDocument` as they are while
the request is in flight, when the request fails, and when the re-fetch that follows a
success has started or has failed; the two cells change only when the re-fetch has
succeeded with a body, and then both hold the fetched document. -/
theorem regenerate_keeps_display (v : DocumentView) (gen : GenerateOutcome)
    (fetched : FetchOutcome) :
    ((applyDocTrace v handleGenerateSummaryStart).document = v.document
        ∧ (applyDocTrace v handleGenerateSummaryStart).originalDocument = v.originalDocument)
      ∧ (∀ error, gen = .failed error →
          (afterGenerate v gen fetched).document = v.document
            ∧ (afterGenerate v gen fetched).originalDocument = v.originalDocument)
      ∧ (gen = .succeeded →
          (applyDocTrace v (handleGenerateSummaryStart ++
              [.toast .success "Summary generated successfully!".toList]
              ++ fetchDocumentDetailsStart ++ [.setSummarizing false])).document = v.document
            ∧ (applyDocTrace v (handleGenerateSummaryStart ++
              [.toast .success "Summary generated successfully!".toList]
              ++ fetchDocumentDetailsStart ++ [.setSummarizing false])).originalDocument
              = v.originalDocument)
      ∧ ((fetched = .failed ∨ fetched = .succeeded none) →
          (afterGenerate v gen fetched).document = v.document
            ∧ (afterGenerate v gen fetched).originalDocument = v.originalDocument)
      ∧ (∀ data, gen = .succeeded → fetched = .succeeded (some data) →
          (afterGenerate v gen fetched).document = data.document
            ∧ (afterGenerate v gen fetched).originalDocument = data.document) := by
  refine ⟨?_, ?_, ?_, ?_, ?_⟩
  · simp [handleGenerateSummaryStart, applyDocTrace, applyDocAction]
  · rintro error rfl
    simp [afterGenerate, handleGenerateSummary, handleGenerateSummaryStart,
      handleGenerateSummaryFinish, applyDocTrace, applyDocAction]
  · intro _
    simp [handleGenerateSummaryStart, fetchDocumentDetailsStart, applyDocTrace, applyDocAction]
  · intro h
    cases gen <;> rcases h with rfl | rfl <;>
      simp [afterGenerate, handleGenerateSummary, handleGenerateSummaryStart,
        handleGenerateSummaryFinish, fetchDocumentDetailsStart, fetchDocumentDetailsFinish,
        applyDocTrace, applyDocAction]
  · rintro data rfl rfl
    simp [afterGenerate, handleGenerateSummary, handleGenerateSummaryStart,
      handleGenerateSummaryFinish, fetchDocumentDetailsStart, fetchDocumentDetailsFinish,
      applyDocTrace, applyDocAction]

/-- C28 on `sampleView` with a failing `generateSummary`. -/
theorem regenerate_keeps_display_witness :
    (afterGenerate sampleView (.failed none) .failed).document = sampleView.document
      ∧ (afterGenerate sampleView (.failed none) .failed).originalDocument
          = sampleView.originalDocument :=
  (regenerate_keeps_display sampleView (.failed none) .failed).2.1 none rfl

/-- C29: a successful `fetchDocumentDetails` puts the fetched document in `document` and
`originalDocument` and leaves `translatedDocument`, `showHindi` and `useAI` as they were
(the re-fetch a regenerate starts does the same); so with a cached translation and
`showHindi` false, the next `toggleLanguage` displays the fetched document with the cached
translation as its summary and calls no translation service. -/
theorem cache_survives_refetch (v : DocumentView) (data : FetchData) :
    ((afterFetch v (.succeeded (some data))).document = data.document
        ∧ (afterFetch v (.succeeded (some data))).originalDocument = data.document
        ∧ (afterFetch v (.succeeded (some data))).translatedDocument = v.translatedDocument
        ∧ (afterFetch v (.succeeded (some data))).showHindi = v.showHindi
        ∧ (afterFetch v (.succeeded (some data))).useAI = v.useAI)
      ∧ ((afterGenerate v .succeeded (.succeeded (some data))).translatedDocument
            = v.translatedDocument
        ∧ (afterGenerate v .succeeded (.succeeded (some data))).showHindi = v.showHindi
        ∧ (afterGenerate v .succeeded (.succeeded (some data))).useAI = v.useAI)
      ∧ (∀ (cached : DocSummary) (fetchedDoc : Document) (s : DocSummary)
          (net : TranslateOutcome),
          v.translatedDocument = some cached → v.showHindi = false →
          data.document = some fetchedDoc → fetchedDoc.summary = some s →
          (afterDocToggle (afterFetch v (.succeeded (some data))) net).document
              = some { fetchedDoc with summary := some cached }
            ∧ (afterDocToggle (afterFetch v (.succeeded (some data))) net).showHindi = true
            ∧ (docToggleLanguage (afterFetch v (.succeeded (some data))) net).any
                DocAction.isTranslationCall = false) := by
  have hstate : afterFetch v (.succeeded (some data))
      = { v with document := data.document, originalDocument := data.document,
                 loading := false } := by
    simp [afterFetch, fetchDocumentDetails, fetchDocumentDetailsStart,
      fetchDocumentDetailsFinish, applyDocTrace, applyDocAction]
  refine ⟨by simp [hstate], ?_, ?_⟩
  · simp [afterGenerate, handleGenerateSummary, handleGenerateSummaryStart,
      handleGenerateSummaryFinish, fetchDocumentDetailsStart, fetchDocumentDetailsFinish,
      applyDocTrace, applyDocAction]
  · intro cached fetchedDoc s net hc hs hd hsum
    rw [hstate]
    simp [afterDocToggle, docToggleLanguage, hc, hs, hd, hsum, applyDocTrace, applyDocAction,
      DocAction.isTranslationCall]

/-- C29 on the view that has cached a translation and shows the original again, when the
same document is fetched anew. -/
theorem cache_survives_refetch_witness :
    (afterDocToggle (afterDocToggle sampleView hindiAnswer) hindiAnswer).translatedDocument
        = some hindiDocSummary
      ∧ (afterDocToggle (afterDocToggle sampleView hindiAnswer) hindiAnswer).showHindi = false
      ∧ (afterDocToggle (afterFetch
            (afterDocToggle (afterDocToggle sampleView hindiAnswer) hindiAnswer)
            (.succeeded (some ⟨some sampleDocument⟩))) (.thrown "offline".toList)).document
          = some { sampleDocument with summary := some hindiDocSummary }
      ∧ (docToggleLanguage (afterFetch
            (afterDocToggle (afterDocToggle sampleView hindiAnswer) hindiAnswer)
            (.succeeded (some ⟨some sampleDocument⟩))) (.thrown "offline".toList)).any
          DocAction.isTranslationCall = false :=
  ⟨by decide, by decide,
    ((cache_survives_refetch
      (afterDocToggle (afterDocToggle sampleView hindiAnswer) hindiAnswer)
      ⟨some sampleDocument⟩).2.2 hindiDocSummary sampleDocument sampleDocSummary
      (.thrown "offline".toList) (by decide) (by decide) rfl rfl).1,
    ((cache_survives_refetch
      (afterDocToggle (afterDocToggle sampleView hindiAnswer) hindiAnswer)
      ⟨some sampleDocument⟩).2.2 hindiDocSummary sampleDocument sampleDocSummary
      (.thrown "offline".toList) (by decide) (by decide) rfl rfl).2.2⟩

/-! ## The retained original, the credential store and the upload guard -/

/-- The shape of the translate branch: requests and log lines, then either nothing more or
the store of a copy of the original with new `keyPoints` and `summary`. -/
theorem translateDisplayed_shape (c : Component) (net : TranslateNet) :
    ∃ pre : List Action, (∀ a ∈ pre, ∀ c0 : Component, applyAction c0 a = c0)
      ∧ ((translateDisplayed c net).1 = pre
        ∨ ∃ (original : SummaryRecord) (keyPoints : Option (List (List Char)))
            (summary : Option (List Char)),
            c.originalSummary = some original
              ∧ (translateDisplayed c net).1 = pre ++
                [ .setSummary (some { original with keyPoints := keyPoints, summary := summary }),
                  .setIsHindi true ]) := by
  have h0 : ∀ a ∈ [Action.consoleError], ∀ c0 : Component, applyAction c0 a = c0 := by
    intro a ha c0; simp at ha; subst ha; rfl
  cases ho : c.originalSummary with
  | none => exact ⟨[.consoleError], h0, Or.inl (by simp [translateDisplayed, ho])⟩
  | some original =>
    have h2 : ∀ a ∈ [Action.axiosPostTerm (.batch original.keyPoints original.summary),
        Action.consoleError], ∀ c0 : Component, applyAction c0 a = c0 := by
      intro a ha c0; simp at ha; rcases ha with rfl | rfl <;> rfl
    have h1 : ∀ a ∈ [Action.axiosPostTerm (.batch original.keyPoints original.summary)],
        ∀ c0 : Component, applyAction c0 a = c0 := by
      intro a ha c0; simp at ha; subst ha; rfl
    cases hk : original.keyPoints with
    | none =>
      have hfb : fallbackTranslation original net = none := by simp [fallbackTranslation, hk]
      have hk2 : ∀ a ∈ [Action.axiosPostTerm (.batch none original.summary),
          Action.consoleError], ∀ c0 : Component, applyAction c0 a = c0 := by
        intro a ha c0; simp at ha; rcases ha with rfl | rfl <;> rfl
      have hk1 : ∀ a ∈ [Action.axiosPostTerm (.batch none original.summary)],
          ∀ c0 : Component, applyAction c0 a = c0 := by
        intro a ha c0; simp at ha; subst ha; rfl
      unfold translateDisplayed
      simp only [ho, hfb, hk]
      cases hb : net.batch with
      | rejected => exact ⟨_, hk2, Or.inl rfl⟩
      | resolved data =>
        cases data with
        | none => exact ⟨_, hk2, Or.inl rfl⟩
        | some d =>
          by_cases hs : d.success = true
          · simp only [hs, if_true]
            cases hp : net.parse d.translatedTerm with
            | syntaxError => exact ⟨_, hk2, Or.inl rfl⟩
            | null => exact ⟨_, hk2, Or.inl rfl⟩
            | value kp s =>
              refine ⟨_, hk1, Or.inr ⟨original, kp, s, rfl, ?_⟩⟩
              simp [hk]
          · simp only [hs, Bool.false_eq_true, if_false]
            exact ⟨_, hk2, Or.inl rfl⟩
    | some points =>
      have hinert : ∀ a ∈ (perFieldTranslation points original.summary net).1,
          ∀ c0 : Component, applyAction c0 a = c0 :=
        fun a ha => (perFieldTranslation_trace points original.summary net a ha).1
      have hfb : fallbackTranslation original net = some
          ((perFieldTranslation points original.summary net).1 ++
            [ .setSummary (some { original with
                keyPoints := some (perFieldTranslation points original.summary net).2.1,
                summary := some (perFieldTranslation points original.summary net).2.2 }),
              .setIsHindi true ]) := by
        simp [fallbackTranslation, hk]
      have happ : ∀ pre : List Action, (∀ a ∈ pre, ∀ c0 : Component, applyAction c0 a = c0) →
          ∀ a ∈ pre ++ (perFieldTranslation points original.summary net).1,
            ∀ c0 : Component, applyAction c0 a = c0 := by
        intro pre hpre a ha
        rcases List.mem_append.mp ha with h | h
        · exact hpre a h
        · exact hinert a h
      unfold translateDisplayed
      simp only [ho, hfb]
      cases hb : net.batch with
      | rejected =>
        exact ⟨_, happ _ h2, Or.inr ⟨original, some (perFieldTranslation points original.summary net).2.1,
          some (perFieldTranslation points original.summary net).2.2, rfl, by simp⟩⟩
      | resolved data =>
        cases data with
        | none => exact ⟨_, happ _ h1, Or.inr ⟨original, some (perFieldTranslation points original.summary net).2.1,
          some (perFieldTranslation points original.summary net).2.2, rfl, by simp⟩⟩
        | some d =>
          by_cases hs : d.success = true
          · simp only [hs, if_true]
            cases hp : net.parse d.translatedTerm with
            | syntaxError => exact ⟨_, happ _ h2, Or.inr ⟨original, some (perFieldTranslation points original.summary net).2.1,
          some (perFieldTranslation points original.summary net).2.2, rfl, by simp⟩⟩
            | null => exact ⟨_, happ _ h2, Or.inr ⟨original, some (perFieldTranslation points original.summary net).2.1,
          some (perFieldTranslation points original.summary net).2.2, rfl, by simp⟩⟩
            | value kp s => exact ⟨_, h1, Or.inr ⟨original, kp, s, rfl, by simp⟩⟩
          · simp only [hs, Bool.false_eq_true, if_false]
            exact ⟨_, happ _ h1, Or.inr ⟨original, some (perFieldTranslation points original.summary net).2.1,
          some (perFieldTranslation points original.summary net).2.2, rfl, by simp⟩⟩

/-- C24: a toggle to Hindi in the anonymous view with a summary displayed never writes
`originalSummary`, whatever the requests do; what it displays, if it displays anything new,
is a copy of the original in which only `keyPoints` and `summary` are replaced, so every
other field (the `language` tag) is that of the original. -/
theorem toggle_keeps_original (c : Component) (ls : Storage) (net : TranslateNet)
    (hh : c.isHindi = false) (hd : nothingDisplayedYet c = false) :
    (afterToggle c ls net).originalSummary = c.originalSummary
      ∧ ((afterToggle c ls net).summary = c.summary
        ∨ ∃ (original shown : SummaryRecord),
            c.originalSummary = some original
              ∧ (afterToggle c ls net).summary = some shown
              ∧ shown.language = original.language
              ∧ (afterToggle c ls net).originalSummary = some original) := by
  obtain ⟨pre, hpre, hshape⟩ := translateDisplayed_shape c net
  have hfail : ∀ a ∈ (if (translateDisplayed c net).2 = true then
      [Action.consoleError, Action.toast .error "Translation failed. Please try again.".toList]
      else []), ∀ c0 : Component, applyAction c0 a = c0 := by
    intro a ha c0
    split at ha
    · simp at ha; rcases ha with rfl | rfl <;> rfl
    · simp at ha
  have htrace : (toggleLanguage c ls net).trace =
      [Action.setTranslationLoading true] ++ ((translateDisplayed c net).1 ++
        ((if (translateDisplayed c net).2 = true then
          [Action.consoleError,
            Action.toast .error "Translation failed. Please try again.".toList]
          else []) ++ [Action.setTranslationLoading false])) := by
    unfold toggleLanguage
    simp [hh, hd]
  unfold afterToggle
  rw [htrace]
  rcases hshape with h | ⟨original, kp, s, ho, h⟩
  · rw [h, applyTrace_append, applyTrace_append, applyTrace_append,
      applyTrace_of_inert pre hpre, applyTrace_of_inert _ hfail]
    exact ⟨rfl, Or.inl rfl⟩
  · rw [h, applyTrace_append, applyTrace_append, applyTrace_append, applyTrace_append,
      applyTrace_of_inert pre hpre]
    have hstate : ∀ c1 : Component, applyTrace (applyTrace c1
        [ Action.setSummary (some { original with keyPoints := kp, summary := s }),
          Action.setIsHindi true ])
        (if (translateDisplayed c net).2 = true then
          [Action.consoleError,
            Action.toast .error "Translation failed. Please try again.".toList]
          else [])
        = applyTrace c1
          [ Action.setSummary (some { original with keyPoints := kp, summary := s }),
            Action.setIsHindi true ] := fun c1 => applyTrace_of_inert _ hfail _
    rw [hstate]
    refine ⟨?_, Or.inr ⟨original, { original with keyPoints := kp, summary := s }, ho, ?_, rfl, ?_⟩⟩
    · simp [applyTrace, applyAction]
    · simp [applyTrace, applyAction]
    · simp [applyTrace, applyAction, ho]

/-- C24 on a state that displays `sampleSummary`, with every request rejected. -/
theorem toggle_keeps_original_witness :
    englishShownComponent.isHindi = false
      ∧ (afterToggle englishShownComponent ⟨none⟩ offlineNet).originalSummary
          = englishShownComponent.originalSummary :=
  ⟨rfl, (toggle_keeps_original englishShownComponent ⟨none⟩ offlineNet rfl (by decide)).1⟩

/-- C25: at start-up, a stored token that `jwtDecode` cannot decode and a stored token whose
`exp` lies before the current time both leave `initAuth` in the logged-out state: token
removed from the store, `Authorization` header removed, user `null`, not authenticated,
not loading. -/
theorem initAuth_rejects_expired_and_undecodable
    (jwtDecode : List Char → Option DecodedToken) (now : Nat) (fetched : UserOutcome)
    (s : AuthSession) (ch : Char) (rest : List Char)
    (hstored : s.storedToken = some (ch :: rest))
    (hbad : jwtDecode (ch :: rest) = none
      ∨ ∃ decoded exp, jwtDecode (ch :: rest) = some decoded ∧ decoded.exp = some exp
          ∧ exp * 1000 < (now : Int)) :
    initAuth jwtDecode now fetched s = loggedOut := by
  unfold initAuth
  simp only [hstored]
  rcases hbad with h | ⟨decoded, exp, h, hexp, hlt⟩
  · simp [h, logout, setAuthHeader, loggedOut]
  · have : isExpired decoded now = true := by simp [isExpired, hexp, hlt]
    simp [h, this, logout, setAuthHeader, loggedOut]

/-- C25 on a token that expired one second before the current time, and on one that does
not decode. -/
theorem initAuth_rejects_expired_and_undecodable_witness :
    initAuth (fun _ => some ⟨some 1699999999⟩) 1700000000000 (.resolved (some ⟨"a@b.c".toList⟩))
        (freshSession (some "header.payload.signature".toList)) = loggedOut
      ∧ initAuth (fun _ => none) 1700000000000 (.resolved (some ⟨"a@b.c".toList⟩))
        (freshSession (some "garbage".toList)) = loggedOut :=
  ⟨initAuth_rejects_expired_and_undecodable _ 1700000000000 _ _ 'h'
      "eader.payload.signature".toList rfl
      (Or.inr ⟨⟨some 1699999999⟩, 1699999999, rfl, rfl, by decide⟩),
    initAuth_rejects_expired_and_undecodable _ 1700000000000 _ _ 'g' "arbage".toList rfl
      (Or.inl rfl)⟩

theorem headerInStep_logout (s : AuthSession) : headerInStep (logout s) := by
  simp [headerInStep, logout, setAuthHeader]

theorem headerInStep_login (out : LoginOutcome) (s : AuthSession) (h : headerInStep s)
    (htoken : (AuthEvent.login out).carriesToken = true) :
    headerInStep (login out s) := by
  unfold login
  split
  · rename_i data
    cases ht : data.token with
    | none => simp [AuthEvent.carriesToken, ht] at htoken
    | some token =>
      cases token with
      | nil => simp [headerInStep, setAuthHeader, storedText]
      | cons c cs => simp [headerInStep, setAuthHeader, storedText]
  · exact h

theorem headerInStep_initAuth (jwtDecode : List Char → Option DecodedToken) (now : Nat)
    (fetched : UserOutcome) (s : AuthSession) (h : s.authHeader = none) :
    headerInStep (initAuth jwtDecode now fetched s) := by
  unfold initAuth
  split
  · rename_i ch rest hstored
    cases hd : jwtDecode (ch :: rest) with
    | none => simp [hd, headerInStep, logout, setAuthHeader]
    | some decoded =>
      by_cases he : isExpired decoded now = true
      · simp [hd, he, headerInStep, logout, setAuthHeader]
      · cases fetched with
        | resolved data => simp [hd, he, headerInStep, setAuthHeader, hstored]
        | rejected => simp [hd, he, headerInStep, logout, setAuthHeader]
  · simp only [headerInStep, h]

/-- On a freshly loaded page (no header yet), once `initAuth` has completed and after any
sequence of `logout` calls and of `login` calls that are rejected, come without a body or
carry a token, the `Authorization` header is present exactly when a non-empty token is
stored, and is then `Bearer ` followed by the stored token. -/
theorem header_follows_store (jwtDecode : List Char → Option DecodedToken) (now : Nat)
    (fetched : UserOutcome) (s : AuthSession) (events : List AuthEvent)
    (hfresh : s.authHeader = none) (htoken : ∀ e ∈ events, e.carriesToken = true) :
    headerInStep (events.foldl AuthEvent.apply (initAuth jwtDecode now fetched s)) := by
  have hstart := headerInStep_initAuth jwtDecode now fetched s hfresh
  generalize initAuth jwtDecode now fetched s = s0 at hstart
  induction events generalizing s0 with
  | nil => exact hstart
  | cons e es ih =>
    apply ih (fun x hx => htoken x (List.mem_cons_of_mem _ hx))
    have he := htoken e (List.mem_cons_self _ _)
    cases e with
    | login out => exact headerInStep_login out s0 hstart he
    | logout => exact headerInStep_logout s0

/-- The invariant on a page loaded without a token, after a failed login, a successful one
and a logout followed by another successful login. -/
theorem header_follows_store_witness :
    (freshSession none).authHeader = none
      ∧ headerInStep
        ([AuthEvent.login .rejected,
          AuthEvent.login (.resolved (some ⟨some "tok1".toList, some ⟨"a@b.c".toList⟩⟩)),
          AuthEvent.logout,
          AuthEvent.login (.resolved (some ⟨some "tok2".toList, some ⟨"a@b.c".toList⟩⟩))].foldl
          AuthEvent.apply
          (initAuth (fun _ => none) 1700000000000 .rejected (freshSession none))) :=
  ⟨rfl, header_follows_store _ 1700000000000 .rejected (freshSession none) _ rfl
    (by decide)⟩

/-- C26: a login whose response body carries no `token` is reported as a success and leaves
the store and the header out of step: the text `undefined` is stored under `token`, the
`Authorization` header is absent and the session counts as authenticated.  The same happens
to a session that held a token and its header.  A rejected request and a response without a
body, the failures the `catch` covers, change nothing. -/
theorem login_without_token_breaks_step :
    signedOutPage = loggedOut
      ∧ loginSucceeds tokenlessLogin = true
      ∧ (login tokenlessLogin signedOutPage).storedToken = some "undefined".toList
      ∧ (login tokenlessLogin signedOutPage).authHeader = none
      ∧ (login tokenlessLogin signedOutPage).isAuthenticated = true
      ∧ (login (.resolved (some ⟨some "tok1".toList, some ⟨"a@b.c".toList⟩⟩))
            signedOutPage).authHeader = some "Bearer tok1".toList
      ∧ (login tokenlessLogin
            (login (.resolved (some ⟨some "tok1".toList, some ⟨"a@b.c".toList⟩⟩))
              signedOutPage)).storedToken = some "undefined".toList
      ∧ (login tokenlessLogin
            (login (.resolved (some ⟨some "tok1".toList, some ⟨"a@b.c".toList⟩⟩))
              signedOutPage)).authHeader = none
      ∧ login .rejected signedOutPage = signedOutPage
      ∧ login (.resolved none) signedOutPage = signedOutPage := by
  decide

/-- C27 as stated fails: a supported file of exactly 10 * 1024 * 1024 bytes, which is not
below ten megabytes, is selected. -/
theorem onDrop_accepts_ten_megabytes :
    tenMegabyteFile.size = 10 * 1024 * 1024
      ∧ ¬ (tenMegabyteFile.size < 10 * 1024 * 1024)
      ∧ onDrop sampleSupported [tenMegabyteFile] = [.setSelectedFile (some tenMegabyteFile)]
      ∧ selectedAfter none (onDrop sampleSupported [tenMegabyteFile])
          = some tenMegabyteFile := by
  decide

/-- C27, amended: `onDrop` selects the dropped file exactly when its type is supported and
its size is at most 10 * 1024 * 1024 bytes; for a file of another type or a larger one the
selected file stays as it was and the run is a single error notice; `onDrop` never calls a
remote service. -/
theorem onDrop_selects_supported_up_to_limit (isSupportedFileType : List Char → Bool)
    (file : DroppedFile) (others : List DroppedFile) (selected : Option DroppedFile) :
    ((isSupportedFileType file.type = true ∧ file.size ≤ 10 * 1024 * 1024) →
        onDrop isSupportedFileType (file :: others) = [.setSelectedFile (some file)]
          ∧ selectedAfter selected (onDrop isSupportedFileType (file :: others)) = some file)
      ∧ (¬ (isSupportedFileType file.type = true ∧ file.size ≤ 10 * 1024 * 1024) →
        selectedAfter selected (onDrop isSupportedFileType (file :: others)) = selected
          ∧ ∃ message, onDrop isSupportedFileType (file :: others)
              = [.toast .error message])
      ∧ (onDrop isSupportedFileType (file :: others)).any UploadAction.isRemoteCall = false := by
  by_cases hs : isSupportedFileType file.type = true
  · by_cases hsz : file.size ≤ 10 * 1024 * 1024
    · have hgt : ¬ (file.size > 10 * 1024 * 1024) := by omega
      refine ⟨fun _ => ?_, fun h => absurd ⟨hs, hsz⟩ h, ?_⟩ <;>
        simp [onDrop, hs, hgt, selectedAfter, UploadAction.isRemoteCall]
    · have hgt : file.size > 10 * 1024 * 1024 := by omega
      refine ⟨fun h => absurd h.2 hsz, fun _ => ?_, ?_⟩ <;>
        simp [onDrop, hs, hgt, selectedAfter, UploadAction.isRemoteCall]
  · have hs' : isSupportedFileType file.type = false := by simpa using hs
    refine ⟨fun h => absurd h.1 hs, fun _ => ?_, ?_⟩ <;>
      simp [onDrop, hs', selectedAfter, UploadAction.isRemoteCall]

/-- C27 amended, on a small supported file and on an unsupported type. -/
theorem onDrop_selects_supported_up_to_limit_witness :
    (sampleSupported smallFile.type = true ∧ smallFile.size ≤ 10 * 1024 * 1024)
      ∧ onDrop sampleSupported [smallFile] = [.setSelectedFile (some smallFile)]
      ∧ selectedAfter none (onDrop sampleSupported [smallFile]) = some smallFile :=
  ⟨by decide,
    (onDrop_selects_supported_up_to_limit sampleSupported smallFile [] none).1 (by decide)⟩

/-! ## The dictionary pass: matching lemmas -/

theorem canonicalize_upper (m : Nat) (h1 : 97 ≤ m) (h2 : m ≤ 122) :
    isWordChar (Char.ofNat (m - 32)) = true := by
  interval_cases m <;> rfl

theorem isWordChar_canonicalize (c : Char) : isWordChar (canonicalize c) = isWordChar c := by
  unfold canonicalize
  split
  · rename_i h
    rw [canonicalize_upper c.toNat h.1 h.2]
    have hw : isWordChar c = true := by
      simp only [isWordChar, Bool.or_eq_true, Bool.and_eq_true, decide_eq_true_eq, beq_iff_eq]
      exact Or.inr ⟨h.1, h.2⟩
    rw [hw]
  · rfl

theorem isWordChar_of_canonicalize_eq {a b : Char} (h : canonicalize a = canonicalize b) :
    isWordChar a = isWordChar b := by
  rw [← isWordChar_canonicalize a, ← isWordChar_canonicalize b, h]

theorem lastOr_eq (taken : List Char) (prev : Option Char) :
    (taken.getLast?).orElse (fun _ => prev) = lastOr taken prev := by
  induction taken generalizing prev with
  | nil => rfl
  | cons c cs ih =>
    rw [lastOr, ← ih (some c)]
    cases cs with
    | nil => rfl
    | cons d ds =>
      rw [List.getLast?_cons_cons]
      cases h : (d :: ds).getLast? with
      | none => simp at h
      | some x => rfl

/-- A whole-word match is a boundary before the head and the pattern read off the text with
a boundary after it. -/
theorem matchPrefixCI_matchTail (pat : List Char) : ∀ (prev : Option Char) (s : List Char),
    (match matchPrefixCI pat s with
      | some rest => isWordBoundary (lastOr (s.take pat.length) prev) rest.head?
      | none => false) = matchTail pat prev s := by
  induction pat with
  | nil => intro prev s; simp [matchPrefixCI, matchTail, lastOr]
  | cons q qs ih =>
    intro prev s
    cases s with
    | nil => simp [matchPrefixCI, matchTail]
    | cons c cs =>
      by_cases h : canonicalize q = canonicalize c
      · simp only [matchPrefixCI, h, if_true, matchTail, decide_True, Bool.true_and,
          List.length_cons, List.take_succ_cons, lastOr]
        exact ih (some c) cs
      · simp [matchPrefixCI, matchTail, h]

theorem wordMatchAt_eq (pat : List Char) (prev : Option Char) (s : List Char) :
    wordMatchAt pat prev s = (isWordBoundary prev s.head? && matchTail pat prev s) := by
  unfold wordMatchAt
  rw [← matchPrefixCI_matchTail pat prev s]
  cases matchPrefixCI pat s with
  | none => simp
  | some rest => simp only [lastOr_eq]

theorem isWordBoundary_some_some (p c : Char) :
    isWordBoundary (some p) (some c) = (isWordChar p != isWordChar c) := rfl

theorem isWordBoundary_some_head (p : Char) (s : List Char)
    (h : isWordBoundary (some p) s.head? = true) (hp : isWordChar p = true) :
    headNonWord s = true := by
  cases s with
  | nil => rfl
  | cons c cs =>
    simp only [List.head?_cons, isWordBoundary_some_some, hp] at h
    cases hc : isWordChar c with
    | true => simp [hc] at h
    | false => simp [headNonWord, hc]

theorem matchTail_cons_cons (q : Char) (qs : List Char) (prev : Option Char) (c : Char)
    (cs : List Char) :
    matchTail (q :: qs) prev (c :: cs)
      = (decide (canonicalize q = canonicalize c) && matchTail qs (some c) cs) := rfl

/-- After a whole-word match of a pattern that ends with a word character, the text ends or
goes on with a character outside the word class. -/
theorem headNonWord_after_match (q : List Char) : ∀ (prev : Option Char) (s : List Char),
    matchTail q prev s = true →
    (q = [] → ∃ x, prev = some x ∧ isWordChar x = true) →
    (∀ x, q.getLast? = some x → isWordChar x = true) →
    headNonWord (s.drop q.length) = true := by
  induction q with
  | nil =>
    intro prev s h hprev _
    obtain ⟨x, rfl, hx⟩ := hprev rfl
    exact isWordBoundary_some_head x s h hx
  | cons a qs ih =>
    intro prev s h _ hlast
    cases s with
    | nil => simp [matchTail] at h
    | cons c cs =>
      rw [matchTail_cons_cons, Bool.and_eq_true, decide_eq_true_eq] at h
      simp only [List.length_cons, List.drop_succ_cons]
      apply ih (some c) cs h.2
      · intro hq
        subst hq
        refine ⟨c, rfl, ?_⟩
        rw [← isWordChar_of_canonicalize_eq h.1]
        exact hlast a rfl
      · intro x hx
        apply hlast x
        cases qs with
        | nil => simp at hx
        | cons b bs => rw [List.getLast?_cons_cons]; exact hx

/-- Two patterns that both match at the same place agree as far as the shorter reaches. -/
theorem compatible_of_matchTail (d : List Char) : ∀ (q : List Char) (p1 p2 : Option Char)
    (s : List Char), matchTail d p1 s = true → matchTail q p2 s = true →
    compatible d q = true := by
  induction d with
  | nil => intro q _ _ _ _ _; cases q <;> rfl
  | cons a ds ih =>
    intro q p1 p2 s h1 h2
    cases q with
    | nil => rfl
    | cons b qs =>
      cases s with
      | nil => simp [matchTail] at h1
      | cons c cs =>
        rw [matchTail_cons_cons, Bool.and_eq_true, decide_eq_true_eq] at h1 h2
        simp only [compatible, Bool.and_eq_true, decide_eq_true_eq]
        exact ⟨h1.1.trans h2.1.symm, ih qs _ _ cs h1.2 h2.2⟩

theorem wordDelimited_head {pat : List Char} (h : wordDelimited pat = true) :
    ∃ q qs, pat = q :: qs ∧ isWordChar q = true := by
  cases pat with
  | nil => simp [wordDelimited] at h
  | cons q qs =>
    refine ⟨q, qs, rfl, ?_⟩
    simp only [wordDelimited, List.head?_cons] at h
    split at h
    · rename_i first last hf _
      simp only [Option.some.injEq] at hf
      subst hf
      simp only [Bool.and_eq_true] at h
      exact h.1
    · exact Bool.noConfusion h

theorem wordDelimited_last {pat : List Char} (h : wordDelimited pat = true) :
    ∀ x, pat.getLast? = some x → isWordChar x = true := by
  intro x hx
  unfold wordDelimited at h
  split at h
  · rename_i first last _ hl
    rw [hx] at hl
    simp only [Option.some.injEq] at hl
    subst hl
    simp only [Bool.and_eq_true] at h
    exact h.2
  · exact Bool.noConfusion h

/-- Where a word-delimited pattern matches as a whole word, the head of the text is a word
character and the character before it is not. -/
theorem wordMatchAt_start {pat : List Char} (hpat : wordDelimited pat = true)
    {prev : Option Char} {c : Char} {cs : List Char}
    (h : wordMatchAt pat prev (c :: cs) = true) :
    isWordChar c = true ∧ (∀ x, prev = some x → isWordChar x = false)
      ∧ matchTail pat prev (c :: cs) = true := by
  obtain ⟨q, qs, rfl, hq⟩ := wordDelimited_head hpat
  rw [wordMatchAt_eq, Bool.and_eq_true] at h
  obtain ⟨hb, ht⟩ := h
  have hm := ht
  rw [matchTail_cons_cons, Bool.and_eq_true, decide_eq_true_eq] at hm
  have hc : isWordChar c = true := by rw [← isWordChar_of_canonicalize_eq hm.1]; exact hq
  refine ⟨hc, ?_, ht⟩
  intro x hx
  subst hx
  simp only [List.head?_cons, isWordBoundary_some_some, hc] at hb
  cases hxw : isWordChar x with
  | true => simp [hxw] at hb
  | false => rfl

/-- A word-delimited pattern does not match where the text starts outside the word class. -/
theorem wordMatchAt_nonWord {pat : List Char} (hpat : wordDelimited pat = true)
    (prev : Option Char) {c : Char} (cs : List Char) (hc : isWordChar c = false) :
    wordMatchAt pat prev (c :: cs) = false := by
  cases h : wordMatchAt pat prev (c :: cs) with
  | false => rfl
  | true =>
    have := (wordMatchAt_start hpat h).1
    rw [hc] at this
    exact Bool.noConfusion this

theorem wordMatchAt_head_ne {q : Char} {qs : List Char} (prev : Option Char) {c : Char}
    (cs : List Char) (h : canonicalize c ≠ canonicalize q) :
    wordMatchAt (q :: qs) prev (c :: cs) = false := by
  rw [wordMatchAt_eq, matchTail_cons_cons]
  have : decide (canonicalize q = canonicalize c) = false := by
    simp only [decide_eq_false_iff_not]
    exact fun hh => h hh.symm
  simp [this]

theorem replaceWord_zero_cons (pat rep : List Char) (prev : Option Char) (c : Char)
    (cs : List Char) :
    replaceWord pat rep 0 prev (c :: cs)
      = if wordMatchAt pat prev (c :: cs) = true then
          rep ++ replaceWord pat rep (pat.length - 1) (some c) cs
        else c :: replaceWord pat rep 0 (some c) cs := by
  rw [replaceWord]

theorem replaceWord_succ_cons (pat rep : List Char) (skip : Nat) (prev : Option Char)
    (c : Char) (cs : List Char) :
    replaceWord pat rep (skip + 1) prev (c :: cs) = replaceWord pat rep skip (some c) cs := by
  rw [replaceWord]

theorem replaceWord_nil (pat rep : List Char) (skip : Nat) (prev : Option Char) :
    replaceWord pat rep skip prev [] = [] := by
  cases skip <;> rw [replaceWord]

theorem scanEntries_zero_cons (table : List (List Char × List Char)) (prev : Option Char)
    (c : Char) (cs : List Char) :
    scanEntries table 0 prev (c :: cs)
      = match table.find? (fun entry => wordMatchAt entry.1 prev (c :: cs)) with
        | some entry => entry.2 ++ scanEntries table (entry.1.length - 1) (some c) cs
        | none => c :: scanEntries table 0 (some c) cs := by
  rw [scanEntries]

theorem scanEntries_succ_cons (table : List (List Char × List Char)) (skip : Nat)
    (prev : Option Char) (c : Char) (cs : List Char) :
    scanEntries table (skip + 1) prev (c :: cs) = scanEntries table skip (some c) cs := by
  rw [scanEntries]

theorem scanEntries_nil (table : List (List Char × List Char)) (skip : Nat)
    (prev : Option Char) : scanEntries table skip prev [] = [] := by
  cases skip <;> rw [scanEntries]

/-- A pass copies a block in which no character could start its pattern. -/
theorem replaceWord_block (q : Char) (qs rep : List Char) (block : List Char) :
    ∀ (prev : Option Char) (rest : List Char),
    (∀ ch ∈ block, canonicalize ch ≠ canonicalize q) →
    replaceWord (q :: qs) rep 0 prev (block ++ rest)
      = block ++ replaceWord (q :: qs) rep 0 (lastOr block prev) rest := by
  induction block with
  | nil => intro prev rest _; rfl
  | cons b bs ih =>
    intro prev rest h
    have hb : wordMatchAt (q :: qs) prev (b :: (bs ++ rest)) = false :=
      wordMatchAt_head_ne prev _ (h b (List.mem_cons_self _ _))
    rw [List.cons_append, replaceWord_zero_cons, hb,
      ih (some b) rest (fun ch hch => h ch (List.mem_cons_of_mem _ hch))]
    simp [lastOr]

/-! ## The dictionary pass: independence of the passes -/

theorem tableIndependent_entry {table : List (List Char × List Char)}
    (h : tableIndependent table = true) {entry : List Char × List Char} (he : entry ∈ table) :
    wordDelimited entry.1 = true ∧ interiorFree table entry.1 = true
      ∧ ∀ other ∈ table,
          (∀ ch ∈ other.2, canonicalize ch ≠ canonicalize (entry.1.headD ' '))
            ∧ ∃ r rs, other.2 = r :: rs ∧ ∀ ch ∈ entry.1, canonicalize ch ≠ canonicalize r := by
  unfold tableIndependent at h
  rw [List.all_eq_true] at h
  have h1 := h entry he
  simp only [Bool.and_eq_true] at h1
  obtain ⟨⟨hwd, hint⟩, hall⟩ := h1
  refine ⟨hwd, hint, ?_⟩
  intro other ho
  rw [List.all_eq_true] at hall
  have h2 := hall other ho
  simp only [Bool.and_eq_true] at h2
  obtain ⟨hs, hr⟩ := h2
  constructor
  · intro ch hch
    rw [List.all_eq_true] at hs
    simpa using hs ch hch
  · cases hrep : other.2 with
    | nil => simp [hrep] at hr
    | cons r rs =>
      refine ⟨r, rs, rfl, ?_⟩
      simp only [hrep, List.all_eq_true] at hr
      intro ch hch
      simpa using hr ch hch

theorem interiorFree_cons {table : List (List Char × List Char)} {x : Char}
    {rest : List Char} (h : interiorFree table (x :: rest) = true) :
    interiorFree table rest = true
      ∧ (isWordChar x = false → rest ≠ [] →
          ∀ d ∈ table, compatible d.1 rest = false) := by
  simp only [interiorFree, Bool.and_eq_true, Bool.or_eq_true] at h
  refine ⟨h.2, ?_⟩
  intro hx hne d hd
  rcases h.1 with (hw | hemp) | hall
  · rw [hx] at hw; exact Bool.noConfusion hw
  · exact absurd (List.isEmpty_iff.mp hemp) hne
  · rw [List.all_eq_true] at hall
    simpa using hall d hd

theorem getLast?_tail {x : Char} {rest : List Char} {y : Char}
    (h : rest.getLast? = some y) : (x :: rest).getLast? = some y := by
  cases rest with
  | nil => simp at h
  | cons b bs => rw [List.getLast?_cons_cons]; exact h

/-- Reading the rest of a pattern off the output of a scan gives the same answer as reading
it off the text, as long as the scan cannot have replaced anything the pattern covers. -/
theorem matchTail_scanEntries (table D : List (List Char × List Char))
    (hD : ∀ d ∈ D, d ∈ table) (hwd : ∀ d ∈ D, wordDelimited d.1 = true) :
    ∀ (q : List Char) (p : Char) (s : List Char),
      interiorFree table q = true →
      (isWordChar p = false → q ≠ [] → ∀ d ∈ D, compatible d.1 q = false) →
      (q = [] → isWordChar p = true) →
      (∀ x, q.getLast? = some x → isWordChar x = true) →
      (∀ d ∈ D, ∃ r rs, d.2 = r :: rs ∧ ∀ ch ∈ q, canonicalize ch ≠ canonicalize r) →
      matchTail q (some p) (scanEntries D 0 (some p) s) = matchTail q (some p) s := by
  intro q
  induction q with
  | nil =>
    intro p s _ _ hp _ _
    cases s with
    | nil => rw [scanEntries_nil]
    | cons c cs =>
      rw [scanEntries_zero_cons]
      cases hfind : D.find? (fun entry => wordMatchAt entry.1 (some p) (c :: cs)) with
      | none => rfl
      | some d =>
        have hm : wordMatchAt d.1 (some p) (c :: cs) = true := by
          simpa using List.find?_some hfind
        have hdD : d ∈ D := List.mem_of_find?_eq_some hfind
        have := (wordMatchAt_start (hwd d hdD) hm).2.1 p rfl
        rw [hp rfl] at this
        exact Bool.noConfusion this
  | cons x rest ih =>
    intro p s hint hcompat _ hlast hrep
    cases s with
    | nil => rw [scanEntries_nil]
    | cons c cs =>
      rw [scanEntries_zero_cons]
      cases hfind : D.find? (fun entry => wordMatchAt entry.1 (some p) (c :: cs)) with
      | some d =>
        have hm : wordMatchAt d.1 (some p) (c :: cs) = true := by
          simpa using List.find?_some hfind
        have hdD : d ∈ D := List.mem_of_find?_eq_some hfind
        obtain ⟨_, hpw, hmt⟩ := wordMatchAt_start (hwd d hdD) hm
        obtain ⟨r, rs, hr, hne⟩ := hrep d hdD
        have hleft : matchTail (x :: rest) (some p)
            (d.2 ++ scanEntries D (d.1.length - 1) (some c) cs) = false := by
          rw [hr, List.cons_append, matchTail_cons_cons]
          have : decide (canonicalize x = canonicalize r) = false := by
            simp only [decide_eq_false_iff_not]
            exact hne x (List.mem_cons_self _ _)
          simp [this]
        have hright : matchTail (x :: rest) (some p) (c :: cs) = false := by
          cases hrt : matchTail (x :: rest) (some p) (c :: cs) with
          | false => rfl
          | true =>
            have hc1 := compatible_of_matchTail d.1 (x :: rest) _ _ _ hmt hrt
            have hc2 := hcompat (hpw p rfl) (by simp) d hdD
            rw [hc1] at hc2
            exact Bool.noConfusion hc2
        simp only [hleft, hright]
      | none =>
        simp only [matchTail_cons_cons]
        by_cases hxc : canonicalize x = canonicalize c
        · have hw : isWordChar x = isWordChar c := isWordChar_of_canonicalize_eq hxc
          obtain ⟨hint', hcomp'⟩ := interiorFree_cons hint
          rw [ih c cs hint']
          · intro hcw hne d hdD
            exact hcomp' (by rw [hw]; exact hcw) hne d (hD d hdD)
          · intro hrest
            rw [← hw]
            exact hlast x (by rw [hrest]; rfl)
          · intro y hy
            exact hlast y (getLast?_tail hy)
          · intro d hdD
            obtain ⟨r, rs, hr, hne⟩ := hrep d hdD
            exact ⟨r, rs, hr, fun ch hch => hne ch (List.mem_cons_of_mem _ hch)⟩
        · have : decide (canonicalize x = canonicalize c) = false := by simpa using hxc
          simp [this]

/-- Passing over the rest of a match: the scan by the smaller table copies the characters
the match covers, so the pass and the scan by the larger table stay in line until the match
is over. -/
theorem replaceWord_skip (table D : List (List Char × List Char))
    (hD : ∀ d ∈ D, d ∈ table) (hwd : ∀ d ∈ D, wordDelimited d.1 = true)
    (pat rep : List Char) (larger : List (List Char × List Char)) :
    ∀ (q : List Char) (p : Char) (s : List Char),
      matchTail q (some p) s = true →
      interiorFree table q = true →
      (isWordChar p = false → q ≠ [] → ∀ d ∈ D, compatible d.1 q = false) →
      (∀ (s' : List Char) (p' : Char), s'.length ≤ s.length →
        replaceWord pat rep 0 (some p') (scanEntries D 0 (some p') s')
          = scanEntries larger 0 (some p') s') →
      replaceWord pat rep q.length (some p) (scanEntries D 0 (some p) s)
        = scanEntries larger q.length (some p) s := by
  intro q
  induction q with
  | nil =>
    intro p s _ _ _ hcont
    exact hcont s p (Nat.le_refl _)
  | cons x rest ih =>
    intro p s hmt hint hcompat hcont
    cases s with
    | nil => simp [matchTail] at hmt
    | cons c cs =>
      have hmt' := hmt
      rw [matchTail_cons_cons, Bool.and_eq_true, decide_eq_true_eq] at hmt'
      obtain ⟨hxc, hrest⟩ := hmt'
      have hnone : D.find? (fun entry => wordMatchAt entry.1 (some p) (c :: cs)) = none := by
        cases hfind : D.find? (fun entry => wordMatchAt entry.1 (some p) (c :: cs)) with
        | none => rfl
        | some d =>
          have hm : wordMatchAt d.1 (some p) (c :: cs) = true := by
            simpa using List.find?_some hfind
          have hdD : d ∈ D := List.mem_of_find?_eq_some hfind
          obtain ⟨_, hpw, hdt⟩ := wordMatchAt_start (hwd d hdD) hm
          have hc1 := compatible_of_matchTail d.1 (x :: rest) _ _ _ hdt hmt
          have hc2 := hcompat (hpw p rfl) (by simp) d hdD
          rw [hc1] at hc2
          exact Bool.noConfusion hc2
      rw [scanEntries_zero_cons, hnone]
      simp only [List.length_cons, replaceWord_succ_cons, scanEntries_succ_cons]
      have hw : isWordChar x = isWordChar c := isWordChar_of_canonicalize_eq hxc
      obtain ⟨hint', hcomp'⟩ := interiorFree_cons hint
      apply ih c cs hrest hint'
      · intro hcw hne d hdD
        exact hcomp' (by rw [hw]; exact hcw) hne d (hD d hdD)
      · intro s' p' hle
        exact hcont s' p' (Nat.le_trans hle (Nat.le_succ _))

theorem find?_append_singleton {table : List (List Char × List Char)}
    (f : List Char × List Char → Bool) (e : List Char × List Char) :
    (table ++ [e]).find? f
      = match table.find? f with
        | some d => some d
        | none => if f e = true then some e else none := by
  rw [List.find?_append]
  cases table.find? f with
  | some d => rfl
  | none =>
    by_cases h : f e = true
    · simp [h]
    · have : f e = false := by simpa using h
      simp [this]

/-- A pass over the output of the scan by a table is the scan by the table with the entry of
the pass added at its end. -/
theorem replaceWord_scanEntries (table : List (List Char × List Char))
    (hT : tableIndependent table = true) (D : List (List Char × List Char))
    (hD : ∀ d ∈ D, d ∈ table) (e : List Char × List Char) (he : e ∈ table) :
    ∀ (n : Nat) (s : List Char), s.length ≤ n →
      ∀ (k : Nat) (pt pm : Option Char), inLine k pt pm s →
        replaceWord e.1 e.2 0 pm (scanEntries D k pt s) = scanEntries (D ++ [e]) k pt s := by
  obtain ⟨hewd, heint, hecross⟩ := tableIndependent_entry hT he
  obtain ⟨q0, qs, hq, hq0⟩ := wordDelimited_head hewd
  have hwd : ∀ d ∈ D, wordDelimited d.1 = true :=
    fun d hd => (tableIndependent_entry hT (hD d hd)).1
  intro n
  induction n with
  | zero =>
    intro s hs k pt pm _
    have : s = [] := List.length_eq_zero.mp (Nat.le_zero.mp hs)
    subst this
    rw [scanEntries_nil, scanEntries_nil, replaceWord_nil]
  | succ n ih =>
    intro s hs k pt pm hline
    cases s with
    | nil => rw [scanEntries_nil, scanEntries_nil, replaceWord_nil]
    | cons c cs =>
      have hcs : cs.length ≤ n := by simpa using hs
      cases k with
      | succ k =>
        rw [scanEntries_succ_cons, scanEntries_succ_cons]
        apply ih cs hcs k (some c) pm
        rcases hline with ⟨h0, _⟩ | h
        · exact absurd h0 (Nat.succ_ne_zero k)
        · exact Or.inr (by simpa using h)
      | zero =>
        rw [scanEntries_zero_cons, scanEntries_zero_cons, find?_append_singleton]
        cases hfind : D.find? (fun entry => wordMatchAt entry.1 pt (c :: cs)) with
        | some d =>
          have hm : wordMatchAt d.1 pt (c :: cs) = true := by
            simpa using List.find?_some hfind
          have hdD : d ∈ D := List.mem_of_find?_eq_some hfind
          obtain ⟨_, _, hdt⟩ := wordMatchAt_start (hwd d hdD) hm
          obtain ⟨d0, ds, hd, _⟩ := wordDelimited_head (hwd d hdD)
          have hblock : ∀ ch ∈ d.2, canonicalize ch ≠ canonicalize q0 := by
            have := (hecross d (hD d hdD)).1
            rw [hq] at this
            exact this
          simp only
          rw [hq, replaceWord_block q0 qs e.2 d.2 pm _ hblock, ← hq]
          congr 1
          apply ih cs hcs (d.1.length - 1) (some c) (lastOr d.2 pm)
          have hend := headNonWord_after_match d.1 pt (c :: cs) hdt
            (fun h => by rw [hd] at h; exact absurd h (List.cons_ne_nil _ _))
            (wordDelimited_last (hwd d hdD))
          rw [hd] at hend ⊢
          exact Or.inr (by simpa using hend)
        | none =>
          simp only
          rw [replaceWord_zero_cons]
          have hagree : wordMatchAt e.1 pm (c :: scanEntries D 0 (some c) cs)
              = wordMatchAt e.1 pt (c :: cs) := by
            rw [wordMatchAt_eq, wordMatchAt_eq, hq, matchTail_cons_cons, matchTail_cons_cons]
            by_cases hxc : canonicalize q0 = canonicalize c
            · have hcw : isWordChar c = true := by
                rw [← isWordChar_of_canonicalize_eq hxc]; exact hq0
              have hpp : pt = pm := by
                rcases hline with ⟨_, h⟩ | h
                · exact h
                · simp [headNonWord, hcw] at h
              have hint := heint
              rw [hq] at hint
              obtain ⟨hint', hcomp'⟩ := interiorFree_cons hint
              have hw : isWordChar q0 = isWordChar c := isWordChar_of_canonicalize_eq hxc
              have hmt : matchTail qs (some c) (scanEntries D 0 (some c) cs)
                  = matchTail qs (some c) cs := by
                apply matchTail_scanEntries table D hD hwd qs c cs hint'
                · intro hcn hne d hdD
                  exact hcomp' (by rw [hw]; exact hcn) hne d (hD d hdD)
                · intro _; exact hcw
                · intro y hy
                  exact wordDelimited_last hewd y (by rw [hq]; exact getLast?_tail hy)
                · intro d hdD
                  obtain ⟨r, rs, hr, hne⟩ := (hecross d (hD d hdD)).2
                  refine ⟨r, rs, hr, fun ch hch => hne ch ?_⟩
                  rw [hq]; exact List.mem_cons_of_mem _ hch
              rw [hpp, hmt]
              simp
            · have : decide (canonicalize q0 = canonicalize c) = false := by simpa using hxc
              simp [this]
          rw [hagree]
          by_cases hm : wordMatchAt e.1 pt (c :: cs) = true
          · simp only [hm, if_true]
            congr 1
            obtain ⟨_, _, het⟩ := wordMatchAt_start hewd hm
            have hlen : e.1.length - 1 = qs.length := by rw [hq]; simp
            rw [hlen]
            rw [hq, matchTail_cons_cons, Bool.and_eq_true, decide_eq_true_eq] at het
            have hint := heint
            rw [hq] at hint
            obtain ⟨hint', hcomp'⟩ := interiorFree_cons hint
            have hw : isWordChar q0 = isWordChar c := isWordChar_of_canonicalize_eq het.1
            apply replaceWord_skip table D hD hwd e.1 e.2 (D ++ [e]) qs c cs het.2 hint'
            · intro hcn hne d hdD
              exact hcomp' (by rw [hw]; exact hcn) hne d (hD d hdD)
            · intro s' p' hle
              exact ih s' (Nat.le_trans hle hcs) 0 (some p') (some p') (Or.inl ⟨rfl, rfl⟩)
          · have hmf : wordMatchAt e.1 pt (c :: cs) = false := by simpa using hm
            simp only [hmf, Bool.false_eq_true, if_false]
            congr 1
            exact ih cs hcs 0 (some c) (some c) (Or.inl ⟨rfl, rfl⟩)

theorem scanEntries_empty_table : ∀ (s : List Char) (prev : Option Char),
    scanEntries [] 0 prev s = s := by
  intro s
  induction s with
  | nil => intro prev; rw [scanEntries_nil]
  | cons c cs ih =>
    intro prev
    rw [scanEntries_zero_cons]
    simp [ih]

/-- Adding at the end of a table an entry the table already has does not change the scan. -/
theorem scanEntries_append_mem (table : List (List Char × List Char))
    (e : List Char × List Char) (he : e ∈ table) :
    ∀ (s : List Char) (k : Nat) (prev : Option Char),
      scanEntries (table ++ [e]) k prev s = scanEntries table k prev s := by
  intro s
  induction s with
  | nil => intro k prev; rw [scanEntries_nil, scanEntries_nil]
  | cons c cs ih =>
    intro k prev
    cases k with
    | succ k => rw [scanEntries_succ_cons, scanEntries_succ_cons, ih]
    | zero =>
      rw [scanEntries_zero_cons, scanEntries_zero_cons, find?_append_singleton]
      cases hfind : table.find? (fun entry => wordMatchAt entry.1 prev (c :: cs)) with
      | some d => simp only [ih]
      | none =>
        have hno := List.find?_eq_none.mp hfind e he
        have hf : wordMatchAt e.1 prev (c :: cs) = false := by simpa using hno
        simp only [hf, Bool.false_eq_true, if_false, ih]

/-- The passes of an independent table, run one after the other, are one scan by the whole
table. -/
theorem foldl_replaceWord (table : List (List Char × List Char))
    (hT : tableIndependent table = true) (text : List Char) :
    ∀ (todo done : List (List Char × List Char)), done ++ todo = table →
      todo.foldl (fun translated entry => replaceWord entry.1 entry.2 0 none translated)
          (scanEntries done 0 none text)
        = scanEntries table 0 none text := by
  intro todo
  induction todo with
  | nil =>
    intro done h
    rw [List.append_nil] at h
    rw [h]; rfl
  | cons e rest ih =>
    intro done h
    have he : e ∈ table := by rw [← h]; simp
    have hdone : ∀ d ∈ done, d ∈ table := by
      intro d hd; rw [← h]; exact List.mem_append_left _ hd
    rw [List.foldl_cons,
      replaceWord_scanEntries table hT done hdone e he text.length text (Nat.le_refl _) 0
        none none (Or.inl ⟨rfl, rfl⟩)]
    exact ih (done ++ [e]) (by rw [List.append_assoc]; exact h)

set_option maxRecDepth 100000 in
theorem dictionaryEntries_independent : tableIndependent dictionaryEntries = true := by
  decide

theorem dictionaryPass_foldl (text : List Char) :
    dictionaryPass text
      = dictionaryEntries.foldl
          (fun translated entry => replaceWord entry.1 entry.2 0 none translated) text := by
  unfold dictionaryPass dictionaryEntries
  rw [List.foldl_map]

/-- The dictionary pass is one scan of the text by the whole table. -/
theorem dictionaryPass_eq_scan (text : List Char) :
    dictionaryPass text = scanEntries dictionaryEntries 0 none text := by
  have h := foldl_replaceWord dictionaryEntries dictionaryEntries_independent text
    dictionaryEntries [] rfl
  rw [scanEntries_empty_table] at h
  rw [dictionaryPass_foldl]
  exact h

/-- Every pass leaves the output of the scan by the whole table as it is. -/
theorem dictionaryPass_scan (text : List Char) :
    dictionaryPass (scanEntries dictionaryEntries 0 none text)
      = scanEntries dictionaryEntries 0 none text := by
  have hstep : ∀ e ∈ dictionaryEntries,
      replaceWord e.1 e.2 0 none (scanEntries dictionaryEntries 0 none text)
        = scanEntries dictionaryEntries 0 none text := by
    intro e he
    rw [replaceWord_scanEntries dictionaryEntries dictionaryEntries_independent
      dictionaryEntries (fun d hd => hd) e he text.length text (Nat.le_refl _) 0 none none
      (Or.inl ⟨rfl, rfl⟩)]
    exact scanEntries_append_mem dictionaryEntries e he text 0 none
  have hfold : ∀ todo : List (List Char × List Char), (∀ e ∈ todo, e ∈ dictionaryEntries) →
      todo.foldl (fun translated entry => replaceWord entry.1 entry.2 0 none translated)
        (scanEntries dictionaryEntries 0 none text)
        = scanEntries dictionaryEntries 0 none text := by
    intro todo
    induction todo with
    | nil => intro _; rfl
    | cons e rest ih =>
      intro h
      rw [List.foldl_cons, hstep e (h e (List.mem_cons_self _ _))]
      exact ih (fun x hx => h x (List.mem_cons_of_mem _ hx))
  rw [dictionaryPass_foldl]
  exact hfold dictionaryEntries (fun e he => he)

/-! ## The dictionary pass in the spec's words -/

theorem canonicalize_toNat (c : Char) :
    (canonicalize c).toNat
      = if 97 ≤ c.toNat ∧ c.toNat ≤ 122 then c.toNat - 32 else c.toNat := by
  unfold canonicalize
  by_cases h : 97 ≤ c.toNat ∧ c.toNat ≤ 122
  · rw [if_pos h, if_pos h]
    obtain ⟨h1, h2⟩ := h
    generalize c.toNat = n at h1 h2
    interval_cases n <;> rfl
  · rw [if_neg h, if_neg h]

theorem asciiLower_toNat (c : Char) :
    (asciiLower c).toNat
      = if 65 ≤ c.toNat ∧ c.toNat ≤ 90 then c.toNat + 32 else c.toNat := by
  unfold asciiLower
  by_cases h : 65 ≤ c.toNat ∧ c.toNat ≤ 90
  · rw [if_pos h, if_pos h]
    obtain ⟨h1, h2⟩ := h
    generalize c.toNat = n at h1 h2
    interval_cases n <;> rfl
  · rw [if_neg h, if_neg h]

theorem char_eq_iff_toNat (a b : Char) : a = b ↔ a.toNat = b.toNat := by
  constructor
  · intro h; rw [h]
  · intro h
    rw [← Char.ofNat_toNat a, ← Char.ofNat_toNat b, h]

/-- Two characters are equal under the case folding of the `i` flag exactly when they are
equal after ASCII lower-casing. -/
theorem canonicalize_eq_iff (a b : Char) :
    canonicalize a = canonicalize b ↔ asciiLower a = asciiLower b := by
  rw [char_eq_iff_toNat, char_eq_iff_toNat (asciiLower a), canonicalize_toNat,
    canonicalize_toNat, asciiLower_toNat, asciiLower_toNat]
  split_ifs <;> omega

theorem canonicalize_eq_lower {q : Char} (hq : asciiLower q = q) (c : Char) :
    canonicalize q = canonicalize c ↔ asciiLower c = q := by
  rw [canonicalize_eq_iff, hq]
  exact eq_comm

theorem isWordBoundary_word_head {y : Char} (hy : isWordChar y = true) (s : List Char) :
    isWordBoundary (some y) s.head? = headNonWord s := by
  cases s with
  | nil => simp [isWordBoundary, headNonWord, hy]
  | cons c cs =>
    simp only [List.head?_cons, isWordBoundary_some_some, hy, headNonWord]
    cases isWordChar c <;> rfl

theorem isWordBoundary_head_word {c : Char} (hc : isWordChar c = true) (prev : Option Char) :
    isWordBoundary prev (some c) = headNonWord prev.toList := by
  cases prev with
  | none => simp [isWordBoundary, headNonWord, hc]
  | some p =>
    simp only [isWordBoundary_some_some, hc, Option.toList, headNonWord]
    cases isWordChar p <;> rfl

/-- The rest of a match, for a lower-case pattern that ends with a word character: the text
starts with the pattern up to letter case, and ends or goes on with a character outside the
word class. -/
theorem matchTail_iff (q : List Char) : ∀ (prev : Option Char) (s : List Char),
    (∀ x ∈ q, asciiLower x = x) →
    (q = [] → ∃ y, prev = some y ∧ isWordChar y = true) →
    (∀ x, q.getLast? = some x → isWordChar x = true) →
    (matchTail q prev s = true ↔
      q.length ≤ s.length ∧ (s.take q.length).map asciiLower = q
        ∧ headNonWord (s.drop q.length) = true) := by
  induction q with
  | nil =>
    intro prev s _ hprev _
    obtain ⟨y, rfl, hy⟩ := hprev rfl
    simp [matchTail, isWordBoundary_word_head hy]
  | cons x qs ih =>
    intro prev s hlow _ hlast
    cases s with
    | nil => simp [matchTail]
    | cons c cs =>
      have hx : asciiLower x = x := hlow x (List.mem_cons_self _ _)
      rw [matchTail_cons_cons, Bool.and_eq_true, decide_eq_true_eq, canonicalize_eq_lower hx]
      have hstep : asciiLower c = x →
          (matchTail qs (some c) cs = true ↔
            qs.length ≤ cs.length ∧ (cs.take qs.length).map asciiLower = qs
              ∧ headNonWord (cs.drop qs.length) = true) := by
        intro hc
        apply ih (some c) cs
        · intro z hz; exact hlow z (List.mem_cons_of_mem _ hz)
        · intro hnil
          refine ⟨c, rfl, ?_⟩
          have hxw : isWordChar x = true := hlast x (by rw [hnil]; rfl)
          have hcc : canonicalize x = canonicalize c := (canonicalize_eq_lower hx c).2 hc
          rw [← isWordChar_of_canonicalize_eq hcc]; exact hxw
        · intro z hz
          apply hlast z
          cases qs with
          | nil => simp at hz
          | cons a as => rw [List.getLast?_cons_cons]; exact hz
      simp only [List.length_cons, List.take_succ_cons, List.map_cons, List.drop_succ_cons,
        List.cons.injEq, Nat.add_le_add_iff_right]
      constructor
      · rintro ⟨hc, hm⟩
        obtain ⟨h1, h2, h3⟩ := (hstep hc).1 hm
        exact ⟨h1, ⟨hc, h2⟩, h3⟩
      · rintro ⟨h1, ⟨hc, h2⟩, h3⟩
        exact ⟨hc, (hstep hc).2 ⟨h1, h2, h3⟩⟩

/-- For a lower-case pattern that starts and ends with a word character, the expression
`\bpat\b` with the flag `i` matches exactly at the whole-word occurrences of the pattern. -/
theorem wordMatchAt_eq_isWholeWordAt {pat : List Char} (hdel : wordDelimited pat = true)
    (hlow : ∀ x ∈ pat, asciiLower x = x) (prev : Option Char) (s : List Char) :
    wordMatchAt pat prev s = isWholeWordAt pat prev s := by
  obtain ⟨q, qs, rfl, hq⟩ := wordDelimited_head hdel
  have hiff := matchTail_iff (q :: qs) prev s hlow (fun h => by cases h)
    (wordDelimited_last hdel)
  rw [wordMatchAt_eq]
  cases s with
  | nil => simp [isWholeWordAt, matchTail]
  | cons c cs =>
    rw [Bool.eq_iff_iff]
    simp only [Bool.and_eq_true, isWholeWordAt, decide_eq_true_eq, List.head?_cons]
    rw [hiff]
    constructor
    · rintro ⟨hb, h1, h2, h3⟩
      refine ⟨⟨⟨h1, h2⟩, ?_⟩, h3⟩
      have hc : asciiLower c = q := by
        simp only [List.length_cons, List.take_succ_cons, List.map_cons, List.cons.injEq] at h2
        exact h2.1
      have hcw : isWordChar c = true := by
        have hcc := (canonicalize_eq_lower (hlow q (List.mem_cons_self _ _)) c).2 hc
        rw [← isWordChar_of_canonicalize_eq hcc]; exact hq
      rw [← isWordBoundary_head_word hcw]; exact hb
    · rintro ⟨⟨⟨h1, h2⟩, hp⟩, h3⟩
      refine ⟨?_, h1, h2, h3⟩
      have hc : asciiLower c = q := by
        simp only [List.length_cons, List.take_succ_cons, List.map_cons, List.cons.injEq] at h2
        exact h2.1
      have hcw : isWordChar c = true := by
        have hcc := (canonicalize_eq_lower (hlow q (List.mem_cons_self _ _)) c).2 hc
        rw [← isWordChar_of_canonicalize_eq hcc]; exact hq
      rw [isWordBoundary_head_word hcw]; exact hp

theorem find?_congr_mem {α : Type} (p q : α → Bool) (l : List α)
    (h : ∀ a ∈ l, p a = q a) : l.find? p = l.find? q := by
  induction l with
  | nil => rfl
  | cons a as ih =>
    rw [List.find?_cons, List.find?_cons, h a (List.mem_cons_self _ _),
      ih (fun b hb => h b (List.mem_cons_of_mem _ hb))]

/-- The scan with the regular expression is the scan for whole-word occurrences. -/
theorem scanEntries_eq_replaceWholeWords (table : List (List Char × List Char))
    (hdel : ∀ entry ∈ table, wordDelimited entry.1 = true)
    (hlow : ∀ entry ∈ table, ∀ x ∈ entry.1, asciiLower x = x) (s : List Char) :
    ∀ (skip : Nat) (prev : Option Char),
    scanEntries table skip prev s = replaceWholeWords table skip prev s := by
  induction s with
  | nil => intro skip prev; cases skip <;> rw [scanEntries, replaceWholeWords]
  | cons c cs ih =>
    intro skip prev
    cases skip with
    | succ k => rw [scanEntries, replaceWholeWords, ih]
    | zero =>
      rw [scanEntries, replaceWholeWords]
      rw [find?_congr_mem (fun entry => wordMatchAt entry.1 prev (c :: cs))
        (fun entry => isWholeWordAt entry.1 prev (c :: cs)) table
        (fun e he => wordMatchAt_eq_isWholeWordAt (hdel e he) (hlow e he) prev (c :: cs))]
      cases table.find? (fun entry => isWholeWordAt entry.1 prev (c :: cs)) with
      | none => simp only [ih]
      | some e => simp only [ih]

theorem dictionaryEntries_wordDelimited :
    ∀ entry ∈ dictionaryEntries, wordDelimited entry.1 = true := by
  decide

theorem dictionaryEntries_lowerCased :
    ∀ entry ∈ dictionaryEntries, ∀ x ∈ entry.1, asciiLower x = x := by
  decide

theorem dictionaryPass_eq_replaceWholeWords (text : List Char) :
    dictionaryPass text = replaceWholeWords dictionaryEntries 0 none text := by
  rw [dictionaryPass_eq_scan]
  exact scanEntries_eq_replaceWholeWords dictionaryEntries dictionaryEntries_wordDelimited
    dictionaryEntries_lowerCased text 0 none

/-- Where no entry occurs as a whole word, the reading copies the text. -/
theorem replaceWholeWords_copy (table : List (List Char × List Char)) (after : List Char) :
    ∀ (before : List Char),
    (∀ (b a : List Char), before ++ after = b ++ a →
      before.length ≤ b.length →
      ∀ entry ∈ table, isWholeWordAt entry.1 b.getLast? a = false) →
    replaceWholeWords table 0 before.getLast? after = after := by
  induction after with
  | nil => intro before _; rw [replaceWholeWords]
  | cons c cs ih =>
    intro before h
    rw [replaceWholeWords]
    have hnone : table.find? (fun entry => isWholeWordAt entry.1 before.getLast? (c :: cs))
        = none := by
      rw [List.find?_eq_none]
      intro e he
      rw [h before (c :: cs) rfl (le_refl _) e he]
      simp
    rw [hnone]
    have hih := ih (before ++ [c]) (by
      intro b a hba hlen e he
      apply h b a _ _ e he
      · rw [← hba]; simp
      · simp at hlen; omega)
    simp only [List.getLast?_append, List.getLast?_singleton, Option.or] at hih
    simp only [hih]

/-- Every single pass leaves the output of the scan by the whole table as it is. -/
theorem replaceWord_fixes_scan (text : List Char) (e : List Char × List Char)
    (he : e ∈ dictionaryEntries) :
    replaceWord e.1 e.2 0 none (scanEntries dictionaryEntries 0 none text)
      = scanEntries dictionaryEntries 0 none text := by
  rw [replaceWord_scanEntries dictionaryEntries dictionaryEntries_independent
    dictionaryEntries (fun d hd => hd) e he text.length text (Nat.le_refl _) 0 none none
    (Or.inl ⟨rfl, rfl⟩)]
  exact scanEntries_append_mem dictionaryEntries e he text 0 none

/-- A text that a pass leaves as it is holds no match of the pattern, when the value starts
with a character that does not occur in the pattern. -/
theorem no_match_of_fixed (q : Char) (qs : List Char) (r : Char) (rs : List Char)
    (hr : ∀ ch ∈ q :: qs, canonicalize ch ≠ canonicalize r) (before : List Char) :
    ∀ (prev : Option Char) (after : List Char),
    replaceWord (q :: qs) (r :: rs) 0 prev (before ++ after) = before ++ after →
    wordMatchAt (q :: qs) (lastOr before prev) after = false := by
  have hhead : ∀ (prev : Option Char) (c : Char) (cs : List Char),
      replaceWord (q :: qs) (r :: rs) 0 prev (c :: cs) = c :: cs →
      wordMatchAt (q :: qs) prev (c :: cs) = false := by
    intro prev c cs hfix
    cases hm : wordMatchAt (q :: qs) prev (c :: cs) with
    | false => rfl
    | true =>
      exfalso
      rw [replaceWord_zero_cons, if_pos hm] at hfix
      have hrc : r = c := by
        simp only [List.cons_append, List.cons.injEq] at hfix
        exact hfix.1
      rw [wordMatchAt_eq, matchTail_cons_cons, Bool.and_eq_true, Bool.and_eq_true,
        decide_eq_true_eq] at hm
      exact hr q (List.mem_cons_self _ _) (by rw [hrc]; exact hm.2.1)
  induction before with
  | nil =>
    intro prev after hfix
    cases after with
    | nil => rw [wordMatchAt_eq]; simp [matchTail]
    | cons c cs => exact hhead prev c cs hfix
  | cons x rest ih =>
    intro prev after hfix
    rw [List.cons_append] at hfix
    have hno := hhead prev x (rest ++ after) hfix
    rw [replaceWord_zero_cons, hno] at hfix
    simp only [Bool.false_eq_true, if_false, List.cons.injEq, true_and] at hfix
    exact ih (some x) after hfix

theorem getLast?_eq_lastOr (before : List Char) : before.getLast? = lastOr before none := by
  rw [← lastOr_eq]
  cases before.getLast? <;> rfl

/-- The checker `noWholeWord` looks at every way to cut the text in two. -/
theorem noWholeWord_iff (table : List (List Char × List Char)) (text : List Char) :
    noWholeWord table text = true ↔
      ∀ (before after : List Char), text = before ++ after →
        ∀ entry ∈ table, isWholeWordAt entry.1 before.getLast? after = false := by
  unfold noWholeWord
  simp only [List.all_eq_true, List.mem_range, Bool.not_eq_true']
  constructor
  · intro h before after hcut entry he
    have := h before.length (by rw [hcut, List.length_append]; omega) entry he
    rw [hcut] at this
    simpa using this
  · intro h i _ entry he
    exact h (text.take i) (text.drop i) (List.take_append_drop i text).symm entry he

/-- The output of the dictionary pass holds no whole-word occurrence of any entry. -/
theorem noWholeWord_dictionaryPass (text : List Char) :
    noWholeWord dictionaryEntries (dictionaryPass text) = true := by
  rw [noWholeWord_iff]
  intro before after hcut entry he
  rw [← wordMatchAt_eq_isWholeWordAt (dictionaryEntries_wordDelimited entry he)
    (dictionaryEntries_lowerCased entry he), getLast?_eq_lastOr]
  obtain ⟨hdel, _, hother⟩ := tableIndependent_entry dictionaryEntries_independent he
  obtain ⟨q, qs, hpat, _⟩ := wordDelimited_head hdel
  obtain ⟨_, r, rs, hrep, hr⟩ := hother entry he
  have hfix := replaceWord_fixes_scan text entry he
  rw [← dictionaryPass_eq_scan, hcut, hpat, hrep] at hfix
  rw [hpat]
  rw [hpat] at hr
  exact no_match_of_fixed q qs r rs hr before none after hfix

/-- Where no entry occurs as a whole word, the dictionary pass returns the text as it is. -/
theorem dictionaryPass_copy (text : List Char)
    (h : noWholeWord dictionaryEntries text = true) : dictionaryPass text = text := by
  rw [dictionaryPass_eq_replaceWholeWords]
  rw [noWholeWord_iff] at h
  have := replaceWholeWords_copy dictionaryEntries text [] (by
    intro b a hba _ entry he
    exact h b a (by simpa using hba) entry he)
  simpa using this

/-- The word class of the regular expression is the ASCII one: a letter outside ASCII
delimits a word, so the `or` that ends `señor` is matched as a whole word. -/
theorem dictionaryPass_ascii_boundary :
    dictionaryPass "señor".toList = "señया".toList := by
  decide

/-- C21: the local-dictionary tier of `translateToHindi` is one reading of the text that
replaces every whole-word occurrence of a dictionary entry, in any letter case, by the
entry's Hindi value and copies all other text; a text in which no entry occurs as a whole
word comes out unchanged, as does `order`, which only contains `or`.  Words are delimited as
the regular expression does: by characters other than ASCII letters, digits and the
underscore. -/
theorem dictionaryPass_replaces_whole_words (text : List Char) :
    dictionaryPass text = replaceWholeWords dictionaryEntries 0 none text
      ∧ (noWholeWord dictionaryEntries text = true → dictionaryPass text = text)
      ∧ dictionaryPass "order".toList = "order".toList
      ∧ dictionaryPass "The PARTY and the Border".toList
          = "यह पक्ष और यह Border".toList :=
  ⟨dictionaryPass_eq_replaceWholeWords text, dictionaryPass_copy text, by decide, by decide⟩

theorem dictionaryPass_replaces_whole_words_witness :
    noWholeWord dictionaryEntries "a new order".toList = true
      ∧ dictionaryPass "a new order".toList = "a new order".toList :=
  ⟨by decide,
    (dictionaryPass_replaces_whole_words "a new order".toList).2.1 (by decide)⟩

/-- C30: the dictionary pass of `translateToHindi` is idempotent: applied to its own output
it returns that output unchanged; no value of the table holds a Latin letter, and the output
of the pass holds no whole-word occurrence of any entry. -/
theorem dictionaryPass_idempotent (text : List Char) :
    dictionaryPass (dictionaryPass text) = dictionaryPass text
      ∧ valuesWithoutLatin dictionaryEntries = true
      ∧ noWholeWord dictionaryEntries (dictionaryPass text) = true := by
  refine ⟨?_, by decide, noWholeWord_dictionaryPass text⟩
  rw [dictionaryPass_eq_scan text]
  exact dictionaryPass_scan text

end NyayaSetu
